import Mathlib

/-!
Verification development for the MDL molfile / CTAB parser in
`Code/GraphMol/FileParsers/MolFileParser.cpp`.

The parser is shallowly embedded: each C++ function becomes a Lean
definition of the same name operating on explicit state.  Text is `List
Char`; the input stream is a list of lines (each line of the original byte
stream is assumed to be newline-terminated, so `std::getline` sets `eof`
exactly when the remaining line list is empty).  C++ `int` values are
modelled as `Int`, with explicit conversion through `uint32` at the places
where the source converts to `unsigned int`.  Floating-point values
(coordinates, atomic masses) are modelled as exact rationals; no claim
depends on floating-point rounding.  External collaborators that are not
part of the parser source (the molecular-graph interface, the periodic
table, the downstream sanitization passes) are modelled from the
specification and marked as such in their doc comments.
-/

/-- Error kinds of the embedded parser.  `badLexicalCast` models
`boost::bad_lexical_cast`, `outOfRange` models `std::out_of_range` thrown
by `std::string::substr` when the position is past the end, `fileParse`
models `FileParseException` (message strings are reproduced from the
source, with quote characters omitted), and `invariantViolation` models
`Invar::Invariant` thrown by `PRECONDITION` / `RANGE_CHECK` macros. -/
inductive ParseErr where
  | badLexicalCast : ParseErr
  | outOfRange : ParseErr
  | fileParse : String → ParseErr
  | invariantViolation : String → ParseErr
  | fuelExhausted : ParseErr
deriving DecidableEq, Repr

/-- A line of text, as a list of characters. -/
abbrev Line := List Char

/-- Shorthand turning a string literal into a character list. -/
def strL (s : String) : Line := s.data

/-- Whitespace test matching `std::isspace` in the C locale. -/
def isSpaceC (c : Char) : Bool :=
  c = ' ' || c = '\t' || c = '\n' || c = '\x0b' || c = '\x0c' || c = '\r'

/-- Model of `boost::trim_copy`: strip whitespace from both ends. -/
def trimC (s : Line) : Line :=
  ((s.dropWhile isSpaceC).reverse.dropWhile isSpaceC).reverse

/-- Model of `std::string::operator[]` at an index that is in range or one
past the end (C++11 guarantees the null character at `size()`). -/
def charAtD (s : Line) (i : Nat) : Char := s.getD i (Char.ofNat 0)

/-- Model of `std::string::substr(pos, len)`: throws `std::out_of_range`
when `pos` is past the end, otherwise clamps `len`. -/
def substrE (s : Line) (pos len : Nat) : Except ParseErr Line :=
  if pos > s.length then .error .outOfRange else .ok ((s.drop pos).take len)

/-- Clamped substring, used only to build error-message text (where the
source would re-slice inside a catch block). -/
def subClamp (s : Line) (pos len : Nat) : Line := (s.drop pos).take len

/-- Take the first `n` characters (total model of `substr(0, n)`). -/
def takeC (s : Line) (n : Nat) : Line := s.take n

/-- Value of a decimal-digit prefix, accumulator style (the core loop of
`atoi`). -/
def digitsVal : Line → Nat → Nat
  | c :: cs, acc => if c.isDigit then digitsVal cs (acc * 10 + (c.toNat - 48)) else acc
  | [], acc => acc

/-- Model of C `atoi`: skip leading whitespace, read an optional sign and
a decimal-digit prefix; return 0 when no digits are present.  (Overflow of
the C `int` range is undefined behaviour in the source and is not
modelled; no claim exercises it.) -/
def atoiModel (s : Line) : Int :=
  let s1 := s.dropWhile isSpaceC
  match s1 with
  | '-' :: rest => -(digitsVal rest 0 : Int)
  | '+' :: rest => (digitsVal rest 0 : Int)
  | _ => (digitsVal s1 0 : Int)

/-- Conversion of an `Int` to the value of the corresponding C
`unsigned int` (reduction modulo 2^32). -/
def uint32 (i : Int) : Nat := (i % 4294967296).toNat

/-- The helper `toInt(input, acceptSpaces)` of the source: `atoi`, plus a
`bad_lexical_cast` for all-whitespace fields that begin with a space when
spaces are not accepted. -/
def toInt (input : Line) (acceptSpaces : Bool := false) : Except ParseErr Int :=
  let res := atoiModel input
  if res = 0 ∧ acceptSpaces = false ∧ charAtD input 0 = ' ' then
    if (trimC input).length = 0 then .error .badLexicalCast else .ok res
  else .ok res

/-- Exact rationals as unreduced fractions.  Every value the parser
builds has a positive denominator; keeping fractions unreduced avoids
`Nat.gcd` normalization, so all arithmetic reduces definitionally.  The
parser's floating-point values (coordinates, masses) are modelled with
this type; no claim depends on floating-point rounding, only on the
values being computed deterministically and compared exactly. -/
structure Frac where
  num : Int := 0
  den : Int := 1
deriving DecidableEq, Repr

instance : OfNat Frac n := ⟨⟨(n : Int), 1⟩⟩

def Frac.ofInt (i : Int) : Frac := ⟨i, 1⟩

def Frac.add (a b : Frac) : Frac := ⟨a.num * b.den + b.num * a.den, a.den * b.den⟩

def Frac.neg (a : Frac) : Frac := ⟨-a.num, a.den⟩

/-- `q ≤ 0`, valid for the positive denominators the parser builds. -/
def Frac.nonpos (a : Frac) : Bool := a.num ≤ 0

/-- `q == 0`, valid for nonzero denominators. -/
def Frac.isZero (a : Frac) : Bool := a.num = 0

/-- Model of C `atof` restricted to plain decimal notation
(sign, digits, optional fractional part).  Coordinates are the only
consumers; their numeric values are not load-bearing for any claim, and
the exact reading is deterministic, which is all the claims need. -/
def atofModel (s : Line) : Frac :=
  let s1 := s.dropWhile isSpaceC
  let signed : Bool × Line :=
    match s1 with
    | '-' :: rest => (true, rest)
    | '+' :: rest => (false, rest)
    | _ => (false, s1)
  let intPart : Nat := digitsVal signed.2 0
  let rest2 := signed.2.dropWhile (fun c => c.isDigit)
  let frac : Frac :=
    match rest2 with
    | '.' :: ds =>
      let fd := ds.takeWhile (fun c => c.isDigit)
      ⟨(digitsVal fd 0 : Int), ((10 ^ fd.length : Nat) : Int)⟩
    | _ => 0
  let mag : Frac := Frac.add ⟨(intPart : Int), 1⟩ frac
  if signed.1 then mag.neg else mag

/-- The helper `toDouble(input, acceptSpaces)` of the source. -/
def toDouble (input : Line) (acceptSpaces : Bool := true) : Except ParseErr Frac :=
  let res := atofModel input
  if res.isZero ∧ acceptSpaces = false ∧ charAtD input 0 = ' ' then
    if (trimC input).length = 0 then .error .badLexicalCast else .ok res
  else .ok res

/-- The helper `stripSpacesAndCast<unsigned int>`: trim, then strict
`boost::lexical_cast<unsigned int>` (digits only; anything else, a sign
included, throws `bad_lexical_cast`). -/
def stripSpacesAndCastUInt (input : Line) (acceptSpaces : Bool := false) : Except ParseErr Nat :=
  let trimmed := trimC input
  if acceptSpaces ∧ trimmed = [] then .ok 0
  else if trimmed ≠ [] ∧ trimmed.all (fun c => c.isDigit) then .ok (digitsVal trimmed 0)
  else .error .badLexicalCast

/-- Catch `boost::bad_lexical_cast` and rethrow it as a
`FileParseException` with the given message; any other error (such as
`std::out_of_range`) passes through uncaught, as in the source. -/
def wrapBadCast {α : Type} (act : Except ParseErr α) (msg : String) : Except ParseErr α :=
  match act with
  | .error .badLexicalCast => .error (.fileParse msg)
  | other => other

/-- Standard message of the numeric-conversion catch blocks. -/
def cannotConvert (field : Line) : String :=
  "Cannot convert " ++ String.mk field ++ " to int"

/-- Modelled from the spec: the external periodic-table service
(`element_by_symbol`, §1).  A finite symbol table; unknown symbols map to
atomic number 0.  Only the listed elements appear in concrete inputs, and
no claim depends on the behaviour for unknown symbols. -/
def ptableEntries : List (Line × Int) :=
  [(strL "H", 1), (strL "He", 2), (strL "Li", 3), (strL "B", 5), (strL "C", 6),
   (strL "N", 7), (strL "O", 8), (strL "F", 9), (strL "Na", 11), (strL "P", 15),
   (strL "S", 16), (strL "Cl", 17), (strL "Fe", 26), (strL "Br", 35), (strL "I", 53)]

/-- Modelled from the spec: `PeriodicTable::getAtomicNumber`. -/
def getAtomicNumber (symb : Line) : Int := ((ptableEntries.lookup symb).getD 0)

/-- Modelled from the spec: the external weight table
(`weight_by_number`, §1); standard atomic weights as exact rationals,
0 for numbers outside the table. -/
def wtableEntries : List (Int × Frac) :=
  [(1, ⟨1008, 1000⟩), (2, ⟨4003, 1000⟩), (3, ⟨6940, 1000⟩), (5, ⟨10810, 1000⟩),
   (6, ⟨12011, 1000⟩), (7, ⟨14007, 1000⟩), (8, ⟨15999, 1000⟩), (9, ⟨18998, 1000⟩),
   (11, ⟨22990, 1000⟩), (15, ⟨30974, 1000⟩), (16, ⟨32060, 1000⟩), (17, ⟨35450, 1000⟩),
   (26, ⟨55845, 1000⟩), (35, ⟨79904, 1000⟩), (53, ⟨126904, 1000⟩)]

/-- Modelled from the spec: `PeriodicTable::getAtomicWeight`. -/
def getAtomicWeight (z : Int) : Frac := ((wtableEntries.lookup z).getD 0)

/-- The C++ cast `static_cast<int>(double)`: truncation toward zero,
which on exact fractions is truncating division of numerator by
denominator. -/
def cppIntCast (q : Frac) : Int := Int.tdiv q.num q.den

/-- The magic sentinel.  The source writes `-0xDEADBEEF`; `0xDEADBEEF`
has type `unsigned int` in C++, so the unary minus is computed modulo
2^32 and the `int` actually stored and compared is positive. -/
def MAGIC : Int := 4294967296 - 0xDEADBEEF

/-- Kinds of query-tree nodes: the leaf data functions of the source plus
the `And` / `Or` combinators. -/
inductive QKind where
  | atomNum | formalCharge | massQ | explicitDegree | ringBondCount
  | ringBondCountLE | unsaturated | hCountQ | nullQ | andQ | orQ
deriving DecidableEq, Repr

mutual
inductive AQuery where
  | node : QKind → Int → Bool → AQueryL → AQuery
inductive AQueryL where
  | nil : AQueryL
  | cons : AQuery → AQueryL → AQueryL
end

def AQuery.leaf (k : QKind) (v : Int) : AQuery := .node k v false .nil

def makeAtomNumEqualsQuery (v : Int) : AQuery := .leaf .atomNum v
def makeAtomFormalChargeQuery (v : Int) : AQuery := .leaf .formalCharge v
def makeAtomMassQuery (v : Int) : AQuery := .leaf .massQ v
def makeAtomExplicitDegreeQuery (v : Int) : AQuery := .leaf .explicitDegree v
def makeAtomRingBondCountQuery (v : Int) : AQuery := .leaf .ringBondCount v
def makeAtomHCountQuery (v : Int) : AQuery := .leaf .hCountQ v
def makeAtomUnsaturatedQuery : AQuery := .leaf .unsaturated 1
def makeAtomNullQuery : AQuery := .leaf .nullQ 0

def AQuery.setVal : AQuery → Int → AQuery
  | .node k _ n cs, v => .node k v n cs

def AQuery.setNeg : AQuery → Bool → AQuery
  | .node k v _ cs, b => .node k v b cs

def qlAppend : AQueryL → AQueryL → AQueryL
  | .nil, l => l
  | .cons q t, l => .cons q (qlAppend t l)

def AQuery.addChild : AQuery → AQuery → AQuery
  | .node k v n cs, c => .node k v n (qlAppend cs (.cons c .nil))

/-- `Queries::Query::expandQuery` builds a composite node whose children
are the old query followed by the new one. -/
def combineQ (how : QKind) (old new : AQuery) : AQuery :=
  .node how 0 false (.cons old (.cons new .nil))

mutual
def qHasMagic : AQuery → Bool
  | .node _ v _ cs => (v == MAGIC) || qlHasMagic cs
def qlHasMagic : AQueryL → Bool
  | .nil => false
  | .cons q l => qHasMagic q || qlHasMagic l
end

/-- Bond query trees (order queries, ring membership, the null query and
binary combinators); they are never visited by the completion pass. -/
inductive BondType where
  | SINGLE | DOUBLE | TRIPLE | AROMATIC | UNSPECIFIED
deriving DecidableEq, Repr

inductive BondDir where
  | NONE | BEGINWEDGE | BEGINDASH | EITHERDOUBLE | UNKNOWN
deriving DecidableEq, Repr

inductive BondStereo where
  | STEREONONE | STEREOANY
deriving DecidableEq, Repr

inductive BQuery where
  | orderEq : BondType → BQuery
  | isInRing : Bool → BQuery
  | nullB : BQuery
  | orB : BQuery → BQuery → BQuery
  | andB : BQuery → BQuery → BQuery
deriving DecidableEq, Repr

/-- Property values stored in the named-property bags. -/
inductive PropVal where
  | iv : Int → PropVal
  | sv : Line → PropVal
  | bv : Bool → PropVal
deriving DecidableEq, Repr

abbrev Props := List (String × PropVal)

def setPropP (ps : Props) (k : String) (v : PropVal) : Props :=
  if ps.any (fun p => p.1 = k) then ps.map (fun p => if p.1 = k then (k, v) else p)
  else ps ++ [(k, v)]

def hasPropP (ps : Props) (k : String) : Bool := ps.any (fun p => p.1 = k)

def clearPropP (ps : Props) (k : String) : Props := ps.filter (fun p => p.1 ≠ k)

structure Atom where
  atomicNum : Int := 0
  formalCharge : Int := 0
  mass : Frac := 0
  numRadicalElectrons : Nat := 0
  noImplicit : Bool := false
  isAromatic : Bool := false
  props : Props := []
  query : Option AQuery := none

/-- Modelled from the spec: the `Atom(num)` constructor seeds the mass
with the standard atomic weight. -/
def mkAtomZ (num : Int) : Atom := { atomicNum := num, mass := getAtomicWeight num }

/-- Modelled from the spec (§4.4, promotion): a `QueryAtom` constructed
from a plain atom copies the scalar fields and seeds the query with an
atomic-number equality query on the atom's atomic number. -/
def queryAtomFromAtom (a : Atom) : Atom :=
  { a with query := some (makeAtomNumEqualsQuery a.atomicNum) }

/-- `QueryAtom(num)`: scalar fields of `Atom(num)` plus the seeded
atomic-number query. -/
def mkQueryAtomZ (num : Int) : Atom := queryAtomFromAtom (mkAtomZ num)

def Atom.hasQuery (a : Atom) : Bool := a.query.isSome

def Atom.expandQuery (a : Atom) (q : AQuery) (how : QKind := .andQ) : Atom :=
  match a.query with
  | some old => { a with query := some (combineQ how old q) }
  | none => { a with query := some q }

def Atom.setQuery (a : Atom) (q : AQuery) : Atom := { a with query := some q }

def Atom.setProp (a : Atom) (k : String) (v : PropVal) : Atom :=
  { a with props := setPropP a.props k v }

def Atom.hasProp (a : Atom) (k : String) : Bool := hasPropP a.props k

def atomHasMagic (a : Atom) : Bool :=
  match a.query with
  | some q => qHasMagic q
  | none => false

structure Bond where
  bondType : BondType := .UNSPECIFIED
  beginAtomIdx : Nat := 0
  endAtomIdx : Nat := 0
  dir : BondDir := .NONE
  stereo : BondStereo := .STEREONONE
  isAromatic : Bool := false
  props : Props := []
  query : Option BQuery := none

def Bond.hasQuery (b : Bond) : Bool := b.query.isSome

def Bond.expandQuery (b : Bond) (q : BQuery) : Bond :=
  match b.query with
  | some old => { b with query := some (.andB old q) }
  | none => { b with query := some q }

def Bond.setProp (b : Bond) (k : String) (v : PropVal) : Bond :=
  { b with props := setPropP b.props k v }

structure Point3 where
  x : Frac := 0
  y : Frac := 0
  z : Frac := 0
deriving DecidableEq, Repr

/-- Modelled from the spec: the conformer is a dense positions array,
sized by its constructor argument, with an `is3d` flag. -/
structure Conformer where
  positions : List Point3 := []
  is3d : Bool := true

def Conformer.create (n : Nat) : Conformer := { positions := List.replicate n {} }

def Conformer.setAtomPos (c : Conformer) (i : Nat) (p : Point3) : Conformer :=
  { c with positions := c.positions.set i p }

def Conformer.set3D (c : Conformer) (b : Bool) : Conformer := { c with is3d := b }

structure Mol where
  atoms : List Atom := []
  bonds : List Bond := []
  conformers : List Conformer := []
  props : Props := []
  atomBookmarks : List (Nat × Nat) := []
  bondBookmarks : List (Nat × Nat) := []

def Mol.numAtoms (m : Mol) : Nat := m.atoms.length

/-- Modelled from the spec: `RWMol::addAtom(atom, false, true)` appends
the atom and returns its new index. -/
def Mol.addAtom (m : Mol) (a : Atom) : Mol × Nat :=
  ({ m with atoms := m.atoms ++ [a] }, m.atoms.length)

/-- Modelled from the spec (§3 invariants): `ROMol::addBond(bond, true)`
requires both endpoint indices in range and distinct from each other,
failing with a precondition violation otherwise. -/
def Mol.addBond (m : Mol) (b : Bond) : Except ParseErr Mol :=
  if b.beginAtomIdx < m.atoms.length ∧ b.endAtomIdx < m.atoms.length ∧
     b.beginAtomIdx ≠ b.endAtomIdx
  then .ok { m with bonds := m.bonds ++ [b] }
  else .error (.invariantViolation "addBond")

/-- Modelled from the spec: `ROMol::getAtomWithIdx` has an in-range
precondition. -/
def Mol.getAtomWithIdx (m : Mol) (i : Nat) : Except ParseErr Atom :=
  match m.atoms.get? i with
  | some a => .ok a
  | none => .error (.invariantViolation "getAtomWithIdx")

def Mol.replaceAtom (m : Mol) (i : Nat) (a : Atom) : Mol :=
  { m with atoms := m.atoms.set i a }

def Mol.modifyAtom (m : Mol) (i : Nat) (f : Atom → Atom) : Mol :=
  match m.atoms.get? i with
  | some a => m.replaceAtom i (f a)
  | none => m

def Mol.setProp (m : Mol) (k : String) (v : PropVal) : Mol :=
  { m with props := setPropP m.props k v }

def Mol.hasProp (m : Mol) (k : String) : Bool := hasPropP m.props k

def Mol.clearProp (m : Mol) (k : String) : Mol :=
  { m with props := clearPropP m.props k }

def Mol.addConformer (m : Mol) (c : Conformer) : Mol :=
  { m with conformers := m.conformers ++ [c] }

def Mol.setAtomBookmark (m : Mol) (idx bookmark : Nat) : Mol :=
  { m with atomBookmarks := m.atomBookmarks ++ [(bookmark, idx)] }

def Mol.setBondBookmark (m : Mol) (idx bookmark : Nat) : Mol :=
  { m with bondBookmarks := m.bondBookmarks ++ [(bookmark, idx)] }

/-- Modelled from the spec: `ROMol::getAtomWithBookmark` precondition
(the bookmark must exist). -/
def Mol.getAtomWithBookmark (m : Mol) (bookmark : Nat) : Except ParseErr Nat :=
  match m.atomBookmarks.lookup bookmark with
  | some i => .ok i
  | none => .error (.invariantViolation "getAtomWithBookmark")

/-- `Atom::getDegree` on an atom inside the molecule: the number of
incident bonds. -/
def molDegree (m : Mol) (i : Nat) : Nat :=
  (m.bonds.filter (fun b => b.beginAtomIdx = i || b.endAtomIdx = i)).length

def molHasMagic (m : Mol) : Bool := m.atoms.any atomHasMagic

/-- Model of `RANGE_CHECK(lo, v, hi)` (an `Invar::Invariant`, not a
`FileParseException`). -/
def rangeCheckI (lo v hi : Int) : Except ParseErr Unit :=
  if lo ≤ v ∧ v ≤ hi then .ok () else .error (.invariantViolation "range check")

/-- Modelled from the spec (§4.8): a leaf's data function evaluated on
its owning atom in the finished graph.  Ring perception lives in an
external collaborator; the ring-bond-count observable is modelled as the
atom's incident-bond count, which has the only properties the claims use
(a concrete nonnegative count derived from the final graph). -/
def evalDataFunc (m : Mol) (i : Nat) (k : QKind) : Int :=
  match k with
  | .ringBondCount => (molDegree m i : Int)
  | .ringBondCountLE => (molDegree m i : Int)
  | .explicitDegree => (molDegree m i : Int)
  | .atomNum => ((m.atoms.get? i).getD {}).atomicNum
  | .formalCharge => ((m.atoms.get? i).getD {}).formalCharge
  | .massQ => cppIntCast ((m.atoms.get? i).getD {}).mass
  | _ => 0

mutual
def completeQueryAndChildren (m : Mol) (i : Nat) : AQuery → AQuery
  | .node k v n cs =>
    .node k (if v = MAGIC then evalDataFunc m i k else v) n (completeChildren m i cs)
def completeChildren (m : Mol) (i : Nat) : AQueryL → AQueryL
  | .nil => .nil
  | .cons q l => .cons (completeQueryAndChildren m i q) (completeChildren m i l)
end

/-- `CompleteMolQueries`: walk every atom that has a query and resolve
magic-valued nodes depth-first. -/
def CompleteMolQueries (m : Mol) : Mol :=
  { m with atoms := m.atoms.enum.map (fun p =>
      match p.2.query with
      | some q => { p.2 with query := some (completeQueryAndChildren m p.1 q) }
      | none => p.2) }

def rangeCheckU (v hi : Nat) : Except ParseErr Unit :=
  if v ≤ hi then .ok () else .error (.invariantViolation "range check")

/-- `replaceAtomWithQueryAtom`: promote a plain atom in place, seeding
the query from its scalar state (charge and pending mass query). -/
def replaceAtomWithQueryAtom (mol : Mol) (idx : Nat) : Mol :=
  match mol.atoms.get? idx with
  | none => mol
  | some atom =>
    if atom.hasQuery then mol
    else
      let qa := queryAtomFromAtom atom
      let qa := if atom.formalCharge ≠ 0 then
          qa.expandQuery (makeAtomFormalChargeQuery atom.formalCharge) else qa
      let qa := if atom.hasProp "_hasMassQuery" then
          qa.expandQuery (makeAtomMassQuery (cppIntCast atom.mass)) else qa
      mol.replaceAtom idx qa

def chargeEntriesLoop (text : Line) : Nat → Nat → Mol → Except ParseErr Mol
  | 0, _, mol => .ok mol
  | n + 1, spos, mol => do
    let aid ← wrapBadCast (do toInt (← substrE text spos 4)) (cannotConvert (subClamp text spos 4))
    let chg ← wrapBadCast (do toInt (← substrE text (spos + 4) 4))
        (cannotConvert (subClamp text (spos + 4) 4))
    let idx := uint32 (aid - 1)
    let a ← mol.getAtomWithIdx idx
    chargeEntriesLoop text n (spos + 8) (mol.replaceAtom idx { a with formalCharge := chg })

def ParseChargeLine (mol : Mol) (text : Line) (firstCall : Bool) : Except ParseErr Mol := do
  let mol := if firstCall then
      { mol with atoms := mol.atoms.map (fun a => { a with formalCharge := 0 }) } else mol
  let nent ← wrapBadCast (do toInt (← substrE text 6 3)) (cannotConvert (subClamp text 6 3))
  chargeEntriesLoop text nent.toNat 9 mol

def radicalEntriesLoop (text : Line) : Nat → Nat → Mol → Except ParseErr Mol
  | 0, _, mol => .ok mol
  | n + 1, spos, mol => do
    let aid ← wrapBadCast (do toInt (← substrE text spos 4)) (cannotConvert (subClamp text spos 4))
    let rad ← wrapBadCast (do toInt (← substrE text (spos + 4) 4))
        (cannotConvert (subClamp text (spos + 4) 4))
    let idx := uint32 (aid - 1)
    let nre ←
      if rad = 1 then pure 2
      else if rad = 2 then pure 1
      else if rad = 3 then pure 2
      else throw (.fileParse
        ("Unrecognized radical value " ++ toString rad ++ " for atom " ++ toString (aid - 1)))
    let a ← mol.getAtomWithIdx idx
    radicalEntriesLoop text n (spos + 8)
      (mol.replaceAtom idx { a with numRadicalElectrons := nre })

def ParseRadicalLine (mol : Mol) (text : Line) (firstCall : Bool) : Except ParseErr Mol := do
  let mol := if firstCall then
      { mol with atoms := mol.atoms.map (fun a => { a with formalCharge := 0 }) } else mol
  let nent ← wrapBadCast (do toInt (← substrE text 6 3)) (cannotConvert (subClamp text 6 3))
  radicalEntriesLoop text nent.toNat 9 mol

def isotopeEntriesLoop (text : Line) : Nat → Nat → Mol → Except ParseErr Mol
  | 0, _, mol => .ok mol
  | n + 1, spos, mol => do
    let aid ← wrapBadCast (do stripSpacesAndCastUInt (← substrE text spos 4))
        (cannotConvert (subClamp text spos 4))
    let spos := spos + 4
    let idx := uint32 ((aid : Int) - 1)
    let a ← mol.getAtomWithIdx idx
    if text.length ≥ spos + 4 ∧ subClamp text spos 4 ≠ strL "    " then do
      let mass ← wrapBadCast (toInt (subClamp text spos 4)) (cannotConvert (subClamp text spos 4))
      isotopeEntriesLoop text n (spos + 4) (mol.replaceAtom idx { a with mass := Frac.ofInt mass })
    else
      isotopeEntriesLoop text n spos
        (mol.replaceAtom idx { a with mass := getAtomicWeight a.atomicNum })

def ParseIsotopeLine (mol : Mol) (text : Line) : Except ParseErr Mol := do
  let nent ← wrapBadCast (do stripSpacesAndCastUInt (← substrE text 6 3))
      (cannotConvert (subClamp text 6 3))
  isotopeEntriesLoop text nent 9 mol

def substCountLoop (text : Line) : Nat → Nat → Mol → Except ParseErr Mol
  | 0, _, mol => .ok mol
  | n + 1, spos, mol => do
    let aid ← wrapBadCast (do stripSpacesAndCastUInt (← substrE text spos 4))
        (cannotConvert (subClamp text spos 4))
    let spos := spos + 4
    let idx := uint32 ((aid : Int) - 1)
    let a ← mol.getAtomWithIdx idx
    if text.length ≥ spos + 4 ∧ subClamp text spos 4 ≠ strL "    " then do
      let count ← wrapBadCast (toInt (subClamp text spos 4)) (cannotConvert (subClamp text spos 4))
      if count = 0 then substCountLoop text n spos mol
      else do
        let q := makeAtomExplicitDegreeQuery 0
        let q ←
          if count = -1 then pure (q.setVal 0)
          else if count = -2 then pure (q.setVal (molDegree mol idx))
          else if 1 ≤ count ∧ count ≤ 5 then pure (q.setVal count)
          else if count = 6 then pure (q.setVal 6)
          else throw (.fileParse
            ("Value " ++ toString count ++ " is not supported as a degree query."))
        let mol := if a.hasQuery then mol else replaceAtomWithQueryAtom mol idx
        let mol := mol.modifyAtom idx (fun a2 => a2.expandQuery q .andQ)
        substCountLoop text n (spos + 4) mol
    else substCountLoop text n spos mol

def ParseSubstitutionCountLine (mol : Mol) (text : Line) : Except ParseErr Mol := do
  let nent ← wrapBadCast (do stripSpacesAndCastUInt (← substrE text 6 3))
      (cannotConvert (subClamp text 6 3))
  substCountLoop text nent 9 mol

def unsatLoop (text : Line) : Nat → Nat → Mol → Except ParseErr Mol
  | 0, _, mol => .ok mol
  | n + 1, spos, mol => do
    let aid ← wrapBadCast (do stripSpacesAndCastUInt (← substrE text spos 4))
        (cannotConvert (subClamp text spos 4))
    let spos := spos + 4
    let idx := uint32 ((aid : Int) - 1)
    let a ← mol.getAtomWithIdx idx
    if text.length ≥ spos + 4 ∧ subClamp text spos 4 ≠ strL "    " then do
      let count ← wrapBadCast (toInt (subClamp text spos 4)) (cannotConvert (subClamp text spos 4))
      if count = 0 then unsatLoop text n spos mol
      else if count = 1 then do
        let q := makeAtomUnsaturatedQuery
        let mol := if a.hasQuery then mol else replaceAtomWithQueryAtom mol idx
        let mol := mol.modifyAtom idx (fun a2 => a2.expandQuery q .andQ)
        unsatLoop text n spos mol
      else throw (.fileParse ("Value " ++ toString count ++
        " is not supported as an unsaturation query (only 0 and 1 are allowed)."))
    else unsatLoop text n spos mol

def ParseUnsaturationLine (mol : Mol) (text : Line) : Except ParseErr Mol := do
  let nent ← wrapBadCast (do stripSpacesAndCastUInt (← substrE text 6 3))
      (cannotConvert (subClamp text 6 3))
  unsatLoop text nent 9 mol

def ringBondCountLoop (text : Line) : Nat → Nat → Mol → Except ParseErr Mol
  | 0, _, mol => .ok mol
  | n + 1, spos, mol => do
    let aid ← wrapBadCast (do stripSpacesAndCastUInt (← substrE text spos 4))
        (cannotConvert (subClamp text spos 4))
    let spos := spos + 4
    let idx := uint32 ((aid : Int) - 1)
    let a ← mol.getAtomWithIdx idx
    if text.length ≥ spos + 4 ∧ subClamp text spos 4 ≠ strL "    " then do
      let count ← wrapBadCast (toInt (subClamp text spos 4)) (cannotConvert (subClamp text spos 4))
      if count = 0 then ringBondCountLoop text n spos mol
      else do
        let q := makeAtomRingBondCountQuery 0
        let qm : AQuery × Mol ←
          if count = -1 then pure (q.setVal 0, mol)
          else if count = -2 then
            pure (q.setVal MAGIC, mol.setProp "_NeedsQueryScan" (.iv 1))
          else if 1 ≤ count ∧ count ≤ 3 then pure (q.setVal count, mol)
          else if count = 4 then pure (AQuery.node .ringBondCountLE 4 false .nil, mol)
          else throw (.fileParse
            ("Value " ++ toString count ++ " is not supported as a ring-bond count query."))
        let mol := qm.2
        let mol := if a.hasQuery then mol else replaceAtomWithQueryAtom mol idx
        let mol := mol.modifyAtom idx (fun a2 => a2.expandQuery qm.1 .andQ)
        ringBondCountLoop text n (spos + 4) mol
    else ringBondCountLoop text n spos mol

def ParseRingBondCountLine (mol : Mol) (text : Line) : Except ParseErr Mol := do
  let nent ← wrapBadCast (do stripSpacesAndCastUInt (← substrE text 6 3))
      (cannotConvert (subClamp text 6 3))
  ringBondCountLoop text nent 9 mol

def oldListChildren (text : Line) : Nat → Nat → AQueryL → Option Int →
    Except ParseErr (AQueryL × Option Int)
  | 0, _, acc, first => .ok (acc, first)
  | n + 1, i, acc, first => do
    let pos := 11 + i * 4
    let atNum ← wrapBadCast (do toInt (← substrE text pos 3)) (cannotConvert (subClamp text pos 3))
    let _ ← rangeCheckI 0 atNum 200
    oldListChildren text n (i + 1) (qlAppend acc (.cons (makeAtomNumEqualsQuery atNum) .nil))
      (if i = 0 then some atNum else first)

/-- Legacy atom-list line (first property-block line not starting with
M, A, V or G). -/
def ParseOldAtomList (mol : Mol) (text : Line) : Except ParseErr Mol := do
  let idxU ← wrapBadCast (do stripSpacesAndCastUInt (← substrE text 0 3))
      (cannotConvert (subClamp text 0 3))
  let idx := uint32 ((idxU : Int) - 1)
  let _ ← rangeCheckU idx (uint32 ((mol.numAtoms : Int) - 1))
  let a0 ← mol.getAtomWithIdx idx
  let neg ←
    if charAtD text 4 = 'T' then pure true
    else if charAtD text 4 = 'F' then pure false
    else throw (.fileParse
      ("Unrecognized atom-list query modifier: " ++ String.mk [charAtD text 14]))
  let nQ ← wrapBadCast (do toInt (← substrE text 9 1)) (cannotConvert (subClamp text 9 1))
  let _ ← rangeCheckI 0 nQ 5
  let cf ← oldListChildren text nQ.toNat 0 .nil none
  let a := queryAtomFromAtom a0
  let a := match cf.2 with
    | some z => { a with atomicNum := z }
    | none => a
  let a := a.setQuery (AQuery.node .orQ 0 neg cf.1)
  .ok (mol.replaceAtom idx a)

/-- Erase-from-first-space step of `ParseNewAtomList`:
`atSymb.erase(atSymb.find(" "), atSymb.size())` throws `std::out_of_range`
when the 4-character field contains no space at all. -/
def eraseFromSpace (s : Line) : Except ParseErr Line :=
  match s.findIdx? (fun c => c = ' ') with
  | some p => .ok (s.take p)
  | none => .error .outOfRange

def alsLoop (text : Line) : Nat → Nat → Nat → Option Atom → Mol →
    Except ParseErr (Option Atom)
  | 0, _, _, a, _ => .ok a
  | n + 1, i, idx, a, mol => do
    let pos := 16 + i * 4
    if text.length < pos + 4 then
      throw (.fileParse ("Atom list line too short: " ++ String.mk text))
    else do
      let atSymbF ← substrE text pos 4
      let atSymb ← eraseFromSpace atSymbF
      let atNum := getAtomicNumber atSymb
      let a2 : Option Atom ←
        if i = 0 then do
          let a0 ← mol.getAtomWithIdx idx
          pure (some { queryAtomFromAtom a0 with atomicNum := atNum })
        else
          match a with
          | some aa => pure (some (aa.expandQuery (makeAtomNumEqualsQuery atNum) .orQ))
          | none => pure none
      alsLoop text n (i + 1) idx a2 mol

/-- `M  ALS`: new-style atom list. -/
def ParseNewAtomList (mol : Mol) (text : Line) : Except ParseErr Mol := do
  if text.length < 15 then
    throw (.fileParse ("Atom list line too short: " ++ String.mk text))
  else do
    let idxU ← wrapBadCast (do stripSpacesAndCastUInt (← substrE text 7 3))
        (cannotConvert (subClamp text 7 3))
    let idx := uint32 ((idxU : Int) - 1)
    let _ ← rangeCheckU idx (uint32 ((mol.numAtoms : Int) - 1))
    let nQ ← wrapBadCast (do toInt (← substrE text 10 3)) (cannotConvert (subClamp text 10 3))
    if nQ ≤ 0 then throw (.invariantViolation "no queries provided")
    else do
      let aOpt ← alsLoop text nQ.toNat 0 idx none mol
      match aOpt with
      | none => throw (.invariantViolation "no atom built")
      | some a => do
        let a ←
          if charAtD text 14 = 'T' then
            pure { a with query := a.query.map (fun q => q.setNeg true) }
          else if charAtD text 14 = 'F' then
            pure { a with query := a.query.map (fun q => q.setNeg false) }
          else throw (.fileParse
            ("Unrecognized atom-list query modifier: " ++ String.mk [charAtD text 14]))
        .ok (mol.replaceAtom idx a)

def rgpLoop (text : Line) : Nat → Nat → Mol → Except ParseErr Mol
  | 0, _, mol => .ok mol
  | n + 1, i, mol => do
    let pos := 10 + i * 8
    let atIdxU ← wrapBadCast (do stripSpacesAndCastUInt (← substrE text pos 3))
        (cannotConvert (subClamp text pos 3))
    let rLabel ← wrapBadCast (do stripSpacesAndCastUInt (← substrE text (pos + 4) 3))
        (cannotConvert (subClamp text (pos + 4) 3))
    let atIdx := uint32 ((atIdxU : Int) - 1)
    if atIdx > mol.numAtoms then
      throw (.fileParse ("Attempt to set R group label on nonexistent atom " ++ toString atIdx))
    else do
      let a ← mol.getAtomWithIdx atIdx
      let qa := (queryAtomFromAtom a).setProp "_MolFileRLabel" (.iv rLabel)
      let qa := if 0 < rLabel ∧ rLabel < 999 then { qa with mass := Frac.ofInt (rLabel : Int) } else qa
      let qa := qa.setQuery makeAtomNullQuery
      rgpLoop text n (i + 1) (mol.replaceAtom atIdx qa)

/-- `M  RGP`: R-group labels. -/
def ParseRGroupLabels (mol : Mol) (text : Line) : Except ParseErr Mol := do
  let nLabels ← wrapBadCast (do toInt (← substrE text 6 3)) (cannotConvert (subClamp text 6 3))
  rgpLoop text nLabels.toNat 0 mol

/-- Atom alias (`A  xxx` plus one continuation line). -/
def ParseAtomAlias (mol : Mol) (text nextLine : Line) : Except ParseErr Mol := do
  let idxU ← wrapBadCast (do stripSpacesAndCastUInt (← substrE text 3 3))
      (cannotConvert (subClamp text 3 3))
  let idx := uint32 ((idxU : Int) - 1)
  let _ ← rangeCheckU idx (uint32 ((mol.numAtoms : Int) - 1))
  let a ← mol.getAtomWithIdx idx
  .ok (mol.replaceAtom idx (a.setProp "molFileAlias" (.sv nextLine)))

/-- Atom value (`V  xxx ...`). -/
def ParseAtomValue (mol : Mol) (text : Line) : Except ParseErr Mol := do
  let idxU ← wrapBadCast (do stripSpacesAndCastUInt (← substrE text 3 3))
      (cannotConvert (subClamp text 3 3))
  let idx := uint32 ((idxU : Int) - 1)
  let _ ← rangeCheckU idx (uint32 ((mol.numAtoms : Int) - 1))
  let a ← mol.getAtomWithIdx idx
  let v ← substrE text 7 (text.length - 7)
  .ok (mol.replaceAtom idx (a.setProp "molFileValue" (.sv v)))

/-- Lexicographic string comparison (C++ `std::string` `<=`). -/
def lexLE : Line → Line → Bool
  | [], _ => true
  | _ :: _, [] => false
  | a :: as, b :: bs => if a < b then true else if b < a then false else lexLE as bs

/-- Mass shorthand for the `R1`..`R9` symbols (applied only when
`massDiff == 0`). -/
def rGroupMass (symb : Line) (res : Atom) : Atom :=
  if symb = strL "R1" then { res with mass := 1 }
  else if symb = strL "R2" then { res with mass := 2 }
  else if symb = strL "R3" then { res with mass := 3 }
  else if symb = strL "R4" then { res with mass := 4 }
  else if symb = strL "R5" then { res with mass := 5 }
  else if symb = strL "R6" then { res with mass := 6 }
  else if symb = strL "R7" then { res with mass := 7 }
  else if symb = strL "R8" then { res with mass := 8 }
  else if symb = strL "R9" then { res with mass := 9 }
  else res

/-- The `Q` symbol query: `Negate(Or(AtomNum = 6, AtomNum = 1))`. -/
def qSymbolQuery : AQuery :=
  .node .orQ 0 true (.cons (makeAtomNumEqualsQuery 6) (.cons (makeAtomNumEqualsQuery 1) .nil))

/-- The symbol-dispatch section of the V2000 atom-line decoder: the atom
built from the symbol field and the mass-difference field, before the
charge, hydrogen-count and property columns are applied. -/
def atomLineBase (symb : Line) (massDiff : Int) : Atom :=
  if symb = strL "L" ∨ symb = strL "A" ∨ symb = strL "Q" ∨ symb = strL "*" ∨
     symb = strL "LP" ∨ symb = strL "R" ∨ symb = strL "R#" ∨
     (lexLE (strL "R0") symb ∧ lexLE symb (strL "R9")) then
    let base : Atom :=
      if symb = strL "A" ∨ symb = strL "Q" ∨ symb = strL "*" then
        let q0 := mkQueryAtomZ 0
        let qa :=
          if symb = strL "*" then q0.setQuery makeAtomNullQuery
          else if symb = strL "Q" then q0.setQuery qSymbolQuery
          else q0.setQuery ((makeAtomNumEqualsQuery 1).setNeg true)
        { qa with noImplicit := true }
      else { ({} : Atom) with atomicNum := 0 }
    if massDiff = 0 ∧ charAtD symb 0 = 'R' then rGroupMass symb base else base
  else if symb = strL "D" then { ({} : Atom) with atomicNum := 1, mass := ⟨2014, 1000⟩ }
  else if symb = strL "T" then { ({} : Atom) with atomicNum := 1, mass := ⟨3016, 1000⟩ }
  else
    let z := getAtomicNumber symb
    { ({} : Atom) with atomicNum := z, mass := getAtomicWeight z }

/-- One optional fixed-width integer column of the atom line: read only
when the line is long enough and the field is not the literal zero
pattern, else 0. -/
def optIntField (text : Line) (minLen p len : Nat) (zero : Line) : Except ParseErr Int :=
  if text.length ≥ minLen ∧ subClamp text p len ≠ zero then
    wrapBadCast (toInt (subClamp text p len) true) (cannotConvert (subClamp text p len))
  else pure 0

/-- One optional atom-property column of the atom line: read the field
and store it under the given property key when present and nonzero. -/
def optPropField (text : Line) (minLen p len : Nat) (res : Atom) (k : String) :
    Except ParseErr Atom :=
  if text.length ≥ minLen ∧ subClamp text p len ≠ strL "  0" then do
    let v ← wrapBadCast (toInt (subClamp text p len) true) (cannotConvert (subClamp text p len))
    pure (res.setProp k (.iv v))
  else pure res

/-- V2000 atom-line decoder. -/
def ParseMolFileAtomLine (text : Line) : Except ParseErr (Atom × Point3) := do
  if text.length < 34 then throw (.fileParse ("Atom line too short: " ++ String.mk text))
  else do
    let px ← wrapBadCast (toDouble (subClamp text 0 10)) "Cannot process coordinates."
    let py ← wrapBadCast (toDouble (subClamp text 10 10)) "Cannot process coordinates."
    let pz ← wrapBadCast (toDouble (subClamp text 20 10)) "Cannot process coordinates."
    let pos : Point3 := { x := px, y := py, z := pz }
    let symb := (subClamp text 31 3).takeWhile (fun c => c ≠ ' ')
    let massDiff ← optIntField text 36 34 2 (strL " 0")
    let chg ← optIntField text 39 36 3 (strL "  0")
    let hCount ← optIntField text 45 42 3 (strL "  0")
    let res : Atom := atomLineBase symb massDiff
    let res := if chg ≠ 0 then { res with formalCharge := 4 - chg } else res
    let res := if hCount = 1 then { res with noImplicit := true } else res
    let res := if massDiff ≠ 0 then
        ({ res with mass := res.mass.add (Frac.ofInt massDiff) }).setProp "_hasMassQuery" (.bv true)
      else res
    let res ← optPropField text 42 39 3 res "molParity"
    let res ← optPropField text 48 45 3 res "molStereoCare"
    let res ← optPropField text 51 48 3 res "molTotValence"
    let res ← optPropField text 63 60 3 res "molAtomMapNumber"
    let res ← optPropField text 66 63 3 res "molInversionFlag"
    let res ← optPropField text 69 66 3 res "molExactChangeFlag"
    pure (res, pos)

/-- Bond construction from the wire bond type, with the warnings the
source logs; for unrecognized types a null ("match any") query bond. -/
def mkBondFromType (bType : Int) : Bond × List String :=
  if bType = 1 then ({ bondType := .SINGLE }, [])
  else if bType = 2 then ({ bondType := .DOUBLE }, [])
  else if bType = 3 then ({ bondType := .TRIPLE }, [])
  else if bType = 4 then ({ bondType := .AROMATIC }, [])
  else if bType = 0 then
    ({ bondType := .UNSPECIFIED },
     ["bond with order 0 found. This is not part of the MDL specification."])
  else if bType = 8 then ({ bondType := .UNSPECIFIED, query := some .nullB }, [])
  else if bType = 5 then
    ({ bondType := .UNSPECIFIED, query := some (.orB (.orderEq .SINGLE) (.orderEq .DOUBLE)) }, [])
  else if bType = 6 then
    ({ bondType := .UNSPECIFIED, query := some (.orB (.orderEq .SINGLE) (.orderEq .AROMATIC)) }, [])
  else if bType = 7 then
    ({ bondType := .UNSPECIFIED, query := some (.orB (.orderEq .DOUBLE) (.orderEq .AROMATIC)) }, [])
  else
    ({ bondType := .UNSPECIFIED, query := some .nullB },
     ["unrecognized query bond type, " ++ toString bType ++ ", found. Using an any query."])

/-- The switch of the stereo-field section: it has no default case, so
wire values outside 0, 1, 3, 4, 6 change nothing. -/
def stereoSwitch (b : Bond) (stereo : Int) : Bond :=
  if stereo = 0 then { b with dir := .NONE }
  else if stereo = 1 then { b with dir := .BEGINWEDGE }
  else if stereo = 6 then { b with dir := .BEGINDASH }
  else if stereo = 3 then { b with dir := .EITHERDOUBLE, stereo := .STEREOANY }
  else if stereo = 4 then { b with dir := .UNKNOWN }
  else b

/-- The stereo-field section of the V2000 bond-line decoder, before its
catch block. -/
def applyStereoInner (b : Bond) (text : Line) : Except ParseErr Bond :=
  if text.length ≥ 12 ∧ subClamp text 9 3 ≠ strL "  0" then
    (toInt (subClamp text 9 3)).map (stereoSwitch b)
  else pure b

/-- The stereo-field section with its `catch (bad_lexical_cast) {;}`. -/
def applyStereo (b : Bond) (text : Line) : Except ParseErr Bond :=
  match applyStereoInner b text with
  | .error .badLexicalCast => .ok b
  | other => other

def applyTopologyInner (b : Bond) (text : Line) : Except ParseErr Bond :=
  if text.length ≥ 18 ∧ subClamp text 15 3 ≠ strL "  0" then do
    let topology ← toInt (subClamp text 15 3)
    let q ←
      if topology = 1 then pure (BQuery.isInRing false)
      else if topology = 2 then pure (BQuery.isInRing true)
      else throw (.fileParse ("Unrecognized bond topology specifier: " ++ toString topology))
    let qb : Bond := { b with query := some (.orderEq b.bondType) }
    pure (qb.expandQuery q)
  else pure b

def applyTopology (b : Bond) (text : Line) : Except ParseErr Bond :=
  match applyTopologyInner b text with
  | .error .badLexicalCast => .ok b
  | other => other

def applyReactStatusInner (b : Bond) (text : Line) : Except ParseErr Bond :=
  if text.length ≥ 21 ∧ subClamp text 18 3 ≠ strL "  0" then do
    let rs ← toInt (subClamp text 18 3)
    pure (b.setProp "molReactStatus" (.iv rs))
  else pure b

def applyReactStatus (b : Bond) (text : Line) : Except ParseErr Bond :=
  match applyReactStatusInner b text with
  | .error .badLexicalCast => .ok b
  | other => other

/-- V2000 bond-line decoder; also returns the warnings logged. -/
def ParseMolFileBondLine (text : Line) : Except ParseErr (Bond × List String) := do
  if text.length < 9 then throw (.fileParse ("Bond line too short: " ++ String.mk text))
  else do
    let idx1 ← wrapBadCast (toInt (subClamp text 0 3)) (cannotConvert (subClamp text 0 3))
    let idx2 ← wrapBadCast (toInt (subClamp text 3 3)) (cannotConvert (subClamp text 3 3))
    let bType ← wrapBadCast (toInt (subClamp text 6 3)) (cannotConvert (subClamp text 6 3))
    let bw := mkBondFromType bType
    let b := { bw.1 with beginAtomIdx := uint32 (idx1 - 1), endAtomIdx := uint32 (idx2 - 1) }
    let b ← applyStereo b text
    let b ← applyTopology b text
    let b ← applyReactStatus b text
    pure (b, bw.2)

/-- `std::getline` on the line stream: returns the line read, the rest,
and whether the read hit end of file. -/
def getLineS : List Line → Line × List Line × Bool
  | [] => ([], [], true)
  | l :: r => (l, r, false)

def ParseMolBlockAtoms : Nat → List Line → Nat → Mol → Conformer →
    Except ParseErr (Mol × Conformer × List Line × Nat)
  | 0, lines, line, mol, conf => .ok (mol, conf, lines, line)
  | n + 1, lines, line, mol, conf =>
    match getLineS lines with
    | (t, rest, eofF) =>
      let line := line + 1
      if eofF then .error (.fileParse "EOF hit while reading atoms")
      else do
        let (atom, pos) ← ParseMolFileAtomLine t
        match mol.addAtom atom with
        | (mol, aid) => ParseMolBlockAtoms n rest line mol (conf.setAtomPos aid pos)

def ParseMolBlockBonds : Nat → List Line → Nat → Mol → Bool →
    Except ParseErr (Mol × List Line × Nat × Bool)
  | 0, lines, line, mol, chir => .ok (mol, lines, line, chir)
  | n + 1, lines, line, mol, chir =>
    match getLineS lines with
    | (t, rest, eofF) =>
      let line := line + 1
      if eofF then .error (.fileParse "EOF hit while reading bonds")
      else do
        let (bond0, _warns) ← ParseMolFileBondLine t
        let (bond, mol) ←
          if bond0.bondType = .AROMATIC then do
            let bond := { bond0 with isAromatic := true }
            let a1 ← mol.getAtomWithIdx bond.beginAtomIdx
            let mol := mol.replaceAtom bond.beginAtomIdx { a1 with isAromatic := true }
            let a2 ← mol.getAtomWithIdx bond.endAtomIdx
            let mol := mol.replaceAtom bond.endAtomIdx { a2 with isAromatic := true }
            pure (bond, mol)
          else pure (bond0, mol)
        let chir := if bond.dir ≠ .NONE ∧ bond.dir ≠ .UNKNOWN then true else chir
        let mol ← mol.addBond bond
        ParseMolBlockBonds n rest line mol chir

/-- State threaded through one iteration of the property-block loop. -/
structure PState where
  mol : Mol
  lines : List Line
  line : Nat
  firstChargeLine : Bool

/-- One dispatch step of the property-block while loop (the body up to,
but not including, reading the next line). -/
def propDispatch (mol : Mol) (tempStr : Line) (lines : List Line) (line : Nat)
    (firstChargeLine : Bool) : Except ParseErr PState :=
  if charAtD tempStr 0 = 'A' then
    match getLineS lines with
    | (nextLine, rest, _) =>
      let line := line + 1
      if takeC tempStr 6 ≠ strL "M  END" then do
        let mol ← ParseAtomAlias mol tempStr nextLine
        pure ⟨mol, rest, line, firstChargeLine⟩
      else pure ⟨mol, rest, line, firstChargeLine⟩
  else if charAtD tempStr 0 = 'G' then pure ⟨mol, lines, line, firstChargeLine⟩
  else if charAtD tempStr 0 = 'V' then do
    let mol ← ParseAtomValue mol tempStr
    pure ⟨mol, lines, line, firstChargeLine⟩
  else if takeC tempStr 6 = strL "S  SKP" then pure ⟨mol, lines, line, firstChargeLine⟩
  else if takeC tempStr 6 = strL "M  ALS" then do
    let mol ← ParseNewAtomList mol tempStr
    pure ⟨mol, lines, line, firstChargeLine⟩
  else if takeC tempStr 6 = strL "M  ISO" then do
    let mol ← ParseIsotopeLine mol tempStr
    pure ⟨mol, lines, line, firstChargeLine⟩
  else if takeC tempStr 6 = strL "M  RGP" then do
    let mol ← ParseRGroupLabels mol tempStr
    pure ⟨mol, lines, line, firstChargeLine⟩
  else if takeC tempStr 6 = strL "M  RBC" then do
    let mol ← ParseRingBondCountLine mol tempStr
    pure ⟨mol, lines, line, firstChargeLine⟩
  else if takeC tempStr 6 = strL "M  SUB" then do
    let mol ← ParseSubstitutionCountLine mol tempStr
    pure ⟨mol, lines, line, firstChargeLine⟩
  else if takeC tempStr 6 = strL "M  UNS" then do
    let mol ← ParseUnsaturationLine mol tempStr
    pure ⟨mol, lines, line, firstChargeLine⟩
  else if takeC tempStr 6 = strL "M  CHG" then do
    let mol ← ParseChargeLine mol tempStr firstChargeLine
    pure ⟨mol, lines, line, false⟩
  else if takeC tempStr 6 = strL "M  RAD" then do
    let mol ← ParseRadicalLine mol tempStr firstChargeLine
    pure ⟨mol, lines, line, false⟩
  else pure ⟨mol, lines, line, firstChargeLine⟩

/-- The property-block while loop.  `tempStr` is the line currently held,
`eofF` whether the read that produced it hit end of file.  Returns the
`fileComplete` flag computed after the loop, the molecule, the unread
lines and the line counter. -/
def propLoop : Nat → Mol → Line → Bool → List Line → Nat → Bool →
    Except ParseErr (Bool × Mol × List Line × Nat)
  | 0, _, _, _, _, _, _ => .error .fuelExhausted
  | fuel + 1, mol, tempStr, eofF, lines, line, firstChargeLine =>
    if eofF = false ∧ takeC tempStr 6 ≠ strL "M  END" ∧ takeC tempStr 4 ≠ strL "$$$$" then do
      let st ← propDispatch mol tempStr lines line firstChargeLine
      match st with
      | ⟨mol2, lines2, lineN, fc2⟩ =>
        match getLineS lines2 with
        | (t2, rest2, eof2) => propLoop fuel mol2 t2 eof2 rest2 (lineN + 1) fc2
    else
      .ok (charAtD tempStr 0 = 'M' ∧ takeC tempStr 6 = strL "M  END", mol, lines, line)

/-- V2000 property-block interpreter (`ParseMolBlockProperties`). -/
def ParseMolBlockProperties (fuel : Nat) (mol : Mol) (lines : List Line) (line : Nat) :
    Except ParseErr (Bool × Mol × List Line × Nat) :=
  match getLineS lines with
  | (tempStr, rest, eofF) => do
    let line := line + 1
    let mol ←
      if charAtD tempStr 0 ≠ 'M' ∧ charAtD tempStr 0 ≠ 'A' ∧
         charAtD tempStr 0 ≠ 'V' ∧ charAtD tempStr 0 ≠ 'G' then
        ParseOldAtomList mol tempStr
      else pure mol
    propLoop fuel mol tempStr eofF rest line true

def v3000Cont : Nat → Line → Line → List Line → Nat → Except ParseErr (Line × List Line × Nat)
  | fuel, acc, tempStr, lines, line =>
    if charAtD tempStr (tempStr.length - 1) = '-' then
      match fuel with
      | 0 => .error .fuelExhausted
      | fuel + 1 =>
        let acc := acc ++ subClamp tempStr 7 (tempStr.length - 8)
        let line := line + 1
        let g := getLineS lines
        if g.1.length < 7 ∨ takeC g.1 7 ≠ strL "M  V30 " then
          .error (.fileParse ("Line " ++ toString line ++ " does not start with M  V30 "))
        else v3000Cont fuel acc g.1 g.2.1 line
    else .ok (acc ++ subClamp tempStr 7 (tempStr.length - 7), lines, line)

/-- V3000 logical-line reader: check the `M  V30 ` prefix and join lines
continued with a trailing `-`. -/
def getV3000Line (fuel : Nat) (lines : List Line) (line : Nat) :
    Except ParseErr (Line × List Line × Nat) :=
  let line := line + 1
  let g := getLineS lines
  if g.1.length < 7 ∨ takeC g.1 7 ≠ strL "M  V30 " then
    .error (.fileParse ("Line " ++ toString line ++ " does not start with M  V30 "))
  else v3000Cont fuel [] g.1 g.2.1 line

def isQuoteC (c : Char) : Bool := c = Char.ofNat 39 || c = Char.ofNat 34

/-- Model of `boost::escaped_list_separator` with no escape character,
space/tab separators and both quote characters: separators outside quotes
end the current token (consecutive separators yield empty tokens), quote
characters toggle quoting and are dropped. -/
def tokenizeELSAux : Line → Bool → Line → List Line
  | [], _, cur => [cur.reverse]
  | c :: cs, inQ, cur =>
    if isQuoteC c then tokenizeELSAux cs (!inQ) cur
    else if (c = ' ' || c = '\t') && !inQ then cur.reverse :: tokenizeELSAux cs false []
    else tokenizeELSAux cs inQ (c :: cur)

def tokenizeELS (s : Line) : List Line :=
  match s with
  | [] => []
  | _ => tokenizeELSAux s false []

/-- Model of `boost::split` on one separator character (no token
compression: consecutive separators yield empty parts). -/
def splitOnCharAux (sep : Char) : Line → Line → List Line
  | [], cur => [cur.reverse]
  | c :: cs, cur =>
    if c = sep then cur.reverse :: splitOnCharAux sep cs []
    else splitOnCharAux sep cs (c :: cur)

def splitOnChar (sep : Char) (s : Line) : List Line := splitOnCharAux sep s []

/-- Model of `boost::split` on space/tab with `token_compress_on`. -/
def splitWSAux : Line → Line → List Line
  | [], cur => if cur = [] then [] else [cur.reverse]
  | c :: cs, cur =>
    if c = ' ' || c = '\t' then
      if cur = [] then splitWSAux cs [] else cur.reverse :: splitWSAux cs []
    else splitWSAux cs (c :: cur)

def splitWS (s : Line) : List Line := splitWSAux s []

/-- Bracketed-atom-list loop of `ParseV3000AtomSymbol`. -/
def v3000AtomListLoop : List Line → Option Atom → Option Atom
  | [], res => res
  | part :: rest, res =>
    let atSymb := trimC part
    if atSymb = [] then v3000AtomListLoop rest res
    else
      let atNum := getAtomicNumber atSymb
      match res with
      | none => v3000AtomListLoop rest (some (mkQueryAtomZ atNum))
      | some a => v3000AtomListLoop rest
          (some (a.expandQuery (makeAtomNumEqualsQuery atNum) .orQ))

/-- V3000 atom-symbol decoder. -/
def ParseV3000AtomSymbol (token : Line) (negate : Bool) (line : Nat) :
    Except ParseErr Atom :=
  if charAtD token 0 = '[' then
    if charAtD token (token.length - 1) ≠ ']' then
      .error (.fileParse ("Bad atom token " ++ String.mk token ++ " on line: " ++ toString line))
    else
      let inner := subClamp token 1 (token.length - 2)
      match v3000AtomListLoop (splitOnChar ',' inner) none with
      | none => .error (.invariantViolation "null atom")
      | some a => .ok { a with query := a.query.map (fun q => q.setNeg negate) }
  else if negate then .error (.fileParse "NOT tokens only supported for atom lists")
  else if token = strL "R#" ∨ token = strL "A" ∨ token = strL "Q" ∨ token = strL "*" then
    if token = strL "A" ∨ token = strL "Q" ∨ token = strL "*" then
      let q0 := mkQueryAtomZ 0
      let qa :=
        if token = strL "*" then q0.setQuery makeAtomNullQuery
        else if token = strL "Q" then q0.setQuery qSymbolQuery
        else q0.setQuery ((makeAtomNumEqualsQuery 1).setNeg true)
      .ok { qa with noImplicit := true }
    else
      .error (.invariantViolation "null atom")
  else if token = strL "D" then .ok { mkAtomZ 1 with mass := ⟨2014, 1000⟩ }
  else if token = strL "T" then .ok { mkAtomZ 1 with mass := ⟨3016, 1000⟩ }
  else .ok (mkAtomZ (getAtomicNumber token))

/-- `splitAssignToken`: split a `KEY=VAL` token, upper-casing the key. -/
def splitAssignToken (token : Line) : Option (Line × Line) :=
  let parts := splitOnChar '=' token
  if parts.length = 2 then some ((parts.getD 0 []).map Char.toUpper, parts.getD 1 [])
  else none

/-- The per-key update of the V3000 atom `KEY=VAL` property
interpreter, acting on the atom at index `aid` of the molecule. -/
def v3000AtomPropUpdate (aid : Nat) (mol : Mol) (prop val : Line) :
    Except ParseErr Mol :=
  if prop = strL "CHG" then do
    let charge ← toInt val
    let a ← mol.getAtomWithIdx aid
    if a.hasQuery = false then pure (mol.replaceAtom aid { a with formalCharge := charge })
    else pure (mol.replaceAtom aid (a.expandQuery (makeAtomFormalChargeQuery charge) .andQ))
  else if prop = strL "RAD" then do
    let rad ← toInt val
    if rad = 0 then pure mol
    else do
      let nre ←
        if rad = 1 then pure 2
        else if rad = 2 then pure 1
        else if rad = 3 then pure 2
        else throw (.fileParse ("Unrecognized RAD value " ++ String.mk val ++
          " for atom " ++ toString (aid + 1)))
      let a ← mol.getAtomWithIdx aid
      pure (mol.replaceAtom aid { a with numRadicalElectrons := nre })
  else if prop = strL "MASS" then do
    let v ← toDouble val
    if v.nonpos then throw (.fileParse ("Bad value for MASS :" ++ String.mk val ++
      " for atom " ++ toString (aid + 1)))
    else do
      let a ← mol.getAtomWithIdx aid
      if a.hasQuery = false then pure (mol.replaceAtom aid { a with mass := v })
      else pure (mol.replaceAtom aid (a.expandQuery (makeAtomMassQuery (cppIntCast v)) .andQ))
  else if prop = strL "CFG" then do
    let cfg ← toInt val
    if cfg = 0 then pure mol
    else if cfg = 1 ∨ cfg = 2 ∨ cfg = 3 then do
      let a ← mol.getAtomWithIdx aid
      pure (mol.replaceAtom aid (a.setProp "molParity" (.iv cfg)))
    else throw (.fileParse ("Unrecognized CFG value : " ++ String.mk val ++
      " for atom " ++ toString (aid + 1)))
  else if prop = strL "HCOUNT" then do
    if val ≠ strL "0" then do
      let hcount ← toInt val
      let mol := if ((← mol.getAtomWithIdx aid)).hasQuery then mol
        else replaceAtomWithQueryAtom mol aid
      let hcount := if hcount = -1 then 0 else hcount
      pure (mol.modifyAtom aid (fun a2 => a2.expandQuery (makeAtomHCountQuery hcount) .andQ))
    else pure mol
  else if prop = strL "UNSAT" then do
    if val = strL "1" then do
      let mol := if ((← mol.getAtomWithIdx aid)).hasQuery then mol
        else replaceAtomWithQueryAtom mol aid
      pure (mol.modifyAtom aid (fun a2 => a2.expandQuery makeAtomUnsaturatedQuery .andQ))
    else pure mol
  else if prop = strL "RBCNT" then do
    if val ≠ strL "0" then do
      let rbcount ← toInt val
      let mol := if ((← mol.getAtomWithIdx aid)).hasQuery then mol
        else replaceAtomWithQueryAtom mol aid
      let rbcount := if rbcount = -1 then 0 else rbcount
      pure (mol.modifyAtom aid
        (fun a2 => a2.expandQuery (makeAtomRingBondCountQuery rbcount) .andQ))
    else pure mol
  else if prop = strL "AAMAP" then do
    if val ≠ strL "0" then do
      let mapno ← toInt val
      let a ← mol.getAtomWithIdx aid
      pure (mol.replaceAtom aid (a.setProp "molAtomMapNumber" (.iv mapno)))
    else pure mol
  else pure mol

/-- V3000 atom `KEY=VAL` property interpreter, operating on the atom at
index `aid` of the molecule. -/
def ParseV3000AtomProps (aid : Nat) : Mol → List Line → Except ParseErr Mol
  | mol, [] => .ok mol
  | mol, token :: rest => do
    match splitAssignToken token with
    | none => throw (.fileParse
        ("Invalid atom property: " ++ String.mk token ++ " for atom " ++ toString (aid + 1)))
    | some pv => do
      let mol ← v3000AtomPropUpdate aid mol pv.1 pv.2
      ParseV3000AtomProps aid mol rest

/-- The symbol-token selection of the V3000 atom line: the second token,
or, after a `NOT`, the third (with the negate flag set). -/
def v3000SymbolTokenOf (t : Line) (tks1 : List Line) :
    Except ParseErr (Line × Bool × List Line) :=
  match tks1 with
  | [] => throw (.fileParse ("Bad atom line : " ++ String.mk t))
  | t1 :: tks2 =>
    if t1 = strL "NOT" then
      match tks2 with
      | [] => throw (.fileParse ("Bad atom line : " ++ String.mk t))
      | t2 :: tks3 => pure ((t2, true, tks3) : Line × Bool × List Line)
    else pure ((t1, false, tks2) : Line × Bool × List Line)

def v3000AtomLoop (fuel : Nat) : Nat → List Line → Nat → Mol → Conformer →
    Except ParseErr (Mol × Conformer × List Line × Nat)
  | 0, lines, line, mol, conf => .ok (mol, conf, lines, line)
  | n + 1, lines, line, mol, conf => do
    let (t, lines, line) ← getV3000Line fuel lines line
    match tokenizeELS (trimC t) with
    | [] => throw (.fileParse ("Bad atom line : " ++ String.mk t))
    | tok0 :: tks1 => do
      let molIdx := uint32 (atoiModel tok0)
      let (symTok, negate, tks) ← v3000SymbolTokenOf t tks1
      let atom ← ParseV3000AtomSymbol symTok negate line
      match tks with
      | xT :: yT :: zT :: mapT :: rest => do
        let pos : Point3 := { x := atofModel xT, y := atofModel yT, z := atofModel zT }
        let atom := atom.setProp "molAtomMapNumber" (.iv (atoiModel mapT))
        match mol.addAtom atom with
        | (mol, aid) => do
          let mol ← ParseV3000AtomProps aid mol rest
          let mol := mol.setAtomBookmark aid molIdx
          v3000AtomLoop fuel n lines line mol (conf.setAtomPos aid pos)
      | _ => throw (.fileParse ("Bad atom line : " ++ String.mk t))

/-- V3000 atom block (`BEGIN ATOM` … `END ATOM`). -/
def ParseV3000AtomBlock (fuel : Nat) (lines : List Line) (line : Nat) (nAtoms : Nat)
    (mol : Mol) (conf : Conformer) :
    Except ParseErr (Mol × Conformer × List Line × Nat) := do
  if nAtoms = 0 then throw (.invariantViolation "bad atom count")
  else do
    let (t, lines, line) ← getV3000Line fuel lines line
    if t.length < 10 ∨ takeC t 10 ≠ strL "BEGIN ATOM" then
      throw (.fileParse "BEGIN ATOM line not found")
    else do
      let (mol, conf, lines, line) ← v3000AtomLoop fuel nAtoms lines line mol conf
      let (t2, lines, line) ← getV3000Line fuel lines line
      if t2.length < 8 ∨ takeC t2 8 ≠ strL "END ATOM" then
        throw (.fileParse "END ATOM line not found")
      else
        match (if mol.hasProp "_2DConf" then (mol.clearProp "_2DConf", conf.set3D false)
          else if mol.hasProp "_3DConf" then (mol.clearProp "_3DConf", conf.set3D true)
          else (mol, conf) : Mol × Conformer) with
        | (mol, conf) => .ok (mol, conf, lines, line)

/-- V3000 bond construction from the wire type (the `case 4` branch also
sets the aromatic flag, unlike the V2000 decoder). -/
def mkBondFromTypeV3 (bType : Nat) : Bond × List String :=
  if bType = 1 then ({ bondType := .SINGLE }, [])
  else if bType = 2 then ({ bondType := .DOUBLE }, [])
  else if bType = 3 then ({ bondType := .TRIPLE }, [])
  else if bType = 4 then ({ bondType := .AROMATIC, isAromatic := true }, [])
  else if bType = 0 then
    ({ bondType := .UNSPECIFIED },
     ["bond with order 0 found. This is not part of the MDL specification."])
  else if bType = 8 then ({ query := some .nullB }, [])
  else if bType = 5 then
    ({ query := some (.orB (.orderEq .SINGLE) (.orderEq .DOUBLE)) }, [])
  else if bType = 6 then
    ({ query := some (.orB (.orderEq .SINGLE) (.orderEq .AROMATIC)) }, [])
  else if bType = 7 then
    ({ query := some (.orB (.orderEq .DOUBLE) (.orderEq .AROMATIC)) }, [])
  else
    ({ query := some .nullB },
     ["unrecognized query bond type, " ++ toString bType ++ ", found. Using an any query."])

/-- V3000 bond `KEY=VAL` property interpreter; also tracks the
chirality-possible flag. -/
def v3000BondProps (bType : Nat) (line : Nat) : List Line → Bond → Bool →
    Except ParseErr (Bond × Bool)
  | [], b, chir => .ok (b, chir)
  | token :: rest, b, chir => do
    match splitAssignToken token with
    | none => throw (.fileParse
        ("bad bond property " ++ String.mk token ++ " on line " ++ toString line))
    | some pv => do
      let prop := pv.1
      let val := pv.2
      if prop = strL "CFG" then
        let cfg := uint32 (atoiModel val)
        if cfg = 0 then v3000BondProps bType line rest b chir
        else if cfg = 1 then v3000BondProps bType line rest { b with dir := .BEGINWEDGE } true
        else if cfg = 2 then
          let b :=
            if bType = 1 then { b with dir := .UNKNOWN }
            else if bType = 2 then { b with dir := .EITHERDOUBLE, stereo := .STEREOANY }
            else b
          v3000BondProps bType line rest b chir
        else if cfg = 3 then v3000BondProps bType line rest { b with dir := .BEGINDASH } true
        else throw (.fileParse ("bad bond CFG " ++ String.mk val ++ " on line " ++ toString line))
      else if prop = strL "TOPO" then
        if val ≠ strL "0" then do
          let b := if b.hasQuery then b else { b with query := some (.orderEq b.bondType) }
          let q ←
            if val = strL "1" then pure (BQuery.isInRing false)
            else if val = strL "2" then pure (BQuery.isInRing true)
            else throw (.fileParse
              ("bad bond TOPO " ++ String.mk val ++ " on line " ++ toString line))
          v3000BondProps bType line rest (b.expandQuery q) chir
        else v3000BondProps bType line rest b chir
      else if prop = strL "RXCTR" then do
        let rs ← toInt val
        v3000BondProps bType line rest (b.setProp "molReactStatus" (.iv rs)) chir
      else v3000BondProps bType line rest b chir

def v3000BondLoop (fuel : Nat) : Nat → List Line → Nat → Mol → Bool →
    Except ParseErr (Mol × List Line × Nat × Bool)
  | 0, lines, line, mol, chir => .ok (mol, lines, line, chir)
  | n + 1, lines, line, mol, chir => do
    let (t, lines, line) ← getV3000Line fuel lines line
    let splitLine := splitWS (trimC t)
    if splitLine.length < 4 then
      throw (.fileParse ("bond line : " ++ toString line ++ " is too short"))
    else do
      let bondIdx := uint32 (atoiModel (splitLine.getD 0 []))
      let bType := uint32 (atoiModel (splitLine.getD 1 []))
      let a1Idx := uint32 (atoiModel (splitLine.getD 2 []))
      let a2Idx := uint32 (atoiModel (splitLine.getD 3 []))
      match mkBondFromTypeV3 bType with
      | (bond0, _warns) => do
        let (bond1, chir) ← v3000BondProps bType line (splitLine.drop 4) bond0 chir
        let a1 ← mol.getAtomWithBookmark a1Idx
        let a2 ← mol.getAtomWithBookmark a2Idx
        let bond := { bond1 with beginAtomIdx := a1, endAtomIdx := a2 }
        let mol ← mol.addBond bond
        let mol ←
          if bond.isAromatic then do
            let x1 ← mol.getAtomWithIdx bond.beginAtomIdx
            let mol := mol.replaceAtom bond.beginAtomIdx { x1 with isAromatic := true }
            let x2 ← mol.getAtomWithIdx bond.endAtomIdx
            pure (mol.replaceAtom bond.endAtomIdx { x2 with isAromatic := true })
          else pure mol
        let mol := mol.setBondBookmark (mol.bonds.length - 1) bondIdx
        v3000BondLoop fuel n lines line mol chir

/-- V3000 bond block (`BEGIN BOND` … `END BOND`). -/
def ParseV3000BondBlock (fuel : Nat) (nBonds : Nat) (lines : List Line) (line : Nat)
    (mol : Mol) (chir : Bool) : Except ParseErr (Mol × List Line × Nat × Bool) := do
  if nBonds = 0 then throw (.invariantViolation "bad bond count")
  else do
    let (t, lines, line) ← getV3000Line fuel lines line
    if t.length < 10 ∨ takeC t 10 ≠ strL "BEGIN BOND" then
      throw (.fileParse "BEGIN BOND line not found")
    else do
      let (mol, lines, line, chir) ← v3000BondLoop fuel nBonds lines line mol chir
      let (t2, lines, line) ← getV3000Line fuel lines line
      if t2.length < 8 ∨ takeC t2 8 ≠ strL "END BOND" then
        throw (.fileParse "END BOND line not found")
      else .ok (mol, lines, line, chir)

/-- The sgroup skip loop, verbatim from the source: it exits only on a
line of length at least 10 that does NOT begin with `END SGROUP` (the
comparison is inverted with respect to the obvious intent), consuming
that line. -/
def sgroupSkipLoop : Nat → List Line → Nat → Except ParseErr (List Line × Nat)
  | 0, _, _ => .error .fuelExhausted
  | fuel + 1, lines, line => do
    let (t, lines, line) ← getV3000Line (fuel + 1) lines line
    if t.length ≥ 10 ∧ takeC t 10 ≠ strL "END SGROUP" then .ok (lines, line)
    else sgroupSkipLoop fuel lines line

def obj3dSkipLoop (fuel : Nat) : Nat → List Line → Nat → Except ParseErr (List Line × Nat)
  | 0, lines, line => .ok (lines, line)
  | n + 1, lines, line => do
    let (_t, lines, line) ← getV3000Line fuel lines line
    obj3dSkipLoop fuel n lines line

def linknodeLoop : Nat → Line → List Line → Nat → Except ParseErr (Line × List Line × Nat)
  | 0, _, _, _ => .error .fuelExhausted
  | fuel + 1, tempStr, lines, line =>
    if tempStr.length > 8 ∧ takeC tempStr 8 = strL "LINKNODE" then do
      let (t, lines, line) ← getV3000Line (fuel + 1) lines line
      linknodeLoop fuel t lines line
    else .ok (tempStr, lines, line)

def skipInnerLoop : Nat → Line → List Line → Nat → Except ParseErr (Line × List Line × Nat)
  | 0, _, _, _ => .error .fuelExhausted
  | fuel + 1, tempStr, lines, line =>
    if tempStr.length < 3 ∨ takeC tempStr 3 ≠ strL "END" then do
      let (t, lines, line) ← getV3000Line (fuel + 1) lines line
      skipInnerLoop fuel t lines line
    else .ok (tempStr, lines, line)

def beginSkipLoop : Nat → Line → List Line → Nat → Except ParseErr (Line × List Line × Nat)
  | 0, _, _, _ => .error .fuelExhausted
  | fuel + 1, tempStr, lines, line =>
    if tempStr.length > 5 ∧ takeC tempStr 5 = strL "BEGIN" then do
      let (t, lines, line) ← getV3000Line (fuel + 1) lines line
      let (t2, lines, line) ← skipInnerLoop (fuel + 1) t lines line
      let _ := t2
      let (t3, lines, line) ← getV3000Line (fuel + 1) lines line
      beginSkipLoop fuel t3 lines line
    else .ok (tempStr, lines, line)

/-- The indeterminate values of the local variables `nSgroups`,
`n3DConstraints` and `chiralFlag` of `ParseV3000MolBlock`, which the
source declares without an initializer and reads when the `COUNTS` line
carries fewer than 5 fields.  Reading them yields whatever happens to be
in the stack slots; the model makes those values an explicit parameter. -/
structure Junk where
  sg : Nat
  o3d : Nat
  chi : Nat
deriving DecidableEq, Repr

/-- An optional trailing field of the V3000 `COUNTS` line: read when
present, otherwise the indeterminate stack value stands. -/
def v3000CountsField (splitLine : List Line) (i dflt : Nat) : Except ParseErr Nat :=
  if splitLine.length > i then do pure (uint32 (← toInt (splitLine.getD i [])))
  else pure dflt

/-- The sgroup-skip phase of the V3000 driver, entered when the
(possibly indeterminate) sgroup count is nonzero. -/
def v3000SgroupPhase (fuel nSgroups : Nat) (lines : List Line) (line : Nat) :
    Except ParseErr (List Line × Nat) :=
  if nSgroups ≠ 0 then do
    let (t1, lines, line) ← getV3000Line fuel lines line
    if t1.length < 12 ∨ takeC t1 12 ≠ strL "BEGIN SGROUP" then
      throw (.fileParse "BEGIN SGROUP line not found")
    else sgroupSkipLoop fuel lines line
  else pure (lines, line)

/-- The obj3d-skip phase of the V3000 driver, entered when the
(possibly indeterminate) 3D-constraint count is nonzero. -/
def v3000Obj3dPhase (fuel n3DConstraints : Nat) (lines : List Line) (line : Nat) :
    Except ParseErr (List Line × Nat) :=
  if n3DConstraints ≠ 0 then do
    let (t1, lines, line) ← getV3000Line fuel lines line
    if t1.length < 11 ∨ takeC t1 11 ≠ strL "BEGIN OBJ3D" then
      throw (.fileParse "BEGIN OBJ3D line not found")
    else do
      let (lines, line) ← obj3dSkipLoop fuel n3DConstraints lines line
      let (t2, lines, line) ← getV3000Line fuel lines line
      if t2.length < 9 ∨ takeC t2 9 ≠ strL "END OBJ3D" then
        throw (.fileParse "END OBJ3D line not found")
      else pure (lines, line)
  else pure (lines, line)

/-- V3000 CTAB driver. -/
def ParseV3000MolBlock (fuel : Nat) (junk : Junk) (lines : List Line) (line : Nat)
    (mol : Mol) (chir : Bool) : Except ParseErr (Mol × List Line × Nat × Bool) := do
  let (t, lines, line) ← getV3000Line fuel lines line
  if t.length < 10 ∨ takeC t 10 ≠ strL "BEGIN CTAB" then
    throw (.fileParse "BEGIN CTAB line not found")
  else do
    let (tempStr, lines, line) ← getV3000Line fuel lines line
    if tempStr.length < 8 ∨ takeC tempStr 7 ≠ strL "COUNTS " then
      throw (.fileParse ("Bad counts line : " ++ String.mk tempStr))
    else do
      let splitLine := splitWS (trimC (subClamp tempStr 7 (tempStr.length - 7)))
      if splitLine.length < 2 then
        throw (.fileParse ("Bad counts line : " ++ String.mk tempStr))
      else do
        let nAtoms := uint32 (← toInt (splitLine.getD 0 []))
        let nBonds := uint32 (← toInt (splitLine.getD 1 []))
        if nAtoms = 0 then throw (.fileParse "molecule has no atoms")
        else do
          let conf := Conformer.create nAtoms
          let nSgroups ← v3000CountsField splitLine 2 junk.sg
          let n3DConstraints ← v3000CountsField splitLine 3 junk.o3d
          let _chiralFlag ← v3000CountsField splitLine 4 junk.chi
          let (mol, conf, lines, line) ← ParseV3000AtomBlock fuel lines line nAtoms mol conf
          let (mol, lines, line, chir) ← ParseV3000BondBlock fuel nBonds lines line mol chir
          let (lines, line) ← v3000SgroupPhase fuel nSgroups lines line
          let (lines, line) ← v3000Obj3dPhase fuel n3DConstraints lines line
          let (t3, lines, line) ← getV3000Line fuel lines line
          let (t4, lines, line) ← linknodeLoop fuel t3 lines line
          let (t5, lines, line) ← beginSkipLoop fuel t4 lines line
          if t5.length < 8 ∨ takeC t5 8 ≠ strL "END CTAB" then
            throw (.fileParse "END CTAB line not found")
          else
            .ok (mol.addConformer conf, lines, line, chir)

/-- Version extraction from columns 34..39 of the V2000 counts line. -/
def ctabVersionOf (tempStr : Line) : Except ParseErr Nat :=
  if tempStr.length > 35 then
    if tempStr.length < 39 ∨ charAtD tempStr 34 ≠ 'V' then
      .error (.fileParse "CTAB version string invalid")
    else if subClamp tempStr 34 5 = strL "V3000" then .ok 3000
    else if subClamp tempStr 34 5 = strL "V2000" then .ok 2000
    else .error (.fileParse ("Unsupported CTAB version: " ++ String.mk (subClamp tempStr 34 5)))
  else .ok 2000

/-- The counts line: `nAtoms`, `nBonds` and the CTAB version.  The
optional tail fields (`nLists` … `nIntermediates`) are parsed by the
source into locals that are never read again, inside a try block that
swallows `bad_lexical_cast`; their field positions are guarded by length
checks, so they can throw nothing else and have no observable effect, and
they are therefore not modelled further. -/
def parseCountsLine (tempStr : Line) : Except ParseErr (Int × Int × Nat) := do
  if tempStr.length < 6 then
    throw (.fileParse ("Counts line too short: " ++ String.mk tempStr))
  else do
    let nAtoms ← wrapBadCast (toInt (subClamp tempStr 0 3)) (cannotConvert (subClamp tempStr 0 3))
    let nBonds ← wrapBadCast (toInt (subClamp tempStr 3 3)) (cannotConvert (subClamp tempStr 3 3))
    let version ← ctabVersionOf tempStr
    pure (nAtoms, nBonds, version)

/-- Result of the version-specific block drivers inside the orchestrator. -/
structure DriveRes where
  fileComplete : Bool
  mol : Mol
  line : Nat
  chiralityPossible : Bool

/-- Modelled from the spec: the downstream passes of step 4 of the
orchestrator (explicit-valence computation, `cleanUp`,
`DetectAtomStereoChemistry`, hydrogen removal or `sanitizeMol`,
`ClearSingleBondDirFlags`, `DetectBondStereoChemistry`,
`assignStereochemistry`).  They are external collaborators outside the
parser source and outside the spec's scope (§1); they are modelled as the
identity on the graph so that the call structure and flags are preserved.
The claims settled against the full parse use `sanitize = false`, where
the source skips all of them except the per-atom explicit-valence
computation (which only caches a derived value). -/
def sanitizePasses (m : Mol) (chiralityPossible sanitize removeHs : Bool) : Mol :=
  let _ := chiralityPossible
  let _ := sanitize
  let _ := removeHs
  m

/-- The V2000 drive: atoms → conformer attachment → bonds → properties. -/
def v2000Drive (fuel : Nat) (nAtoms nBonds : Int) (lines : List Line) (line : Nat)
    (res : Mol) : Except ParseErr DriveRes := do
  if nAtoms ≤ 0 then throw (.fileParse "molecule has no atoms")
  else do
    let conf := Conformer.create nAtoms.toNat
    let (res, conf, lines, line) ← ParseMolBlockAtoms nAtoms.toNat lines line res conf
    let (res, conf) :=
      (if res.hasProp "_2DConf" then (res.clearProp "_2DConf", conf.set3D false)
       else if res.hasProp "_3DConf" then (res.clearProp "_3DConf", conf.set3D true)
       else (res, conf) : Mol × Conformer)
    let res := res.addConformer conf
    let (res, lines, line, chir) ← ParseMolBlockBonds (uint32 nBonds) lines line res false
    let (fileComplete, res, rest, line) ← ParseMolBlockProperties fuel res lines line
    let _ := rest
    pure ⟨fileComplete, res, line, chir⟩

/-- Version dispatch: the V2000 drive, or the V3000 driver after the
zero-counts check.  The indeterminate `junk` values are consumed only on
the V3000 path. -/
def dispatchDrive (junk : Junk) (fuel : Nat) (nAtoms nBonds : Int) (version : Nat)
    (lines : List Line) (line : Nat) (res : Mol) : Except ParseErr DriveRes :=
  if version = 2000 then v2000Drive fuel nAtoms nBonds lines line res
  else if nAtoms ≠ 0 ∨ nBonds ≠ 0 then
    .error (.fileParse "V3000 mol blocks should have 0s in the initial counts line.")
  else do
    let (mol, rest, line, chir) ← ParseV3000MolBlock fuel junk lines line res false
    let _ := rest
    pure ⟨true, mol, line, chir⟩

/-- The orchestrator tail: completeness check, downstream passes,
deferred-query completion. -/
def finishMol (driven : Except ParseErr DriveRes) (sanitize removeHs : Bool) :
    Except ParseErr (Option Mol × Nat) :=
  match driven with
  | .error e => .error e
  | .ok dr =>
    if dr.fileComplete = false then
      .error (.fileParse "Problems encountered parsing Mol data, M  END ")
    else
      let res := sanitizePasses dr.mol dr.chiralityPossible sanitize removeHs
      let res :=
        if res.hasProp "_NeedsQueryScan" then
          CompleteMolQueries (res.clearProp "_NeedsQueryScan")
        else res
      .ok (some res, dr.line)

/-- Top-level orchestrator `MolDataStreamToMol`: header, counts, version
dispatch, completeness check, downstream passes, deferred-query
completion. -/
def MolDataStreamToMol (junk : Junk) (lines0 : List Line) (line0 : Nat)
    (sanitize removeHs : Bool) : Except ParseErr (Option Mol × Nat) :=
  let fuel := lines0.length + 2
  let line := line0 + 1
  match getLineS lines0 with
  | (nameL, r1, eof0) =>
    if eof0 then .ok (none, line)
    else
      let res : Mol := ({} : Mol).setProp "_Name" (.sv nameL)
      match getLineS r1 with
      | (infoL, r2, _) =>
        let line := line + 1
        let res := res.setProp "_MolFileInfo" (.sv infoL)
        let res :=
          if infoL.length ≥ 22 then
            let dimLabel := subClamp infoL 20 2
            if dimLabel = strL "2d" ∨ dimLabel = strL "2D" then res.setProp "_2DConf" (.iv 1)
            else if dimLabel = strL "3d" ∨ dimLabel = strL "3D" then res.setProp "_3DConf" (.iv 1)
            else res
          else res
        match getLineS r2 with
        | (commentL, r3, _) =>
          let line := line + 1
          let res := res.setProp "_MolFileComments" (.sv commentL)
          match getLineS r3 with
          | (countsL, r4, _) =>
            let line := line + 1
            match parseCountsLine countsL with
            | .error e => .error e
            | .ok (nAtoms, nBonds, version) =>
              finishMol (dispatchDrive junk fuel nAtoms nBonds version r4 line res)
                sanitize removeHs

/-- `MolBlockToMol`: parse from a string, with a fresh line counter. -/
def MolBlockToMol (junk : Junk) (molBlock : List Line) (sanitize removeHs : Bool) :
    Except ParseErr (Option Mol × Nat) :=
  MolDataStreamToMol junk molBlock 0 sanitize removeHs

set_option maxRecDepth 100000

set_option maxHeartbeats 1000000

deriving instance DecidableEq for Except

/-- The molecule of a successful parse result. -/
def molOf (r : Except ParseErr (Option Mol × Nat)) : Option Mol :=
  match r with
  | .ok (some m, _) => some m
  | _ => none

/-- Whether a parse result is a successfully parsed molecule. -/
def parseOkB (r : Except ParseErr (Option Mol × Nat)) : Bool := (molOf r).isSome

/-- The error of a failed parse result. -/
def parseErrOf (r : Except ParseErr (Option Mol × Nat)) : Option ParseErr :=
  match r with
  | .error e => some e
  | _ => none

/-- Whether an optional query is exactly the `AtomNull` query. -/
def isAtomNullQuery : Option AQuery → Bool
  | some (.node k v n cs) =>
    decide (k = QKind.nullQ) && decide (v = 0) && decide (n = false) &&
    (match cs with | .nil => true | .cons _ _ => false)
  | none => false

/-- A junk assignment standing for one concrete run's stack contents. -/
def J0 : Junk := ⟨0, 0, 0⟩

/-- A V3000 molfile whose `COUNTS` line declares `nSgroups = 1` and whose
CTAB carries a well-formed one-record `BEGIN SGROUP` … `END SGROUP` block
between the bond block and `END CTAB`. -/
def c2Input : List Line :=
  [strL "sg", strL "", strL "",
   strL "  0  0  0  0  0  0  0  0  0  0999 V3000",
   strL "M  V30 BEGIN CTAB",
   strL "M  V30 COUNTS 2 1 1 0 0",
   strL "M  V30 BEGIN ATOM",
   strL "M  V30 1 C 0 0 0 0",
   strL "M  V30 2 C 0 0 0 0",
   strL "M  V30 END ATOM",
   strL "M  V30 BEGIN BOND",
   strL "M  V30 1 1 1 2",
   strL "M  V30 END BOND",
   strL "M  V30 BEGIN SGROUP",
   strL "M  V30 1 SUP 1 ATOMS=(1 1)",
   strL "M  V30 END SGROUP",
   strL "M  V30 END CTAB",
   strL "M  END"]

/-- Claim C2 (code bug): on a well-formed V3000 input with a declared and
present sgroup block, the parse raises `END CTAB line not found` instead
of skipping the block and succeeding.  The skip loop at the `nSgroups`
branch breaks on the first line of length at least 10 that is NOT
`END SGROUP` — the first sgroup record — leaving the reader inside the
block, after which the `END SGROUP` line fails the `END CTAB` check. -/
theorem c2_sgroup_block_raises :
    parseErrOf (MolBlockToMol J0 c2Input false false) =
      some (.fileParse "END CTAB line not found") := by decide

/-- A V3000 molfile planting the numeric value of the magic sentinel
(559038737, the `int` value of `-0xDEADBEEF`) in a query leaf through a
`CHG=` atom property on a query atom (`*`). -/
def c3Input : List Line :=
  [strL "mg", strL "", strL "",
   strL "  0  0  0  0  0  0  0  0  0  0999 V3000",
   strL "M  V30 BEGIN CTAB",
   strL "M  V30 COUNTS 2 1 0 0 0",
   strL "M  V30 BEGIN ATOM",
   strL "M  V30 1 * 0 0 0 0 CHG=559038737",
   strL "M  V30 2 C 0 0 0 0",
   strL "M  V30 END ATOM",
   strL "M  V30 BEGIN BOND",
   strL "M  V30 1 1 1 2",
   strL "M  V30 END BOND",
   strL "M  V30 END CTAB",
   strL "M  END"]

/-- Claim C3 counterexample: this input parses successfully, yet a query
leaf holds the MAGIC sentinel after the parse — the V3000 `CHG=` property
stores the formal-charge value verbatim in a query leaf without setting
`_NeedsQueryScan`, so the completion pass never runs. -/
theorem c3_magic_leaf_survives :
    parseOkB (MolBlockToMol J0 c3Input false false) = true ∧
    (molOf (MolBlockToMol J0 c3Input false false)).map molHasMagic = some true ∧
    (molOf (MolBlockToMol J0 c3Input false false)).map
      (fun m => m.hasProp "_NeedsQueryScan") = some false := by
  refine ⟨by decide, by decide, by decide⟩

/-- A V2000 molfile whose property block is the single line `$$$$`. -/
def c5Input : List Line :=
  [strL "methane", strL "", strL "",
   strL "  1  0  0  0  0  0  0  0  0  0999 V2000",
   strL "    0.0000    0.0000    0.0000 C   0  0  0  0  0  0  0  0  0  0  0  0",
   strL "$$$$"]

/-- Claim C5 counterexample: a property block consisting of `$$$$` alone
does not terminate without error — the `$$$$` line is the first property
line, so it is handed to the legacy atom-list parser, which fails to
convert `$$$` to an integer; the parse as a whole fails. -/
theorem c5_dollars_first_line_raises :
    parseErrOf (MolBlockToMol J0 c5Input false false) =
      some (.fileParse "Cannot convert $$$ to int") := by decide

/-- A V2000 molfile whose property block holds one charge record and then
terminates with `$$$$` in place of `M  END`. -/
def c5bInput : List Line :=
  [strL "methane", strL "", strL "",
   strL "  1  0  0  0  0  0  0  0  0  0999 V2000",
   strL "    0.0000    0.0000    0.0000 C   0  0  0  0  0  0  0  0  0  0  0  0",
   strL "M  CHG  1   1   1",
   strL "$$$$"]

/-- Claim C6 counterexample: on the malformed (non-numeric,
non-whitespace) field `abc`, `toInt` with `accept_spaces = false` returns
the value 0 instead of failing with a bad-field error. -/
theorem c6_malformed_returns_zero : toInt (strL "abc") false = .ok 0 := by decide

/-- A two-atom V2000 molfile whose `M  RGP` record names wire atom 3 —
the first index past the last atom. -/
def c7Input : List Line :=
  [strL "rgp", strL "", strL "",
   strL "  2  1  0  0  0  0  0  0  0  0999 V2000",
   strL "    0.0000    0.0000    0.0000 C   0  0  0  0  0  0  0  0  0  0  0  0",
   strL "    0.0000    0.0000    0.0000 C   0  0  0  0  0  0  0  0  0  0  0  0",
   strL "  1  2  1  0",
   strL "M  RGP  1   3   5",
   strL "M  END"]

/-- The same molfile naming wire atom 4 (clearly out of range). -/
def c7bInput : List Line :=
  c7Input.map (fun l => if l = strL "M  RGP  1   3   5" then strL "M  RGP  1   4   5" else l)

/-- The same molfile with an in-range label: `M  RGP  1   1   5`. -/
def c7cInput : List Line :=
  c7Input.map (fun l => if l = strL "M  RGP  1   3   5" then strL "M  RGP  1   1   5" else l)

/-- The atom that received the in-range R-group label. -/
def c7Atom : Atom := (((molOf (MolBlockToMol J0 c7cInput false false)).getD {}).atoms.headD {})

/-- Claim C7 (code bug): the explicit nonexistent-atom check of
`ParseRGroupLabels` is `atIdx > getNumAtoms()` instead of `>=`, so the
first index past the last atom (wire atom 3 of a 2-atom molecule) slips
through it and dies in the graph interface's `getAtomWithIdx`
precondition — an invariant violation, not the `FileParse` error the
claim (and the check's own error message) promises.  Wire atom 4 is
caught by the check and does raise `FileParse`; an in-range entry
replaces the atom with an `AtomNull` query atom carrying
`_MolFileRLabel = 5` and mass 5. -/
theorem c7_rgp_boundary_escapes_check :
    parseErrOf (MolBlockToMol J0 c7Input false false) =
      some (.invariantViolation "getAtomWithIdx") ∧
    parseErrOf (MolBlockToMol J0 c7bInput false false) =
      some (.fileParse "Attempt to set R group label on nonexistent atom 3") ∧
    c7Atom.props.lookup "_MolFileRLabel" = some (.iv 5) ∧
    c7Atom.mass = ⟨5, 1⟩ ∧
    isAtomNullQuery c7Atom.query = true := by
  refine ⟨by decide, by decide, by decide, by decide, by decide⟩

/-- A V3000 molfile whose `COUNTS` line carries only the two mandatory
fields, so `nSgroups` and `n3DConstraints` are read uninitialized. -/
def c10Input : List Line :=
  [strL "tf", strL "", strL "",
   strL "  0  0  0  0  0  0  0  0  0  0999 V3000",
   strL "M  V30 BEGIN CTAB",
   strL "M  V30 COUNTS 2 1",
   strL "M  V30 BEGIN ATOM",
   strL "M  V30 1 C 0 0 0 0",
   strL "M  V30 2 C 0 0 0 0",
   strL "M  V30 END ATOM",
   strL "M  V30 BEGIN BOND",
   strL "M  V30 1 1 1 2",
   strL "M  V30 END BOND",
   strL "M  V30 END CTAB",
   strL "M  END"]

/-- Claim C10 (code bug): with a two-field `COUNTS` line the branch taken
depends on the indeterminate values of the uninitialized locals — stack
contents of zero parse the input successfully, while a nonzero
indeterminate `nSgroups` makes the same input fail with
`BEGIN SGROUP line not found`.  The claimed behaviour (as if the counts
were zero) holds only for the zero stack contents. -/
theorem c10_uninitialized_counts_locals :
    parseOkB (MolBlockToMol ⟨0, 0, 0⟩ c10Input false false) = true ∧
    parseErrOf (MolBlockToMol ⟨1, 0, 0⟩ c10Input false false) =
      some (.fileParse "BEGIN SGROUP line not found") := by
  refine ⟨by decide, by decide⟩

/-- The same shape of input as `c10Input`, used to exhibit the failure of
two-run determinism. -/
def c8Input : List Line :=
  [strL "det", strL "", strL "",
   strL "  0  0  0  0  0  0  0  0  0  0999 V3000",
   strL "M  V30 BEGIN CTAB",
   strL "M  V30 COUNTS 2 1",
   strL "M  V30 BEGIN ATOM",
   strL "M  V30 1 O 0 0 0 0",
   strL "M  V30 2 H 0 1 0 0",
   strL "M  V30 END ATOM",
   strL "M  V30 BEGIN BOND",
   strL "M  V30 1 1 1 2",
   strL "M  V30 END BOND",
   strL "M  V30 END CTAB",
   strL "M  END"]

/-- Claim C8 counterexample: the same bytes, parsed twice with the same
flags, can yield a successfully parsed molecule on one run and an error
on the other, because the V3000 driver reads uninitialized locals whose
stack contents may differ between runs. -/
theorem c8_two_runs_can_disagree :
    parseOkB (MolBlockToMol ⟨0, 0, 0⟩ c8Input false false) = true ∧
    parseErrOf (MolBlockToMol ⟨1, 0, 0⟩ c8Input false false) =
      some (.fileParse "BEGIN SGROUP line not found") := by
  refine ⟨by decide, by decide⟩

theorem bind_ok {α β : Type} {x : Except ParseErr α} {f : α → Except ParseErr β} {b : β}
    (h : x >>= f = .ok b) : ∃ a, x = .ok a ∧ f a = .ok b := by
  cases x with
  | error e => exact Except.noConfusion h
  | ok a => exact ⟨a, rfl, h⟩

theorem toInt_error_kind {s : Line} {a : Bool} {e : ParseErr}
    (h : toInt s a = .error e) : e = .badLexicalCast := by
  unfold toInt at h
  by_cases h1 : (atoiModel s = 0 ∧ a = false ∧ charAtD s 0 = ' ')
  · rw [if_pos h1] at h
    by_cases h2 : (trimC s).length = 0
    · rw [if_pos h2] at h
      exact (Except.error.inj h).symm
    · rw [if_neg h2] at h
      exact Except.noConfusion h
  · rw [if_neg h1] at h
    exact Except.noConfusion h

theorem trimC_eq_nil_iff {s : Line} : trimC s = [] ↔ ∀ c ∈ s, isSpaceC c = true := by
  unfold trimC
  constructor
  · intro h c hc
    have h2 : (s.dropWhile isSpaceC).reverse.dropWhile isSpaceC = [] := by
      cases he : (s.dropWhile isSpaceC).reverse.dropWhile isSpaceC with
      | nil => rfl
      | cons x xs => rw [he] at h; simp at h
    have h3 : ∀ x ∈ (s.dropWhile isSpaceC).reverse, isSpaceC x = true :=
      List.dropWhile_eq_nil_iff.mp h2
    have h4 : ∀ x ∈ s.dropWhile isSpaceC, isSpaceC x = true := by
      intro x hx
      exact h3 x (List.mem_reverse.mpr hx)
    have hsplit : c ∈ s.takeWhile isSpaceC ++ s.dropWhile isSpaceC := by
      rw [List.takeWhile_append_dropWhile]
      exact hc
    rcases List.mem_append.mp hsplit with h5 | h5
    · exact List.mem_takeWhile_imp h5
    · exact h4 c h5
  · intro h
    have h2 : s.dropWhile isSpaceC = [] := List.dropWhile_eq_nil_iff.mpr h
    simp [h2]

theorem atoiModel_of_all_space {s : Line} (h : ∀ c ∈ s, isSpaceC c = true) :
    atoiModel s = 0 := by
  unfold atoiModel
  have h2 : s.dropWhile isSpaceC = [] := List.dropWhile_eq_nil_iff.mpr h
  simp [h2, digitsVal]

/-- Claim C6 (amended): `toInt` with `accept_spaces = true` never fails
and returns the `atoi` value (0 on whitespace-only input); with
`accept_spaces = false` it fails exactly when the field begins with a
space character and trims to nothing, and on every other field —
malformed ones included — it silently returns the `atoi` value (0 for
non-numeric text). -/
theorem c6_toInt_characterization :
    (∀ s : Line, toInt s true = .ok (atoiModel s)) ∧
    (∀ s : Line, toInt s false = .error .badLexicalCast ↔
      (charAtD s 0 = ' ' ∧ trimC s = [])) ∧
    (∀ s : Line, ¬ (charAtD s 0 = ' ' ∧ trimC s = []) → toInt s false = .ok (atoiModel s)) := by
  refine ⟨?_, ?_, ?_⟩
  · intro s
    simp [toInt]
  · intro s
    constructor
    · intro h
      unfold toInt at h
      by_cases h1 : (atoiModel s = 0 ∧ (false : Bool) = false ∧ charAtD s 0 = ' ')
      · rw [if_pos h1] at h
        by_cases h2 : (trimC s).length = 0
        · exact ⟨h1.2.2, List.length_eq_zero.mp h2⟩
        · rw [if_neg h2] at h
          exact Except.noConfusion h
      · rw [if_neg h1] at h
        exact Except.noConfusion h
    · intro hcc
      have hz : atoiModel s = 0 := atoiModel_of_all_space (trimC_eq_nil_iff.mp hcc.2)
      unfold toInt
      rw [if_pos ⟨hz, rfl, hcc.1⟩, if_pos (by rw [hcc.2]; rfl)]
  · intro s h
    unfold toInt
    by_cases h1 : (atoiModel s = 0 ∧ (false : Bool) = false ∧ charAtD s 0 = ' ')
    · rw [if_pos h1]
      by_cases h2 : (trimC s).length = 0
      · exact absurd ⟨h1.2.2, List.length_eq_zero.mp h2⟩ h
      · rw [if_neg h2]
    · rw [if_neg h1]

/-- Claim C6 witness: whitespace-only input beginning with a space fails
when spaces are not accepted, and yields 0 when they are. -/
theorem c6_toInt_witness :
    toInt (strL "   ") false = .error .badLexicalCast ∧ toInt (strL "   ") true = .ok 0 :=
  ⟨(c6_toInt_characterization.2.1 (strL "   ")).mpr (by decide),
   c6_toInt_characterization.1 (strL "   ")⟩

theorem applyStereoInner_cases (b : Bond) (t : Line) :
    (∃ b2, applyStereoInner b t = .ok b2) ∨ applyStereoInner b t = .error .badLexicalCast := by
  unfold applyStereoInner
  by_cases hg : (t.length ≥ 12 ∧ subClamp t 9 3 ≠ strL "  0")
  · rw [if_pos hg]
    cases ht : toInt (subClamp t 9 3) false with
    | error e =>
      have he := toInt_error_kind ht
      subst he
      right
      rfl
    | ok s =>
      left
      exact ⟨stereoSwitch b s, rfl⟩
  · rw [if_neg hg]
    exact .inl ⟨b, rfl⟩

/-- Claim C9: the stereo field of a V2000 bond line can never make the
parse fail — the handler always returns a bond; a numeric value outside
0, 1, 3, 4, 6 falls through the switch with no branch taken (the bond is
returned unchanged, its direction still the constructor default `NONE`);
and a field that fails integer conversion is swallowed by the catch
block. -/
theorem c9_stereo_never_fails :
    (∀ (b : Bond) (t : Line), (applyStereo b t).isOk = true) ∧
    (∀ (b : Bond) (t : Line) (s : Int), toInt (subClamp t 9 3) false = .ok s →
      s ≠ 0 → s ≠ 1 → s ≠ 3 → s ≠ 4 → s ≠ 6 → applyStereo b t = .ok b) ∧
    (∀ (b : Bond) (t : Line), toInt (subClamp t 9 3) false = .error .badLexicalCast →
      applyStereo b t = .ok b) := by
  refine ⟨?_, ?_, ?_⟩
  · intro b t
    unfold applyStereo
    rcases applyStereoInner_cases b t with ⟨b2, hb⟩ | hb <;> rw [hb] <;> rfl
  · intro b t s ht h0 h1 h3 h4 h6
    have hsw : stereoSwitch b s = b := by
      unfold stereoSwitch
      rw [if_neg h0, if_neg h1, if_neg h6, if_neg h3, if_neg h4]
    unfold applyStereo applyStereoInner
    by_cases hg : (t.length ≥ 12 ∧ subClamp t 9 3 ≠ strL "  0")
    · rw [if_pos hg, ht]
      show Except.ok (stereoSwitch b s) = Except.ok b
      rw [hsw]
    · rw [if_neg hg]
      rfl
  · intro b t ht
    unfold applyStereo applyStereoInner
    by_cases hg : (t.length ≥ 12 ∧ subClamp t 9 3 ≠ strL "  0")
    · rw [if_pos hg, ht]
      rfl
    · rw [if_neg hg]
      rfl

/-- Claim C9 witness: a bond line whose stereo field reads 999 leaves the
fresh bond exactly as constructed, its direction `NONE`. -/
theorem c9_stereo_witness : applyStereo ({} : Bond) (strL "  1  2  1999") = .ok {} ∧
    ({} : Bond).dir = .NONE :=
  ⟨c9_stereo_never_fails.2.1 {} (strL "  1  2  1999") 999 (by decide) (by decide) (by decide)
    (by decide) (by decide) (by decide), rfl⟩

theorem propLoop_dollars (fuel : Nat) (mol : Mol) (tempStr : Line) (eofF : Bool)
    (lines : List Line) (line : Nat) (fc : Bool) (h : takeC tempStr 4 = strL "$$$$") :
    propLoop (fuel + 1) mol tempStr eofF lines line fc = .ok (false, mol, lines, line) := by
  have hhd : charAtD tempStr 0 = '$' := by
    cases tempStr with
    | nil => exact absurd h (by decide)
    | cons c cs =>
      have hc : c = '$' := by
        have := congrArg (fun l => charAtD l 0) h
        simpa [takeC, charAtD, strL] using this
      simp [charAtD, hc]
  have hcond : ¬ (eofF = false ∧ takeC tempStr 6 ≠ strL "M  END" ∧
      takeC tempStr 4 ≠ strL "$$$$") := fun hc => hc.2.2 h
  have hM : decide (charAtD tempStr 0 = 'M' ∧ takeC tempStr 6 = strL "M  END") = false := by
    rw [decide_eq_false_iff_not]
    intro hc
    rw [hhd] at hc
    exact absurd hc.1 (by decide)
  simp only [propLoop]
  rw [if_neg hcond, hM]

/-- Claim C5 (amended): a `$$$$` line reached by the property-block scan
loop stops the loop without error, with `fileComplete = false` and the
molecule untouched; but because `fileComplete` is false the orchestrator
then rejects the whole parse with the `M  END` FileParse error.  (When
`$$$$` is the very first property line it is instead fed to the legacy
atom-list parser and fails even earlier — the counterexample theorem.) -/
theorem c5_dollars_semantics :
    (∀ fuel mol tempStr eofF lines line fc, takeC tempStr 4 = strL "$$$$" →
      propLoop (fuel + 1) mol tempStr eofF lines line fc = .ok (false, mol, lines, line)) ∧
    parseErrOf (MolBlockToMol J0 c5bInput false false) =
      some (.fileParse "Problems encountered parsing Mol data, M  END ") :=
  ⟨fun fuel mol tempStr eofF lines line fc h =>
    propLoop_dollars fuel mol tempStr eofF lines line fc h, by decide⟩

/-- Claim C5 witness: the loop lemma applied to a concrete state. -/
theorem c5_dollars_witness :
    propLoop 5 ({} : Mol) (strL "$$$$") false [] 7 true = .ok (false, {}, [], 7) :=
  c5_dollars_semantics.1 4 {} (strL "$$$$") false [] 7 true (by decide)

theorem parseCountsLine_version {t : Line} {nA nB : Int} {v : Nat}
    (h : parseCountsLine t = .ok (nA, nB, v)) : ctabVersionOf t = .ok v := by
  unfold parseCountsLine at h
  by_cases hl : t.length < 6
  · rw [if_pos hl] at h
    exact Except.noConfusion h
  · rw [if_neg hl] at h
    obtain ⟨a, ha, h⟩ := bind_ok h
    obtain ⟨b, hb, h⟩ := bind_ok h
    obtain ⟨vv, hv, h⟩ := bind_ok h
    have h2 : ((a, b, vv) : Int × Int × Nat) = (nA, nB, v) := Except.ok.inj h
    have h3 : vv = v := by
      have := congrArg (fun p => p.2.2) h2
      simpa using this
    rw [h3] at hv
    exact hv

theorem dispatchDrive_v2000 (j : Junk) (fuel : Nat) (nA nB : Int) (lines : List Line)
    (line : Nat) (res : Mol) :
    dispatchDrive j fuel nA nB 2000 lines line res = v2000Drive fuel nA nB lines line res := by
  unfold dispatchDrive
  rw [if_pos rfl]

/-- Claim C8 (amended): parsing the same bytes twice yields identical
results whenever the two runs observe the same indeterminate values for
the uninitialized V3000 counts locals (immediate, since the parse is a
function of the bytes and those values); and for every input whose counts
line dispatches to the V2000 path the parse result does not depend on the
indeterminate values at all, so two-run determinism holds unconditionally
there. -/
theorem c8_v2000_junk_independent :
    ∀ (junk1 junk2 : Junk) (n1 n2 n3 c : Line) (rest : List Line) (san rh : Bool),
      ctabVersionOf c = .ok 2000 →
      MolBlockToMol junk1 (n1 :: n2 :: n3 :: c :: rest) san rh =
        MolBlockToMol junk2 (n1 :: n2 :: n3 :: c :: rest) san rh := by
  intro j1 j2 n1 n2 n3 c rest san rh hv
  show MolDataStreamToMol j1 (n1 :: n2 :: n3 :: c :: rest) 0 san rh =
    MolDataStreamToMol j2 (n1 :: n2 :: n3 :: c :: rest) 0 san rh
  unfold MolDataStreamToMol
  dsimp only [getLineS]
  cases hc : parseCountsLine c with
  | error e => rfl
  | ok triple =>
    obtain ⟨nA, nB, ver⟩ := triple
    have h2 := parseCountsLine_version hc
    rw [hv] at h2
    have hver : ver = 2000 := (Except.ok.inj h2).symm
    subst hver
    simp only [dispatchDrive_v2000]

/-- Claim C8 witness: a concrete V2000 molfile parses to the same result
under two different assignments of the indeterminate values. -/
theorem c8_junk_witness :
    MolBlockToMol ⟨0, 0, 0⟩
      (strL "methane" :: strL "" :: strL "" ::
        strL "  1  0  0  0  0  0  0  0  0  0999 V2000" ::
        [strL "    0.0000    0.0000    0.0000 C   0  0  0  0  0  0  0  0  0  0  0  0",
         strL "M  END"]) false false =
    MolBlockToMol ⟨3, 5, 7⟩
      (strL "methane" :: strL "" :: strL "" ::
        strL "  1  0  0  0  0  0  0  0  0  0999 V2000" ::
        [strL "    0.0000    0.0000    0.0000 C   0  0  0  0  0  0  0  0  0  0  0  0",
         strL "M  END"]) false false :=
  c8_v2000_junk_independent ⟨0, 0, 0⟩ ⟨3, 5, 7⟩ (strL "methane") (strL "") (strL "")
    (strL "  1  0  0  0  0  0  0  0  0  0999 V2000")
    [strL "    0.0000    0.0000    0.0000 C   0  0  0  0  0  0  0  0  0  0  0  0",
     strL "M  END"] false false (by decide)

/- ## Shared observables and invariants for the claim proofs -/

/-- The formal charge of atom `i` of the molecule (0 when `i` is out of
range), the observable of the charge-line claims. -/
def chargeAt (m : Mol) (i : Nat) : Int := ((m.atoms.get? i).getD {}).formalCharge

/-- The `(index, charge)` pairs a `M  CHG` payload lists, read with the
same field decoders as `chargeEntriesLoop`. -/
def chgEntryList (text : Line) : Nat → Nat → List (Nat × Int)
  | 0, _ => []
  | n + 1, spos =>
    match wrapBadCast (do toInt (← substrE text spos 4)) (cannotConvert (subClamp text spos 4)),
      wrapBadCast (do toInt (← substrE text (spos + 4) 4))
        (cannotConvert (subClamp text (spos + 4) 4)) with
    | .ok aid, .ok chg => (uint32 (aid - 1), chg) :: chgEntryList text n (spos + 8)
    | _, _ => []

/-- All `(index, charge)` pairs listed by a `M  CHG` line. -/
def chgLineEntries (text : Line) : List (Nat × Int) :=
  match wrapBadCast (do toInt (← substrE text 6 3)) (cannotConvert (subClamp text 6 3)) with
  | .ok nent => chgEntryList text nent.toNat 9
  | .error _ => []

/-- Field bounds satisfied by every atom the V2000 parser builds: all
numeric fields stay far below the MAGIC sentinel. -/
def AtomOK (a : Atom) : Prop :=
  a.formalCharge.natAbs ≤ 100000 ∧ a.atomicNum.natAbs ≤ 100000 ∧
  0 < a.mass.den ∧ a.mass.num.natAbs ≤ 100000 * a.mass.den.natAbs

instance (a : Atom) : Decidable (AtomOK a) := by unfold AtomOK; infer_instance

/-- Invariant threaded through the V2000 drive: bounded atom fields, a
bounded bond list, and no MAGIC leaf unless the deferred-scan flag is
set. -/
def MolInv (m : Mol) : Prop :=
  (∀ a ∈ m.atoms, AtomOK a) ∧ m.bonds.length ≤ 1000 ∧
  (m.hasProp "_NeedsQueryScan" = true ∨ molHasMagic m = false)

instance (m : Mol) : Decidable (MolInv m) := by unfold MolInv; infer_instance

theorem toNat_le_of_isDigit {c : Char} (h : c.isDigit = true) : c.toNat ≤ 57 := by
  have h2 := (Bool.and_eq_true _ _).mp h
  exact UInt32.toNat_le_of_le (by decide) (of_decide_eq_true h2.2)

theorem digitsVal_lt (s : Line) : ∀ acc : Nat, digitsVal s acc < (acc + 1) * 10 ^ s.length := by
  induction s with
  | nil =>
    intro acc
    simp [digitsVal]
  | cons c cs ih =>
    intro acc
    unfold digitsVal
    by_cases hd : c.isDigit
    · rw [if_pos hd]
      have hle : c.toNat - 48 ≤ 9 := by
        have h57 : c.toNat ≤ 57 := toNat_le_of_isDigit hd
        omega
      have h1 := ih (acc * 10 + (c.toNat - 48))
      have h2 : (acc * 10 + (c.toNat - 48) + 1) * 10 ^ cs.length ≤
          (acc + 1) * 10 ^ (c :: cs).length := by
        have h3 : acc * 10 + (c.toNat - 48) + 1 ≤ (acc + 1) * 10 := by omega
        calc (acc * 10 + (c.toNat - 48) + 1) * 10 ^ cs.length
            ≤ ((acc + 1) * 10) * 10 ^ cs.length := Nat.mul_le_mul_right _ h3
          _ = (acc + 1) * 10 ^ (c :: cs).length := by
              rw [List.length_cons, pow_succ]; ring
      exact Nat.lt_of_lt_of_le h1 h2
    · rw [if_neg hd]
      calc acc < acc + 1 := Nat.lt_succ_self acc
        _ ≤ (acc + 1) * 10 ^ (c :: cs).length :=
            Nat.le_mul_of_pos_right _ (Nat.pow_pos (by norm_num))

theorem atoiModel_natAbs_lt (s : Line) : (atoiModel s).natAbs < 10 ^ s.length := by
  unfold atoiModel
  have hlen : (s.dropWhile isSpaceC).length ≤ s.length := (List.dropWhile_sublist _).length_le
  have hmono : ∀ k : Nat, k ≤ s.length → (10 : Nat) ^ k ≤ 10 ^ s.length := fun k hk =>
    Nat.pow_le_pow_right (by norm_num) hk
  dsimp only
  have hbase : ∀ t : Line, t.length ≤ s.length → digitsVal t 0 < 10 ^ s.length := by
    intro t ht
    have h1 := digitsVal_lt t 0
    calc digitsVal t 0 < (0 + 1) * 10 ^ t.length := h1
      _ = 10 ^ t.length := by ring
      _ ≤ 10 ^ s.length := hmono _ ht
  split
  case _ rest heq =>
    have hr : rest.length ≤ s.length := by
      have h2 := hlen
      rw [heq] at h2
      simp at h2
      omega
    simpa using hbase rest hr
  case _ rest heq =>
    have hr : rest.length ≤ s.length := by
      have h2 := hlen
      rw [heq] at h2
      simp at h2
      omega
    simpa using hbase rest hr
  case _ =>
    simpa using hbase _ hlen

theorem toInt_ok_val {s : Line} {a : Bool} {v : Int} (h : toInt s a = .ok v) :
    v = atoiModel s := by
  unfold toInt at h
  by_cases h1 : (atoiModel s = 0 ∧ a = false ∧ charAtD s 0 = ' ')
  · rw [if_pos h1] at h
    by_cases h2 : (trimC s).length = 0
    · rw [if_pos h2] at h
      exact Except.noConfusion h
    · rw [if_neg h2] at h
      exact (Except.ok.inj h).symm
  · rw [if_neg h1] at h
    exact (Except.ok.inj h).symm

theorem toInt_natAbs_lt {s : Line} {a : Bool} {v : Int} (h : toInt s a = .ok v) :
    v.natAbs < 10 ^ s.length := by
  rw [toInt_ok_val h]
  exact atoiModel_natAbs_lt s

theorem wrapBadCast_ok {α : Type} {act : Except ParseErr α} {msg : String} {v : α}
    (h : wrapBadCast act msg = .ok v) : act = .ok v := by
  unfold wrapBadCast at h
  split at h
  · exact Except.noConfusion h
  · exact h

theorem substrE_length {s : Line} {pos len : Nat} {t : Line}
    (h : substrE s pos len = .ok t) : t.length ≤ len := by
  unfold substrE at h
  split at h
  · exact Except.noConfusion h
  · rw [← Except.ok.inj h]
    simp [List.length_take]

/-- Any 4-column integer field of a property line is below 10000 in
absolute value. -/
theorem propField_natAbs_lt {text : Line} {spos len : Nat} {msg : String} {v : Int}
    (h : wrapBadCast (do toInt (← substrE text spos len)) msg = .ok v) :
    v.natAbs < 10 ^ len := by
  have h2 := wrapBadCast_ok h
  obtain ⟨t, hs, ht⟩ := bind_ok h2
  calc v.natAbs < 10 ^ t.length := toInt_natAbs_lt ht
    _ ≤ 10 ^ len := Nat.pow_le_pow_right (by norm_num) (substrE_length hs)

theorem lookup_getD_cases {α β : Type} [BEq α] (l : List (α × β)) (k : α) (d : β) :
    (l.lookup k).getD d = d ∨ ∃ p ∈ l, (l.lookup k).getD d = p.2 := by
  induction l with
  | nil => exact Or.inl rfl
  | cons hd t ih =>
    show ((List.lookup k (hd :: t)).getD d = d) ∨ _
    rw [List.lookup]
    by_cases hk : (k == hd.1) = true
    · rw [hk]
      exact Or.inr ⟨hd, List.mem_cons_self _ _, rfl⟩
    · rw [Bool.not_eq_true] at hk
      rw [hk]
      rcases ih with h | ⟨p, hp, h⟩
      · exact Or.inl h
      · exact Or.inr ⟨p, List.mem_cons_of_mem _ hp, h⟩

theorem getAtomicNumber_natAbs_le (s : Line) : (getAtomicNumber s).natAbs ≤ 100000 := by
  unfold getAtomicNumber
  rcases lookup_getD_cases ptableEntries s 0 with h | ⟨p, hp, h⟩
  · rw [h]; decide
  · rw [h]
    have hall : ∀ p ∈ ptableEntries, p.2.natAbs ≤ 100000 := by decide
    exact hall p hp

/-- Mass bound: denominator positive and numerator at most `B` times it. -/
def massOKb (B : Nat) (q : Frac) : Prop :=
  0 < q.den ∧ q.num.natAbs ≤ B * q.den.natAbs

theorem massOKb_mono {B1 B2 : Nat} {q : Frac} (h : B1 ≤ B2) (hq : massOKb B1 q) :
    massOKb B2 q :=
  ⟨hq.1, le_trans hq.2 (Nat.mul_le_mul_right _ h)⟩

theorem getAtomicWeight_massOK (z : Int) : massOKb 1000 (getAtomicWeight z) := by
  unfold getAtomicWeight
  rcases lookup_getD_cases wtableEntries z 0 with h | ⟨p, hp, h⟩
  · rw [h]; exact ⟨by decide, by decide⟩
  · rw [h]
    have hall : ∀ p ∈ wtableEntries, massOKb 1000 p.2 := by
      unfold massOKb; decide
    exact hall p hp

theorem massOKb_ofInt {i : Int} {B : Nat} (h : i.natAbs ≤ B) : massOKb B (Frac.ofInt i) := by
  unfold massOKb Frac.ofInt
  exact ⟨by norm_num, by simpa using h⟩

theorem massOKb_add_ofInt {q : Frac} {i : Int} {B1 B2 : Nat}
    (hq : massOKb B1 q) (hi : i.natAbs ≤ B2) :
    massOKb (B1 + B2) (q.add (Frac.ofInt i)) := by
  obtain ⟨hden, hnum⟩ := hq
  unfold Frac.add Frac.ofInt
  constructor
  · simpa using hden
  · show (q.num * 1 + i * q.den).natAbs ≤ (B1 + B2) * (q.den * 1).natAbs
    have hd1 : 1 ≤ q.den.natAbs := Int.natAbs_pos.mpr (ne_of_gt hden)
    calc (q.num * 1 + i * q.den).natAbs
        ≤ (q.num * 1).natAbs + (i * q.den).natAbs := Int.natAbs_add_le _ _
      _ = q.num.natAbs + i.natAbs * q.den.natAbs := by
          rw [Int.natAbs_mul, Int.natAbs_mul]; simp
      _ ≤ B1 * q.den.natAbs + B2 * q.den.natAbs :=
          Nat.add_le_add hnum (Nat.mul_le_mul_right _ hi)
      _ = (B1 + B2) * (q.den * 1).natAbs := by rw [mul_one, ← Nat.add_mul]

theorem cppIntCast_natAbs_le {q : Frac} {B : Nat} (h : massOKb B q) :
    (cppIntCast q).natAbs ≤ B := by
  obtain ⟨hden, hnum⟩ := h
  unfold cppIntCast
  rw [Int.natAbs_tdiv]
  have hd : 0 < q.den.natAbs := Int.natAbs_pos.mpr (ne_of_gt hden)
  calc q.num.natAbs / q.den.natAbs ≤ B * q.den.natAbs / q.den.natAbs :=
      Nat.div_le_div_right hnum
    _ = B := Nat.mul_div_cancel B hd

theorem beq_magic_false {v : Int} (h : v.natAbs ≤ 100000) : (v == MAGIC) = false := by
  rw [beq_eq_false_iff_ne]
  intro he
  subst he
  revert h
  decide

theorem qHasMagic_leaf (k : QKind) (v : Int) :
    qHasMagic (AQuery.leaf k v) = (v == MAGIC) := by
  show ((v == MAGIC) || qlHasMagic .nil) = _
  rw [qlHasMagic, Bool.or_false]

theorem qHasMagic_setNeg (q : AQuery) (b : Bool) :
    qHasMagic (q.setNeg b) = qHasMagic q := by
  cases q
  rfl

theorem qHasMagic_setVal (q : AQuery) (v : Int) :
    qHasMagic (q.setVal v) =
      ((v == MAGIC) || qlHasMagic (match q with | .node _ _ _ cs => cs)) := by
  cases q
  rfl

theorem qHasMagic_combineQ (how : QKind) (old nq : AQuery) :
    qHasMagic (combineQ how old nq) = (qHasMagic old || qHasMagic nq) := by
  show ((0 == MAGIC) || qlHasMagic (.cons old (.cons nq .nil))) = _
  rw [show ((0 : Int) == MAGIC) = false from by decide]
  rw [qlHasMagic, qlHasMagic, qlHasMagic, Bool.or_false, Bool.false_or]

/-- `atomHasMagic` reads only the query field. -/
theorem atomHasMagic_query {a b : Atom} (h : b.query = a.query) :
    atomHasMagic b = atomHasMagic a := by
  unfold atomHasMagic
  rw [h]

theorem atomHasMagic_expandQuery {a : Atom} {q : AQuery} {how : QKind}
    (ha : atomHasMagic a = false) (hq : qHasMagic q = false) :
    atomHasMagic (a.expandQuery q how) = false := by
  cases hA : a.query with
  | none => simp [Atom.expandQuery, hA, atomHasMagic, hq]
  | some old =>
    have ha2 : qHasMagic old = false := by
      unfold atomHasMagic at ha
      rw [hA] at ha
      exact ha
    simp [Atom.expandQuery, hA, atomHasMagic, qHasMagic_combineQ, ha2, hq]

theorem molHasMagic_false_iff {m : Mol} :
    molHasMagic m = false ↔ ∀ a ∈ m.atoms, atomHasMagic a = false := by
  unfold molHasMagic
  rw [List.any_eq_false]
  constructor
  · intro h a ha
    exact Bool.not_eq_true _ ▸ (h a ha)
  · intro h a ha
    rw [h a ha]
    exact Bool.false_ne_true

theorem forall_mem_set {α : Type} {l : List α} {i : Nat} {a : α} {P : α → Prop}
    (hl : ∀ x ∈ l, P x) (ha : P a) : ∀ x ∈ l.set i a, P x := by
  intro x hx
  rcases List.mem_or_eq_of_mem_set hx with h | h
  · exact hl x h
  · subst h
    exact ha

theorem mem_of_get? {α : Type} {l : List α} {i : Nat} {a : α}
    (h : l.get? i = some a) : a ∈ l := by
  obtain ⟨hlt, hg⟩ := List.get?_eq_some.mp h
  subst hg
  exact List.get_mem l i hlt

theorem molHasMagic_replaceAtom {m : Mol} {i : Nat} {a : Atom}
    (hm : molHasMagic m = false) (ha : atomHasMagic a = false) :
    molHasMagic (m.replaceAtom i a) = false := by
  rw [molHasMagic_false_iff] at hm ⊢
  exact forall_mem_set hm ha

theorem getAtomWithIdx_ok {m : Mol} {i : Nat} {a : Atom}
    (h : m.getAtomWithIdx i = .ok a) : m.atoms.get? i = some a := by
  unfold Mol.getAtomWithIdx at h
  split at h
  next x hx => rw [hx, Except.ok.inj h]
  next => exact Except.noConfusion h

theorem chargeAt_replaceAtom_self {m : Mol} {i : Nat} {a b : Atom}
    (h : m.atoms.get? i = some a) :
    chargeAt (m.replaceAtom i b) i = b.formalCharge := by
  have hlt : i < m.atoms.length := by
    obtain ⟨hlt, _⟩ := List.get?_eq_some.mp h
    exact hlt
  unfold chargeAt Mol.replaceAtom
  dsimp only
  rw [List.get?_set_eq_of_lt _ hlt]
  rfl

theorem chargeAt_replaceAtom_other {m : Mol} {i j : Nat} {b : Atom} (h : i ≠ j) :
    chargeAt (m.replaceAtom i b) j = chargeAt m j := by
  unfold chargeAt Mol.replaceAtom
  dsimp only
  rw [List.get?_set_ne _ _ h]

theorem rangeCheckI_ok {lo v hi : Int} {u : Unit} (h : rangeCheckI lo v hi = .ok u) :
    lo ≤ v ∧ v ≤ hi := by
  unfold rangeCheckI at h
  split at h
  next hc => exact hc
  next => exact Except.noConfusion h

theorem rangeCheckU_ok {v hi : Nat} {u : Unit} (h : rangeCheckU v hi = .ok u) :
    v ≤ hi := by
  unfold rangeCheckU at h
  split at h
  next hc => exact hc
  next => exact Except.noConfusion h

theorem expandQuery_scalars (a : Atom) (q : AQuery) (how : QKind) :
    (a.expandQuery q how).formalCharge = a.formalCharge ∧
    (a.expandQuery q how).atomicNum = a.atomicNum ∧
    (a.expandQuery q how).mass = a.mass ∧
    (a.expandQuery q how).props = a.props := by
  unfold Atom.expandQuery
  cases a.query <;> exact ⟨rfl, rfl, rfl, rfl⟩

theorem AtomOK_expandQuery {a : Atom} (h : AtomOK a) (q : AQuery) (how : QKind) :
    AtomOK (a.expandQuery q how) := by
  obtain ⟨e1, e2, e3, _⟩ := expandQuery_scalars a q how
  unfold AtomOK at h ⊢
  rw [e1, e2, e3]
  exact h

theorem AtomOK_setProp {a : Atom} (h : AtomOK a) (k : String) (v : PropVal) :
    AtomOK (a.setProp k v) := h

theorem atomHasMagic_setProp (a : Atom) (k : String) (v : PropVal) :
    atomHasMagic (a.setProp k v) = atomHasMagic a := rfl

theorem AtomOK_queryAtomFromAtom {a : Atom} (h : AtomOK a) :
    AtomOK (queryAtomFromAtom a) := h

theorem atomHasMagic_queryAtomFromAtom {a : Atom} (h : AtomOK a) :
    atomHasMagic (queryAtomFromAtom a) = false := by
  unfold queryAtomFromAtom atomHasMagic
  dsimp only
  rw [makeAtomNumEqualsQuery, qHasMagic_leaf]
  exact beq_magic_false h.2.1

theorem hasPropP_setPropP (ps : Props) (k k2 : String) (v : PropVal)
    (h : hasPropP ps k = true) : hasPropP (setPropP ps k2 v) k = true := by
  unfold setPropP
  split
  · unfold hasPropP at h ⊢
    rw [List.any_eq_true] at h ⊢
    obtain ⟨p, hp, hpk⟩ := h
    by_cases he : p.1 = k2
    · refine ⟨(k2, v), List.mem_map.mpr ⟨p, hp, by rw [if_pos he]⟩, ?_⟩
      have : k2 = k := by
        rw [← he]
        exact of_decide_eq_true hpk
      simp [this]
    · exact ⟨p, List.mem_map.mpr ⟨p, hp, by rw [if_neg he]⟩, hpk⟩
  · unfold hasPropP at h ⊢
    rw [List.any_eq_true] at h ⊢
    obtain ⟨p, hp, hpk⟩ := h
    exact ⟨p, List.mem_append_left _ hp, hpk⟩

theorem hasProp_setProp (m : Mol) (k k2 : String) (v : PropVal)
    (h : m.hasProp k = true) : (m.setProp k2 v).hasProp k = true :=
  hasPropP_setPropP m.props k k2 v h

theorem hasPropP_clearPropP (ps : Props) (k k2 : String) (hne : k ≠ k2)
    (h : hasPropP ps k = true) : hasPropP (clearPropP ps k2) k = true := by
  unfold hasPropP at h ⊢
  unfold clearPropP
  rw [List.any_eq_true] at h ⊢
  obtain ⟨p, hp, hpk⟩ := h
  refine ⟨p, List.mem_filter.mpr ⟨hp, ?_⟩, hpk⟩
  have : p.1 = k := of_decide_eq_true hpk
  rw [this]
  exact decide_eq_true hne

/-- Facts preserved by every property-line interpreter other than the
charge and radical lines. -/
structure PresFact (mol m2 : Mol) : Prop where
  atoms : m2.atoms.length = mol.atoms.length
  bonds : m2.bonds = mol.bonds
  confs : m2.conformers = mol.conformers
  inv : MolInv mol → MolInv m2
  chg : ∀ i, chargeAt m2 i = chargeAt mol i

theorem PresFact.of_eq {mol m2 : Mol} (h : m2 = mol) : PresFact mol m2 := by
  subst h
  exact ⟨rfl, rfl, rfl, id, fun _ => rfl⟩

theorem PresFact.comp {m1 m2 m3 : Mol} (h1 : PresFact m1 m2) (h2 : PresFact m2 m3) :
    PresFact m1 m3 :=
  ⟨h2.atoms.trans h1.atoms, h2.bonds.trans h1.bonds, h2.confs.trans h1.confs,
   fun h => h2.inv (h1.inv h), fun i => (h2.chg i).trans (h1.chg i)⟩

/-- `replaceAtom` with an atom that keeps the old atom's formal charge,
satisfies the field bounds given the old invariant, and adds no MAGIC
leaf (unless the scan flag is set). -/
theorem PresFact.replace {mol : Mol} {idx : Nat} {a b : Atom}
    (hget : mol.atoms.get? idx = some a)
    (hchg : b.formalCharge = a.formalCharge)
    (hok : (∀ x ∈ mol.atoms, AtomOK x) → AtomOK b)
    (hmag : (∀ x ∈ mol.atoms, AtomOK x) → molHasMagic mol = false →
      atomHasMagic b = false) :
    PresFact mol (mol.replaceAtom idx b) := by
  refine ⟨by simp [Mol.replaceAtom], rfl, rfl, ?_, ?_⟩
  · rintro ⟨h1, h2, h3⟩
    refine ⟨forall_mem_set h1 (hok h1), h2, ?_⟩
    cases h3 with
    | inl h => exact Or.inl h
    | inr h => exact Or.inr (molHasMagic_replaceAtom h (hmag h1 h))
  · intro i
    by_cases he : idx = i
    · subst he
      rw [chargeAt_replaceAtom_self hget, hchg]
      unfold chargeAt
      rw [hget]
      rfl
    · exact chargeAt_replaceAtom_other he

theorem scalars_if {c : Prop} [Decidable c] (b : Atom) (q : AQuery) (how : QKind) :
    (if c then b.expandQuery q how else b).formalCharge = b.formalCharge ∧
    (if c then b.expandQuery q how else b).atomicNum = b.atomicNum ∧
    (if c then b.expandQuery q how else b).mass = b.mass := by
  split
  · obtain ⟨h1, h2, h3, _⟩ := expandQuery_scalars b q how
    exact ⟨h1, h2, h3⟩
  · exact ⟨rfl, rfl, rfl⟩

theorem AtomOK_if {c : Prop} [Decidable c] {b : Atom} (h : AtomOK b) (q : AQuery)
    (how : QKind) : AtomOK (if c then b.expandQuery q how else b) := by
  split
  · exact AtomOK_expandQuery h q how
  · exact h

theorem atomHasMagic_if {c : Prop} [Decidable c] {b : Atom} {q : AQuery} {how : QKind}
    (hb : atomHasMagic b = false) (hq : qHasMagic q = false) :
    atomHasMagic (if c then b.expandQuery q how else b) = false := by
  split
  · exact atomHasMagic_expandQuery hb hq
  · exact hb

theorem massOKb_of_AtomOK {a : Atom} (h : AtomOK a) : massOKb 100000 a.mass :=
  ⟨h.2.2.1, h.2.2.2⟩

theorem PresFact.rawqa (mol : Mol) (idx : Nat) :
    PresFact mol (replaceAtomWithQueryAtom mol idx) := by
  unfold replaceAtomWithQueryAtom
  cases hget : mol.atoms.get? idx with
  | none => exact PresFact.of_eq rfl
  | some atom =>
    dsimp only
    split
    · exact PresFact.of_eq rfl
    · refine PresFact.replace hget ?_ ?_ ?_
      · rw [(scalars_if _ _ _).1, (scalars_if _ _ _).1]
        rfl
      · intro h
        have hA := h atom (mem_of_get? hget)
        exact AtomOK_if (AtomOK_if (AtomOK_queryAtomFromAtom hA) _ _) _ _
      · intro h _
        have hA := h atom (mem_of_get? hget)
        refine atomHasMagic_if (atomHasMagic_if (atomHasMagic_queryAtomFromAtom hA) ?_) ?_
        · rw [makeAtomFormalChargeQuery, qHasMagic_leaf]
          exact beq_magic_false hA.1
        · rw [makeAtomMassQuery, qHasMagic_leaf]
          exact beq_magic_false (cppIntCast_natAbs_le (massOKb_of_AtomOK hA))

theorem PresFact.modifyExpand {mol : Mol} (idx : Nat) {q : AQuery} (how : QKind)
    (hq : qHasMagic q = false) :
    PresFact mol (mol.modifyAtom idx (fun a2 => a2.expandQuery q how)) := by
  unfold Mol.modifyAtom
  cases hget : mol.atoms.get? idx with
  | none => exact PresFact.of_eq rfl
  | some a =>
    dsimp only
    refine PresFact.replace hget (expandQuery_scalars a q how).1 ?_ ?_
    · intro h
      exact AtomOK_expandQuery (h a (mem_of_get? hget)) q how
    · intro h hm
      have ha : atomHasMagic a = false :=
        (molHasMagic_false_iff.mp hm) a (mem_of_get? hget)
      exact atomHasMagic_expandQuery ha hq

/-- Variant of `PresFact.replace` for a molecule whose deferred-scan flag
is already set: no magic-freedom obligation on the new atom. -/
theorem PresFact.replaceFlagged {mol : Mol} {idx : Nat} {a b : Atom}
    (hget : mol.atoms.get? idx = some a)
    (hchg : b.formalCharge = a.formalCharge)
    (hok : (∀ x ∈ mol.atoms, AtomOK x) → AtomOK b)
    (hflag : mol.hasProp "_NeedsQueryScan" = true) :
    PresFact mol (mol.replaceAtom idx b) := by
  refine ⟨by simp [Mol.replaceAtom], rfl, rfl, ?_, ?_⟩
  · rintro ⟨h1, h2, _⟩
    exact ⟨forall_mem_set h1 (hok h1), h2, Or.inl hflag⟩
  · intro i
    by_cases he : idx = i
    · subst he
      rw [chargeAt_replaceAtom_self hget, hchg]
      unfold chargeAt
      rw [hget]
      rfl
    · exact chargeAt_replaceAtom_other he

theorem PresFact.modifyExpandFlagged {mol : Mol} (idx : Nat) (q : AQuery) (how : QKind)
    (hflag : mol.hasProp "_NeedsQueryScan" = true) :
    PresFact mol (mol.modifyAtom idx (fun a2 => a2.expandQuery q how)) := by
  unfold Mol.modifyAtom
  cases hget : mol.atoms.get? idx with
  | none => exact PresFact.of_eq rfl
  | some a =>
    dsimp only
    refine PresFact.replaceFlagged hget (expandQuery_scalars a q how).1 ?_ hflag
    intro h
    exact AtomOK_expandQuery (h a (mem_of_get? hget)) q how

theorem PresFact.setProp (mol : Mol) (k : String) (v : PropVal) :
    PresFact mol (mol.setProp k v) := by
  refine ⟨rfl, rfl, rfl, ?_, fun _ => rfl⟩
  rintro ⟨h1, h2, h3⟩
  refine ⟨h1, h2, ?_⟩
  cases h3 with
  | inl h => exact Or.inl (hasProp_setProp mol _ k v h)
  | inr h => exact Or.inr h

theorem MolInv_replace {mol : Mol} {idx : Nat} {a b : Atom}
    (hget : mol.atoms.get? idx = some a)
    (hok : (∀ x ∈ mol.atoms, AtomOK x) → AtomOK b)
    (hmag : molHasMagic mol = false → atomHasMagic b = false)
    (h : MolInv mol) : MolInv (mol.replaceAtom idx b) := by
  obtain ⟨h1, h2, h3⟩ := h
  refine ⟨forall_mem_set h1 (hok h1), h2, ?_⟩
  cases h3 with
  | inl hf => exact Or.inl hf
  | inr hm => exact Or.inr (molHasMagic_replaceAtom hm (hmag hm))

theorem chgEntryList_cons {text : Line} {n spos : Nat} {aid chg : Int}
    (h1 : wrapBadCast (do toInt (← substrE text spos 4))
      (cannotConvert (subClamp text spos 4)) = .ok aid)
    (h2 : wrapBadCast (do toInt (← substrE text (spos + 4) 4))
      (cannotConvert (subClamp text (spos + 4) 4)) = .ok chg) :
    chgEntryList text (n + 1) spos =
      (uint32 (aid - 1), chg) :: chgEntryList text n (spos + 8) := by
  conv_lhs => unfold chgEntryList
  rw [h1, h2]

theorem chgLineEntries_of_ok {text : Line} {nent : Int}
    (h : wrapBadCast (do toInt (← substrE text 6 3))
      (cannotConvert (subClamp text 6 3)) = .ok nent) :
    chgLineEntries text = chgEntryList text nent.toNat 9 := by
  unfold chgLineEntries
  rw [h]

theorem chargeAt_mapReset (mol : Mol) (i : Nat) :
    chargeAt { mol with
      atoms := mol.atoms.map (fun a => { a with formalCharge := 0 }) } i = 0 := by
  unfold chargeAt
  dsimp only
  rw [List.get?_map]
  cases mol.atoms.get? i <;> rfl

theorem MolInv_mapReset {mol : Mol} (h : MolInv mol) :
    MolInv { mol with
      atoms := mol.atoms.map (fun a => { a with formalCharge := 0 }) } := by
  obtain ⟨h1, h2, h3⟩ := h
  refine ⟨?_, h2, ?_⟩
  · intro x hx
    obtain ⟨a, ha, hax⟩ := List.mem_map.mp hx
    subst hax
    have := h1 a ha
    exact ⟨(by decide : (0 : Int).natAbs ≤ 100000), this.2⟩
  · cases h3 with
    | inl hf => exact Or.inl hf
    | inr hm =>
      refine Or.inr (molHasMagic_false_iff.mpr ?_)
      intro x hx
      obtain ⟨a, ha, hax⟩ := List.mem_map.mp hx
      subst hax
      exact molHasMagic_false_iff.mp hm a ha

theorem chargeEntriesLoop_fact {text : Line} :
    ∀ n spos (mol m2 : Mol), chargeEntriesLoop text n spos mol = .ok m2 →
      m2.atoms.length = mol.atoms.length ∧ m2.bonds = mol.bonds ∧
      m2.conformers = mol.conformers ∧ (MolInv mol → MolInv m2) ∧
      ∀ i, chargeAt m2 i = chargeAt mol i ∨
        (i, chargeAt m2 i) ∈ chgEntryList text n spos := by
  intro n
  induction n with
  | zero =>
    intro spos mol m2 h
    have hm : mol = m2 := Except.ok.inj h
    subst hm
    exact ⟨rfl, rfl, rfl, id, fun i => Or.inl rfl⟩
  | succ k ih =>
    intro spos mol m2 h
    unfold chargeEntriesLoop at h
    obtain ⟨aid, h1, h⟩ := bind_ok h
    obtain ⟨chg, h2, h⟩ := bind_ok h
    obtain ⟨a, h3, h4⟩ := bind_ok h
    have hget := getAtomWithIdx_ok h3
    obtain ⟨e1, e2, e3, hinv, hchgs⟩ := ih (spos + 8) _ m2 h4
    have hchgBound : chg.natAbs ≤ 100000 :=
      le_trans (Nat.le_of_lt (propField_natAbs_lt h2)) (by norm_num)
    refine ⟨e1.trans (by simp [Mol.replaceAtom]), e2, e3, ?_, ?_⟩
    · intro hI
      refine hinv (MolInv_replace hget ?_ ?_ hI)
      · intro hOK
        have hA := hOK a (mem_of_get? hget)
        exact ⟨hchgBound, hA.2⟩
      · intro hm
        exact molHasMagic_false_iff.mp hm a (mem_of_get? hget)
    · intro i
      rw [chgEntryList_cons h1 h2]
      rcases hchgs i with hc | hc
      · by_cases he : uint32 (aid - 1) = i
        · subst he
          rw [hc, chargeAt_replaceAtom_self hget]
          exact Or.inr (List.mem_cons_self _ _)
        · rw [hc, chargeAt_replaceAtom_other he]
          exact Or.inl rfl
      · exact Or.inr (List.mem_cons_of_mem _ hc)

theorem ParseChargeLine_fact {mol m2 : Mol} {text : Line} {fc : Bool}
    (h : ParseChargeLine mol text fc = .ok m2) :
    m2.atoms.length = mol.atoms.length ∧ m2.bonds = mol.bonds ∧
    m2.conformers = mol.conformers ∧ (MolInv mol → MolInv m2) ∧
    (fc = false → ∀ i, chargeAt m2 i = chargeAt mol i ∨
      (i, chargeAt m2 i) ∈ chgLineEntries text) ∧
    (fc = true → ∀ i, chargeAt m2 i = 0 ∨
      (i, chargeAt m2 i) ∈ chgLineEntries text) := by
  unfold ParseChargeLine at h
  cases fc with
  | false =>
    rw [if_neg (by decide : ¬ (false = true))] at h
    obtain ⟨nent, h1, h2⟩ := bind_ok h
    obtain ⟨e1, e2, e3, hinv, hchgs⟩ := chargeEntriesLoop_fact nent.toNat 9 mol m2 h2
    rw [chgLineEntries_of_ok h1]
    exact ⟨e1, e2, e3, hinv, fun _ => hchgs, fun hcontra => absurd hcontra (by decide)⟩
  | true =>
    rw [if_pos rfl] at h
    obtain ⟨nent, h1, h2⟩ := bind_ok h
    obtain ⟨e1, e2, e3, hinv, hchgs⟩ := chargeEntriesLoop_fact nent.toNat 9 _ m2 h2
    rw [chgLineEntries_of_ok h1]
    refine ⟨e1.trans (by simp), e2, e3, fun hI => hinv (MolInv_mapReset hI), ?_, ?_⟩
    · intro hcontra
      exact absurd hcontra (by decide)
    · intro _ i
      rcases hchgs i with hc | hc
      · rw [hc, chargeAt_mapReset]
        exact Or.inl rfl
      · exact Or.inr hc

theorem subClamp_length_le (s : Line) (pos len : Nat) : (subClamp s pos len).length ≤ len := by
  unfold subClamp
  simp [List.length_take]

theorem toInt_subClamp_natAbs_le {text : Line} {spos len : Nat} {msg : String} {v : Int}
    (h : wrapBadCast (toInt (subClamp text spos len)) msg = .ok v) :
    v.natAbs < 10 ^ len := by
  have h2 := wrapBadCast_ok h
  calc v.natAbs < 10 ^ (subClamp text spos len).length := toInt_natAbs_lt h2
    _ ≤ 10 ^ len := Nat.pow_le_pow_right (by norm_num) (subClamp_length_le _ _ _)

theorem radicalEntriesLoop_fact {text : Line} :
    ∀ n spos (mol m2 : Mol), radicalEntriesLoop text n spos mol = .ok m2 →
      PresFact mol m2 := by
  intro n
  induction n with
  | zero =>
    intro spos mol m2 h
    exact PresFact.of_eq (Except.ok.inj h).symm
  | succ k ih =>
    intro spos mol m2 h
    unfold radicalEntriesLoop at h
    obtain ⟨aid, h1, h⟩ := bind_ok h
    obtain ⟨rad, h2, h⟩ := bind_ok h
    dsimp only at h
    have step : ∀ (nre : Nat),
        (mol.getAtomWithIdx (uint32 (aid - 1)) >>= fun a =>
          radicalEntriesLoop text k (spos + 8)
            (mol.replaceAtom (uint32 (aid - 1))
              { a with numRadicalElectrons := nre })) = .ok m2 →
        PresFact mol m2 := by
      intro nre hh
      obtain ⟨a, h4, h5⟩ := bind_ok hh
      have hget := getAtomWithIdx_ok h4
      refine PresFact.comp (PresFact.replace hget ?_ ?_ ?_) (ih _ _ m2 h5)
      · rfl
      · intro hOK
        exact hOK a (mem_of_get? hget)
      · intro _ hm
        exact molHasMagic_false_iff.mp hm a (mem_of_get? hget)
    split at h
    · exact step 2 h
    · split at h
      · exact step 1 h
      · split at h
        · exact step 2 h
        · exact Except.noConfusion h

theorem ParseRadicalLine_fact {mol m2 : Mol} {text : Line} {fc : Bool}
    (h : ParseRadicalLine mol text fc = .ok m2) :
    m2.atoms.length = mol.atoms.length ∧ m2.bonds = mol.bonds ∧
    m2.conformers = mol.conformers ∧ (MolInv mol → MolInv m2) ∧
    (fc = false → ∀ i, chargeAt m2 i = chargeAt mol i) ∧
    (fc = true → ∀ i, chargeAt m2 i = 0) := by
  unfold ParseRadicalLine at h
  cases fc with
  | false =>
    rw [if_neg (by decide : ¬ (false = true))] at h
    obtain ⟨nent, h1, h2⟩ := bind_ok h
    obtain ⟨e1, e2, e3, hinv, hchgs⟩ := radicalEntriesLoop_fact nent.toNat 9 mol m2 h2
    exact ⟨e1, e2, e3, hinv, fun _ => hchgs,
      fun hcontra => absurd hcontra (by decide)⟩
  | true =>
    rw [if_pos rfl] at h
    obtain ⟨nent, h1, h2⟩ := bind_ok h
    obtain ⟨e1, e2, e3, hinv, hchgs⟩ := radicalEntriesLoop_fact nent.toNat 9 _ m2 h2
    refine ⟨e1.trans (by simp), e2, e3, fun hI => hinv (MolInv_mapReset hI), ?_, ?_⟩
    · intro hcontra
      exact absurd hcontra (by decide)
    · intro _ i
      rw [hchgs i, chargeAt_mapReset]

theorem isotopeEntriesLoop_fact {text : Line} :
    ∀ n spos (mol m2 : Mol), isotopeEntriesLoop text n spos mol = .ok m2 →
      PresFact mol m2 := by
  intro n
  induction n with
  | zero =>
    intro spos mol m2 h
    exact PresFact.of_eq (Except.ok.inj h).symm
  | succ k ih =>
    intro spos mol m2 h
    unfold isotopeEntriesLoop at h
    obtain ⟨aid, h1, h⟩ := bind_ok h
    obtain ⟨a, h2, h⟩ := bind_ok h
    have hget := getAtomWithIdx_ok h2
    have hmem := mem_of_get? hget
    split at h
    · obtain ⟨mass, h3, h4⟩ := bind_ok h
      have hmass : mass.natAbs ≤ 100000 :=
        le_trans (Nat.le_of_lt (toInt_subClamp_natAbs_le h3)) (by norm_num)
      refine PresFact.comp (PresFact.replace hget ?_ ?_ ?_) (ih _ _ m2 h4)
      · rfl
      · intro hOK
        have hA := hOK a hmem
        exact ⟨hA.1, hA.2.1, (massOKb_ofInt hmass).1, (massOKb_ofInt hmass).2⟩
      · intro _ hm
        exact molHasMagic_false_iff.mp hm a hmem
    · refine PresFact.comp (PresFact.replace hget ?_ ?_ ?_) (ih _ _ m2 h)
      · rfl
      · intro hOK
        have hA := hOK a hmem
        have hw := massOKb_mono (by norm_num : (1000 : Nat) ≤ 100000)
          (getAtomicWeight_massOK a.atomicNum)
        exact ⟨hA.1, hA.2.1, hw.1, hw.2⟩
      · intro _ hm
        exact molHasMagic_false_iff.mp hm a hmem

theorem ParseIsotopeLine_fact {mol m2 : Mol} {text : Line}
    (h : ParseIsotopeLine mol text = .ok m2) : PresFact mol m2 := by
  unfold ParseIsotopeLine at h
  obtain ⟨nent, h1, h2⟩ := bind_ok h
  exact isotopeEntriesLoop_fact nent 9 mol m2 h2

theorem molDegree_le (m : Mol) (i : Nat) : molDegree m i ≤ m.bonds.length :=
  List.length_filter_le _ _

theorem PresFact.promote (mol : Mol) (idx : Nat) {c : Prop} [Decidable c] :
    PresFact mol (if c then mol else replaceAtomWithQueryAtom mol idx) := by
  split
  · exact PresFact.of_eq rfl
  · exact PresFact.rawqa mol idx

theorem PresFact.modifyExpandInv {mol : Mol} (idx : Nat) {q : AQuery} (how : QKind)
    (hq : MolInv mol → qHasMagic q = false) :
    PresFact mol (mol.modifyAtom idx (fun a2 => a2.expandQuery q how)) := by
  unfold Mol.modifyAtom
  cases hget : mol.atoms.get? idx with
  | none => exact PresFact.of_eq rfl
  | some a =>
    dsimp only
    refine ⟨by simp [Mol.replaceAtom], rfl, rfl, ?_, ?_⟩
    · intro hI
      obtain ⟨h1, h2, h3⟩ := hI
      refine ⟨forall_mem_set h1 (AtomOK_expandQuery (h1 a (mem_of_get? hget)) q how), h2, ?_⟩
      cases h3 with
      | inl hf => exact Or.inl hf
      | inr hm =>
        refine Or.inr (molHasMagic_replaceAtom hm ?_)
        exact atomHasMagic_expandQuery (molHasMagic_false_iff.mp hm a (mem_of_get? hget))
          (hq ⟨h1, h2, Or.inr hm⟩)
    · intro i
      by_cases he : idx = i
      · subst he
        rw [chargeAt_replaceAtom_self hget, (expandQuery_scalars a q how).1]
        unfold chargeAt
        rw [hget]
        rfl
      · exact chargeAt_replaceAtom_other he

theorem hasPropP_setPropP_self (ps : Props) (k : String) (v : PropVal) :
    hasPropP (setPropP ps k v) k = true := by
  unfold setPropP
  split
  next hany =>
    unfold hasPropP
    rw [List.any_eq_true]
    rw [List.any_eq_true] at hany
    obtain ⟨p, hp, hpk⟩ := hany
    have hk : p.1 = k := of_decide_eq_true hpk
    exact ⟨(k, v), List.mem_map.mpr ⟨p, hp, by rw [if_pos hk]⟩, by simp⟩
  next =>
    unfold hasPropP
    rw [List.any_eq_true]
    exact ⟨(k, v), List.mem_append_right _ (List.mem_singleton_self _), by simp⟩

theorem rawqa_props (m : Mol) (idx : Nat) :
    (replaceAtomWithQueryAtom m idx).props = m.props := by
  unfold replaceAtomWithQueryAtom
  cases m.atoms.get? idx with
  | none => rfl
  | some atom =>
    dsimp only
    split
    · rfl
    · rfl

theorem promote_props (m : Mol) (idx : Nat) {c : Prop} [Decidable c] :
    (if c then m else replaceAtomWithQueryAtom m idx).props = m.props := by
  split
  · rfl
  · exact rawqa_props m idx

theorem substCountLoop_fact {text : Line} :
    ∀ n spos (mol m2 : Mol), substCountLoop text n spos mol = .ok m2 →
      PresFact mol m2 := by
  intro n
  induction n with
  | zero =>
    intro spos mol m2 h
    exact PresFact.of_eq (Except.ok.inj h).symm
  | succ k ih =>
    intro spos mol m2 h
    unfold substCountLoop at h
    obtain ⟨aid, h1, h⟩ := bind_ok h
    obtain ⟨a, h2, h⟩ := bind_ok h
    split at h
    · obtain ⟨count, h3, h⟩ := bind_ok h
      split at h
      · exact ih _ _ m2 h
      · dsimp only at h
        have step : ∀ (q : AQuery), (mol.bonds.length ≤ 1000 → qHasMagic q = false) →
            substCountLoop text k (spos + 4 + 4)
              ((if a.hasQuery = true then mol
                else replaceAtomWithQueryAtom mol (uint32 ((aid : Int) - 1))).modifyAtom
                (uint32 ((aid : Int) - 1))
                (fun a2 => a2.expandQuery q .andQ)) = .ok m2 →
            PresFact mol m2 := by
          intro q hq hh
          have hp := PresFact.promote mol (uint32 ((aid : Int) - 1))
            (c := a.hasQuery = true)
          refine PresFact.comp (PresFact.comp hp (PresFact.modifyExpandInv _ .andQ ?_))
            (ih _ _ m2 hh)
          intro hI2
          refine hq ?_
          rw [← hp.bonds]
          exact hI2.2.1
        split at h
        · refine step _ ?_ h
          intro _
          rfl
        · split at h
          · refine step _ ?_ h
            intro hb
            rw [qHasMagic_setVal]
            have hmd : ((molDegree mol (uint32 ((aid : Int) - 1)) : Int)).natAbs ≤ 100000 := by
              have := le_trans (molDegree_le mol (uint32 ((aid : Int) - 1))) hb
              simpa using le_trans this (by norm_num)
            rw [beq_magic_false hmd]
            rfl
          · split at h
            · refine step _ ?_ h
              intro _
              rw [qHasMagic_setVal]
              have hc : count.natAbs ≤ 100000 :=
                le_trans (Nat.le_of_lt (toInt_subClamp_natAbs_le h3)) (by norm_num)
              rw [beq_magic_false hc]
              rfl
            · split at h
              · refine step _ ?_ h
                intro _
                rfl
              · exact Except.noConfusion h
    · exact ih _ _ m2 h

theorem ParseSubstitutionCountLine_fact {mol m2 : Mol} {text : Line}
    (h : ParseSubstitutionCountLine mol text = .ok m2) : PresFact mol m2 := by
  unfold ParseSubstitutionCountLine at h
  obtain ⟨nent, h1, h2⟩ := bind_ok h
  exact substCountLoop_fact nent 9 mol m2 h2

theorem unsatLoop_fact {text : Line} :
    ∀ n spos (mol m2 : Mol), unsatLoop text n spos mol = .ok m2 →
      PresFact mol m2 := by
  intro n
  induction n with
  | zero =>
    intro spos mol m2 h
    exact PresFact.of_eq (Except.ok.inj h).symm
  | succ k ih =>
    intro spos mol m2 h
    unfold unsatLoop at h
    obtain ⟨aid, h1, h⟩ := bind_ok h
    obtain ⟨a, h2, h⟩ := bind_ok h
    split at h
    · obtain ⟨count, h3, h⟩ := bind_ok h
      split at h
      · exact ih _ _ m2 h
      · split at h
        · dsimp only at h
          have hp := PresFact.promote mol (uint32 ((aid : Int) - 1))
            (c := a.hasQuery = true)
          refine PresFact.comp (PresFact.comp hp
            (PresFact.modifyExpandInv _ .andQ ?_)) (ih _ _ m2 h)
          intro _
          rfl
        · exact Except.noConfusion h
    · exact ih _ _ m2 h

theorem ParseUnsaturationLine_fact {mol m2 : Mol} {text : Line}
    (h : ParseUnsaturationLine mol text = .ok m2) : PresFact mol m2 := by
  unfold ParseUnsaturationLine at h
  obtain ⟨nent, h1, h2⟩ := bind_ok h
  exact unsatLoop_fact nent 9 mol m2 h2

theorem ringBondCountLoop_fact {text : Line} :
    ∀ n spos (mol m2 : Mol), ringBondCountLoop text n spos mol = .ok m2 →
      PresFact mol m2 := by
  intro n
  induction n with
  | zero =>
    intro spos mol m2 h
    exact PresFact.of_eq (Except.ok.inj h).symm
  | succ k ih =>
    intro spos mol m2 h
    unfold ringBondCountLoop at h
    obtain ⟨aid, h1, h⟩ := bind_ok h
    obtain ⟨a, h2, h⟩ := bind_ok h
    split at h
    · obtain ⟨count, h3, h⟩ := bind_ok h
      split at h
      · exact ih _ _ m2 h
      · dsimp only at h
        have step : ∀ (q : AQuery), (mol.bonds.length ≤ 1000 → qHasMagic q = false) →
            ringBondCountLoop text k (spos + 4 + 4)
              ((if a.hasQuery = true then mol
                else replaceAtomWithQueryAtom mol (uint32 ((aid : Int) - 1))).modifyAtom
                (uint32 ((aid : Int) - 1))
                (fun a2 => a2.expandQuery q .andQ)) = .ok m2 →
            PresFact mol m2 := by
          intro q hq hh
          have hp := PresFact.promote mol (uint32 ((aid : Int) - 1))
            (c := a.hasQuery = true)
          refine PresFact.comp (PresFact.comp hp (PresFact.modifyExpandInv _ .andQ ?_))
            (ih _ _ m2 hh)
          intro hI2
          refine hq ?_
          rw [← hp.bonds]
          exact hI2.2.1
        have stepF :
            ringBondCountLoop text k (spos + 4 + 4)
              ((if a.hasQuery = true then mol.setProp "_NeedsQueryScan" (.iv 1)
                else replaceAtomWithQueryAtom (mol.setProp "_NeedsQueryScan" (.iv 1))
                  (uint32 ((aid : Int) - 1))).modifyAtom
                (uint32 ((aid : Int) - 1))
                (fun a2 => a2.expandQuery ((makeAtomRingBondCountQuery 0).setVal MAGIC)
                  .andQ)) = .ok m2 →
            PresFact mol m2 := by
          intro hh
          have hsp := PresFact.setProp mol "_NeedsQueryScan" (.iv 1)
          have hpromote := PresFact.promote (mol.setProp "_NeedsQueryScan" (.iv 1))
            (uint32 ((aid : Int) - 1)) (c := a.hasQuery = true)
          have hflag2 : (if a.hasQuery = true then mol.setProp "_NeedsQueryScan" (.iv 1)
              else replaceAtomWithQueryAtom (mol.setProp "_NeedsQueryScan" (.iv 1))
                (uint32 ((aid : Int) - 1))).hasProp "_NeedsQueryScan" = true := by
            show hasPropP (if a.hasQuery = true then mol.setProp "_NeedsQueryScan" (.iv 1)
              else replaceAtomWithQueryAtom (mol.setProp "_NeedsQueryScan" (.iv 1))
                (uint32 ((aid : Int) - 1))).props "_NeedsQueryScan" = true
            rw [promote_props]
            exact hasPropP_setPropP_self mol.props _ _
          exact PresFact.comp (PresFact.comp hsp (PresFact.comp hpromote
            (PresFact.modifyExpandFlagged _ _ .andQ hflag2))) (ih _ _ m2 hh)
        split at h
        · refine step _ ?_ h
          intro _
          rfl
        · split at h
          · exact stepF h
          · split at h
            · refine step _ ?_ h
              intro _
              rw [qHasMagic_setVal]
              have hc : count.natAbs ≤ 100000 :=
                le_trans (Nat.le_of_lt (toInt_subClamp_natAbs_le h3)) (by norm_num)
              rw [beq_magic_false hc]
              rfl
            · split at h
              · refine step _ ?_ h
                intro _
                rfl
              · exact Except.noConfusion h
    · exact ih _ _ m2 h

theorem ParseRingBondCountLine_fact {mol m2 : Mol} {text : Line}
    (h : ParseRingBondCountLine mol text = .ok m2) : PresFact mol m2 := by
  unfold ParseRingBondCountLine at h
  obtain ⟨nent, h1, h2⟩ := bind_ok h
  exact ringBondCountLoop_fact nent 9 mol m2 h2

theorem chargeAt_of_get? {mol : Mol} {i : Nat} {A : Atom}
    (h : mol.atoms.get? i = some A) : chargeAt mol i = A.formalCharge := by
  unfold chargeAt
  rw [h]
  rfl

theorem PresFact.replaceOOR {mol : Mol} {idx : Nat} {b : Atom}
    (h : mol.atoms.length ≤ idx) : PresFact mol (mol.replaceAtom idx b) := by
  refine PresFact.of_eq ?_
  unfold Mol.replaceAtom
  rw [List.set_eq_of_length_le h]

theorem qlHasMagic_append : ∀ (l1 l2 : AQueryL),
    qlHasMagic (qlAppend l1 l2) = (qlHasMagic l1 || qlHasMagic l2)
  | .nil, l2 => by
    rw [qlAppend, qlHasMagic]
    simp
  | .cons q t, l2 => by
    rw [qlAppend, qlHasMagic, qlHasMagic, qlHasMagic_append t l2, Bool.or_assoc]

theorem oldListChildren_fact {text : Line} :
    ∀ n i acc first res, oldListChildren text n i acc first = .ok res →
      (qlHasMagic acc = false → qlHasMagic res.1 = false) ∧
      ((∀ z, first = some z → z.natAbs ≤ 200) →
        ∀ z, res.2 = some z → z.natAbs ≤ 200) := by
  intro n
  induction n with
  | zero =>
    intro i acc first res h
    have : (acc, first) = res := Except.ok.inj h
    subst this
    exact ⟨id, id⟩
  | succ k ih =>
    intro i acc first res h
    unfold oldListChildren at h
    obtain ⟨atNum, h1, h⟩ := bind_ok h
    obtain ⟨u, h2, h⟩ := bind_ok h
    have hrange := rangeCheckI_ok h2
    have hbound : atNum.natAbs ≤ 200 := by omega
    obtain ⟨ihq, ihf⟩ := ih (i + 1) _ _ res h
    constructor
    · intro hacc
      refine ihq ?_
      rw [qlHasMagic_append, hacc, Bool.false_or, qlHasMagic, qlHasMagic,
        Bool.or_false, makeAtomNumEqualsQuery, qHasMagic_leaf]
      exact beq_magic_false (le_trans hbound (by norm_num))
    · intro hfirst
      refine ihf ?_
      intro z hz
      split at hz
      · exact (Option.some.inj hz) ▸ hbound
      · exact hfirst z hz

theorem ParseOldAtomList_fact {mol m2 : Mol} {text : Line}
    (h : ParseOldAtomList mol text = .ok m2) : PresFact mol m2 := by
  unfold ParseOldAtomList at h
  obtain ⟨idxU, h1, h⟩ := bind_ok h
  dsimp only at h
  obtain ⟨u, h2, h⟩ := bind_ok h
  obtain ⟨a0, h3, h⟩ := bind_ok h
  have hget := getAtomWithIdx_ok h3
  have hmem := mem_of_get? hget
  have step : ∀ (neg : Bool),
      (do
        let nQ ← wrapBadCast (do toInt (← substrE text 9 1)) (cannotConvert (subClamp text 9 1))
        let _ ← rangeCheckI 0 nQ 5
        let cf ← oldListChildren text nQ.toNat 0 .nil none
        let a := queryAtomFromAtom a0
        let a := match cf.2 with
          | some z => { a with atomicNum := z }
          | none => a
        let a := a.setQuery (AQuery.node .orQ 0 neg cf.1)
        (.ok (mol.replaceAtom (uint32 ((idxU : Int) - 1)) a) :
          Except ParseErr Mol)) = .ok m2 →
      PresFact mol m2 := by
    intro neg hh
    obtain ⟨nQ, h4, hh⟩ := bind_ok hh
    obtain ⟨u2, h5, hh⟩ := bind_ok hh
    obtain ⟨cf, h6, hh⟩ := bind_ok hh
    dsimp only at hh
    obtain ⟨hql, hfv⟩ := oldListChildren_fact nQ.toNat 0 .nil none cf h6
    have hqlm : qlHasMagic cf.1 = false := hql rfl
    have hzb : ∀ z, cf.2 = some z → z.natAbs ≤ 200 := hfv (fun z hz => Option.noConfusion hz)
    rw [← Except.ok.inj hh]
    refine PresFact.replace hget ?_ ?_ ?_
    · cases cf.2 <;> rfl
    · intro hOK
      have hA := hOK a0 hmem
      cases hz : cf.2 with
      | none =>
        simp only [hz]
        exact hA
      | some z =>
        simp only [hz]
        exact ⟨hA.1, le_trans (hzb z hz) (by norm_num), hA.2.2.1, hA.2.2.2⟩
    · intro _ _
      have : ∀ (b : Atom), atomHasMagic (b.setQuery (AQuery.node .orQ 0 neg cf.1)) = false := by
        intro b
        unfold Atom.setQuery atomHasMagic
        dsimp only
        rw [qHasMagic]
        rw [show ((0 : Int) == MAGIC) = false from by decide, hqlm]
        rfl
      cases cf.2 <;> exact this _
  split at h
  · exact step true h
  · split at h
    · exact step false h
    · exact Except.noConfusion h

theorem atomHasMagic_setNegMap (a : Atom) (b : Bool) :
    atomHasMagic { a with query := a.query.map (fun q => q.setNeg b) } =
      atomHasMagic a := by
  unfold atomHasMagic
  cases a.query with
  | none => rfl
  | some q =>
    dsimp only [Option.map]
    rw [qHasMagic_setNeg]

theorem alsLoop_fact {text : Line} {mol : Mol} :
    ∀ n i idx acc res, alsLoop text n i idx acc mol = .ok res →
      (∀ aa, acc = some aa → aa.formalCharge = chargeAt mol idx ∧
        ((∀ x ∈ mol.atoms, AtomOK x) → AtomOK aa) ∧
        ((∀ x ∈ mol.atoms, AtomOK x) → molHasMagic mol = false →
          atomHasMagic aa = false)) →
      (∀ aa, res = some aa → aa.formalCharge = chargeAt mol idx ∧
        ((∀ x ∈ mol.atoms, AtomOK x) → AtomOK aa) ∧
        ((∀ x ∈ mol.atoms, AtomOK x) → molHasMagic mol = false →
          atomHasMagic aa = false)) := by
  intro n
  induction n with
  | zero =>
    intro i idx acc res h hacc
    have : acc = res := Except.ok.inj h
    subst this
    exact hacc
  | succ k ih =>
    intro i idx acc res h hacc
    unfold alsLoop at h
    dsimp only at h
    split at h
    · exact Except.noConfusion h
    · obtain ⟨atSymbF, h1, h⟩ := bind_ok h
      obtain ⟨atSymb, h2, h⟩ := bind_ok h
      split at h
      · obtain ⟨a0, h5, h⟩ := bind_ok h
        have hget := getAtomWithIdx_ok h5
        have hmem := mem_of_get? hget
        refine ih (i + 1) idx _ res h ?_
        intro aa haa
        rw [← Option.some.inj haa]
        refine ⟨(chargeAt_of_get? hget).symm, ?_, ?_⟩
        · intro hOK
          have hA := hOK a0 hmem
          exact ⟨hA.1, getAtomicNumber_natAbs_le atSymb, hA.2.2.1, hA.2.2.2⟩
        · intro hOK _
          have hA := hOK a0 hmem
          show qHasMagic (makeAtomNumEqualsQuery a0.atomicNum) = false
          rw [makeAtomNumEqualsQuery, qHasMagic_leaf]
          exact beq_magic_false hA.2.1
      · cases acc with
        | some aaOld =>
          refine ih (i + 1) idx _ res h ?_
          intro aa haa
          obtain ⟨hc, hok, hmag⟩ := hacc aaOld rfl
          rw [← Option.some.inj haa]
          refine ⟨?_, ?_, ?_⟩
          · rw [(expandQuery_scalars _ _ _).1]
            exact hc
          · intro hOK
            exact AtomOK_expandQuery (hok hOK) _ _
          · intro hOK hm
            refine atomHasMagic_expandQuery (hmag hOK hm) ?_
            rw [makeAtomNumEqualsQuery, qHasMagic_leaf]
            exact beq_magic_false (getAtomicNumber_natAbs_le atSymb)
        | none =>
          refine ih (i + 1) idx _ res h ?_
          intro aa haa
          exact Option.noConfusion haa

theorem ParseNewAtomList_fact {mol m2 : Mol} {text : Line}
    (h : ParseNewAtomList mol text = .ok m2) : PresFact mol m2 := by
  unfold ParseNewAtomList at h
  split at h
  · exact Except.noConfusion h
  · obtain ⟨idxU, h1, h⟩ := bind_ok h
    dsimp only at h
    obtain ⟨u, h2, h⟩ := bind_ok h
    obtain ⟨nQ, h3, h⟩ := bind_ok h
    split at h
    · exact Except.noConfusion h
    · obtain ⟨aOpt, h4, h⟩ := bind_ok h
      have hfacts := alsLoop_fact nQ.toNat 0 (uint32 ((idxU : Int) - 1)) none aOpt h4
        (fun aa haa => Option.noConfusion haa)
      cases aOpt with
      | none => exact Except.noConfusion h
      | some a =>
        obtain ⟨hc, hok, hmag⟩ := hfacts a rfl
        dsimp only at h
        have step : ∀ (b : Bool),
            (Except.ok (mol.replaceAtom (uint32 ((idxU : Int) - 1))
              { a with query := a.query.map (fun q => q.setNeg b) }) :
              Except ParseErr Mol) = .ok m2 →
            PresFact mol m2 := by
          intro b hh
          rw [← Except.ok.inj hh]
          by_cases hlt : uint32 ((idxU : Int) - 1) < mol.atoms.length
          · cases hA : mol.atoms.get? (uint32 ((idxU : Int) - 1)) with
            | none =>
              rw [List.get?_eq_none] at hA
              omega
            | some A =>
              refine PresFact.replace hA ?_ ?_ ?_
              · show a.formalCharge = A.formalCharge
                rw [hc, chargeAt_of_get? hA]
              · intro hOK
                exact hok hOK
              · intro hOK hm
                rw [atomHasMagic_setNegMap]
                exact hmag hOK hm
          · exact PresFact.replaceOOR (le_of_not_lt hlt)
        split at h
        · exact step true h
        · split at h
          · exact step false h
          · exact Except.noConfusion h

theorem atomHasMagic_setQuery (a : Atom) (q : AQuery) :
    atomHasMagic (a.setQuery q) = qHasMagic q := rfl

theorem rgpLoop_fact {text : Line} :
    ∀ n i (mol m2 : Mol), rgpLoop text n i mol = .ok m2 → PresFact mol m2 := by
  intro n
  induction n with
  | zero =>
    intro i mol m2 h
    exact PresFact.of_eq (Except.ok.inj h).symm
  | succ k ih =>
    intro i mol m2 h
    unfold rgpLoop at h
    obtain ⟨atIdxU, h1, h⟩ := bind_ok h
    obtain ⟨rLabel, h2, h⟩ := bind_ok h
    simp only [gt_iff_lt] at h
    split at h
    · exact Except.noConfusion h
    · obtain ⟨a, h3, h⟩ := bind_ok h
      have hget := getAtomWithIdx_ok h3
      have hmem := mem_of_get? hget
      refine PresFact.comp (PresFact.replace hget ?_ ?_ ?_) (ih _ _ m2 h)
      · unfold Atom.setQuery
        try dsimp only
        split <;> rfl
      · intro hOK
        have hA := hOK a hmem
        unfold Atom.setQuery
        try dsimp only
        split
        next hcond =>
          have hb : ((rLabel : Int)).natAbs ≤ 100000 := by
            obtain ⟨hc1, hc2⟩ := hcond
            omega
          have hm := massOKb_ofInt hb
          exact ⟨hA.1, hA.2.1, hm.1, hm.2⟩
        next => exact hA
      · intro _ _
        rw [atomHasMagic_setQuery]
        rfl

theorem ParseRGroupLabels_fact {mol m2 : Mol} {text : Line}
    (h : ParseRGroupLabels mol text = .ok m2) : PresFact mol m2 := by
  unfold ParseRGroupLabels at h
  obtain ⟨nLabels, h1, h2⟩ := bind_ok h
  exact rgpLoop_fact nLabels.toNat 0 mol m2 h2

theorem ParseAtomAlias_fact {mol m2 : Mol} {text nextLine : Line}
    (h : ParseAtomAlias mol text nextLine = .ok m2) : PresFact mol m2 := by
  unfold ParseAtomAlias at h
  obtain ⟨idxU, h1, h⟩ := bind_ok h
  dsimp only at h
  obtain ⟨u, h2, h⟩ := bind_ok h
  obtain ⟨a, h3, h⟩ := bind_ok h
  have hget := getAtomWithIdx_ok h3
  have hmem := mem_of_get? hget
  rw [← Except.ok.inj h]
  refine PresFact.replace hget rfl ?_ ?_
  · intro hOK
    exact AtomOK_setProp (hOK a hmem) _ _
  · intro _ hm
    rw [atomHasMagic_setProp]
    exact molHasMagic_false_iff.mp hm a hmem

theorem ParseAtomValue_fact {mol m2 : Mol} {text : Line}
    (h : ParseAtomValue mol text = .ok m2) : PresFact mol m2 := by
  unfold ParseAtomValue at h
  obtain ⟨idxU, h1, h⟩ := bind_ok h
  dsimp only at h
  obtain ⟨u, h2, h⟩ := bind_ok h
  obtain ⟨a, h3, h⟩ := bind_ok h
  have hget := getAtomWithIdx_ok h3
  have hmem := mem_of_get? hget
  obtain ⟨v, h4, h⟩ := bind_ok h
  rw [← Except.ok.inj h]
  refine PresFact.replace hget rfl ?_ ?_
  · intro hOK
    exact AtomOK_setProp (hOK a hmem) _ _
  · intro _ hm
    rw [atomHasMagic_setProp]
    exact molHasMagic_false_iff.mp hm a hmem

theorem propDispatch_fact {mol : Mol} {tempStr : Line} {lines : List Line} {line : Nat}
    {fc : Bool} {st : PState} (h : propDispatch mol tempStr lines line fc = .ok st) :
    st.mol.atoms.length = mol.atoms.length ∧ st.mol.bonds = mol.bonds ∧
    st.mol.conformers = mol.conformers ∧ (MolInv mol → MolInv st.mol) ∧
    (st.lines = lines ∨ ∃ l0, lines = l0 :: st.lines) ∧
    (fc = false → st.firstChargeLine = false) ∧
    (∀ i, chargeAt st.mol i = chargeAt mol i ∨ chargeAt st.mol i = 0 ∨
      (takeC tempStr 6 = strL "M  CHG" ∧
        (i, chargeAt st.mol i) ∈ chgLineEntries tempStr)) := by
  have fromPres : ∀ {m2 : Mol} {ls : List Line} {ln : Nat},
      PresFact mol m2 → st = ⟨m2, ls, ln, fc⟩ →
      (ls = lines ∨ ∃ l0, lines = l0 :: ls) →
      st.mol.atoms.length = mol.atoms.length ∧ st.mol.bonds = mol.bonds ∧
      st.mol.conformers = mol.conformers ∧ (MolInv mol → MolInv st.mol) ∧
      (st.lines = lines ∨ ∃ l0, lines = l0 :: st.lines) ∧
      (fc = false → st.firstChargeLine = false) ∧
      (∀ i, chargeAt st.mol i = chargeAt mol i ∨ chargeAt st.mol i = 0 ∨
        (takeC tempStr 6 = strL "M  CHG" ∧
          (i, chargeAt st.mol i) ∈ chgLineEntries tempStr)) := by
    intro m2 ls ln hp hst hls
    subst hst
    exact ⟨hp.atoms, hp.bonds, hp.confs, hp.inv, hls, fun hf => hf,
      fun i => Or.inl (hp.chg i)⟩
  unfold propDispatch at h
  by_cases hA : charAtD tempStr 0 = 'A'
  · rw [if_pos hA] at h
    cases lines with
    | nil =>
      unfold getLineS at h
      try dsimp only at h
      by_cases hEND : takeC tempStr 6 ≠ strL "M  END"
      · rw [if_pos hEND] at h
        obtain ⟨m2, hx, hpure⟩ := bind_ok h
        exact fromPres (ParseAtomAlias_fact hx) (Except.ok.inj hpure).symm (Or.inl rfl)
      · rw [if_neg hEND] at h
        exact fromPres (PresFact.of_eq rfl) (Except.ok.inj h).symm (Or.inl rfl)
    | cons l0 rest =>
      unfold getLineS at h
      try dsimp only at h
      by_cases hEND : takeC tempStr 6 ≠ strL "M  END"
      · rw [if_pos hEND] at h
        obtain ⟨m2, hx, hpure⟩ := bind_ok h
        exact fromPres (ParseAtomAlias_fact hx) (Except.ok.inj hpure).symm (Or.inr ⟨l0, rfl⟩)
      · rw [if_neg hEND] at h
        exact fromPres (PresFact.of_eq rfl) (Except.ok.inj h).symm (Or.inr ⟨l0, rfl⟩)
  · rw [if_neg hA] at h
    by_cases hG : charAtD tempStr 0 = 'G'
    · rw [if_pos hG] at h
      exact fromPres (PresFact.of_eq rfl) (Except.ok.inj h).symm (Or.inl rfl)
    · rw [if_neg hG] at h
      by_cases hV : charAtD tempStr 0 = 'V'
      · rw [if_pos hV] at h
        obtain ⟨m2, hx, hpure⟩ := bind_ok h
        exact fromPres (ParseAtomValue_fact hx) (Except.ok.inj hpure).symm (Or.inl rfl)
      · rw [if_neg hV] at h
        by_cases hSKP : takeC tempStr 6 = strL "S  SKP"
        · rw [if_pos hSKP] at h
          exact fromPres (PresFact.of_eq rfl) (Except.ok.inj h).symm (Or.inl rfl)
        · rw [if_neg hSKP] at h
          by_cases hALS : takeC tempStr 6 = strL "M  ALS"
          · rw [if_pos hALS] at h
            obtain ⟨m2, hx, hpure⟩ := bind_ok h
            exact fromPres (ParseNewAtomList_fact hx) (Except.ok.inj hpure).symm (Or.inl rfl)
          · rw [if_neg hALS] at h
            by_cases hISO : takeC tempStr 6 = strL "M  ISO"
            · rw [if_pos hISO] at h
              obtain ⟨m2, hx, hpure⟩ := bind_ok h
              exact fromPres (ParseIsotopeLine_fact hx) (Except.ok.inj hpure).symm (Or.inl rfl)
            · rw [if_neg hISO] at h
              by_cases hRGP : takeC tempStr 6 = strL "M  RGP"
              · rw [if_pos hRGP] at h
                obtain ⟨m2, hx, hpure⟩ := bind_ok h
                exact fromPres (ParseRGroupLabels_fact hx) (Except.ok.inj hpure).symm (Or.inl rfl)
              · rw [if_neg hRGP] at h
                by_cases hRBC : takeC tempStr 6 = strL "M  RBC"
                · rw [if_pos hRBC] at h
                  obtain ⟨m2, hx, hpure⟩ := bind_ok h
                  exact fromPres (ParseRingBondCountLine_fact hx) (Except.ok.inj hpure).symm (Or.inl rfl)
                · rw [if_neg hRBC] at h
                  by_cases hSUB : takeC tempStr 6 = strL "M  SUB"
                  · rw [if_pos hSUB] at h
                    obtain ⟨m2, hx, hpure⟩ := bind_ok h
                    exact fromPres (ParseSubstitutionCountLine_fact hx) (Except.ok.inj hpure).symm (Or.inl rfl)
                  · rw [if_neg hSUB] at h
                    by_cases hUNS : takeC tempStr 6 = strL "M  UNS"
                    · rw [if_pos hUNS] at h
                      obtain ⟨m2, hx, hpure⟩ := bind_ok h
                      exact fromPres (ParseUnsaturationLine_fact hx) (Except.ok.inj hpure).symm (Or.inl rfl)
                    · rw [if_neg hUNS] at h
                      by_cases hCHG : takeC tempStr 6 = strL "M  CHG"
                      · rw [if_pos hCHG] at h
                        obtain ⟨m2, hx, hpure⟩ := bind_ok h
                        obtain ⟨e1, e2, e3, hinv, hfalse, htrue⟩ := ParseChargeLine_fact hx
                        have hst : st = ⟨m2, lines, line, false⟩ := (Except.ok.inj hpure).symm
                        subst hst
                        refine ⟨e1, e2, e3, hinv, Or.inl rfl, fun _ => rfl, ?_⟩
                        intro i
                        cases fc with
                        | false =>
                          rcases hfalse rfl i with hcase | hcase
                          · exact Or.inl hcase
                          · exact Or.inr (Or.inr ⟨hCHG, hcase⟩)
                        | true =>
                          rcases htrue rfl i with hcase | hcase
                          · exact Or.inr (Or.inl hcase)
                          · exact Or.inr (Or.inr ⟨hCHG, hcase⟩)
                      · rw [if_neg hCHG] at h
                        by_cases hRAD : takeC tempStr 6 = strL "M  RAD"
                        · rw [if_pos hRAD] at h
                          obtain ⟨m2, hx, hpure⟩ := bind_ok h
                          obtain ⟨e1, e2, e3, hinv, hfalse, htrue⟩ := ParseRadicalLine_fact hx
                          have hst : st = ⟨m2, lines, line, false⟩ := (Except.ok.inj hpure).symm
                          subst hst
                          refine ⟨e1, e2, e3, hinv, Or.inl rfl, fun _ => rfl, ?_⟩
                          intro i
                          cases fc with
                          | false => exact Or.inl (hfalse rfl i)
                          | true => exact Or.inr (Or.inl (htrue rfl i))
                        · rw [if_neg hRAD] at h
                          exact fromPres (PresFact.of_eq rfl) (Except.ok.inj h).symm (Or.inl rfl)

theorem propLoop_fact :
    ∀ fuel (mol : Mol) (tempStr : Line) (eofF : Bool) (lines : List Line) (line : Nat)
      (flag : Bool) (out : Bool × Mol × List Line × Nat),
      propLoop fuel mol tempStr eofF lines line flag = .ok out →
      out.2.1.atoms.length = mol.atoms.length ∧ out.2.1.bonds = mol.bonds ∧
      out.2.1.conformers = mol.conformers ∧ (MolInv mol → MolInv out.2.1) ∧
      (∀ i, chargeAt out.2.1 i = chargeAt mol i ∨ chargeAt out.2.1 i = 0 ∨
        ∃ t, (t = tempStr ∨ t ∈ lines) ∧ takeC t 6 = strL "M  CHG" ∧
          (i, chargeAt out.2.1 i) ∈ chgLineEntries t) := by
  intro fuel
  induction fuel with
  | zero =>
    intro mol tempStr eofF lines line flag out h
    exact Except.noConfusion h
  | succ f ih =>
    intro mol tempStr eofF lines line flag out h
    unfold propLoop at h
    split at h
    · obtain ⟨st, hd, h⟩ := bind_ok h
      obtain ⟨ms, ls, lns, fcs⟩ := st
      obtain ⟨d1, d2, d3, dinv, dlines, dfc, dchg⟩ := propDispatch_fact hd
      try dsimp only at h
      cases ls with
      | nil =>
        unfold getLineS at h
        try dsimp only at h
        obtain ⟨i1, i2, i3, iinv, ichg⟩ := ih ms [] true [] (lns + 1) fcs out h
        refine ⟨i1.trans d1, i2.trans d2, i3.trans d3, fun hI => iinv (dinv hI), ?_⟩
        intro i
        rcases ichg i with hc | hc | ⟨t, hmem, h6, hl⟩
        · rw [hc]
          rcases dchg i with e | e | ⟨hc6, hl⟩
          · exact Or.inl e
          · exact Or.inr (Or.inl e)
          · exact Or.inr (Or.inr ⟨tempStr, Or.inl rfl, hc6, hl⟩)
        · exact Or.inr (Or.inl hc)
        · have ht : t = [] := by
            rcases hmem with rfl | hm
            · rfl
            · cases hm
          subst ht
          exact absurd h6 (by decide)
      | cons t2 rest2 =>
        unfold getLineS at h
        try dsimp only at h
        obtain ⟨i1, i2, i3, iinv, ichg⟩ := ih ms t2 false rest2 (lns + 1) fcs out h
        have hmemls : ∀ t : Line, t ∈ t2 :: rest2 → t = tempStr ∨ t ∈ lines := by
          intro t hmemt
          rcases dlines with hl | ⟨l0, hl⟩
          · have hl2 : t2 :: rest2 = lines := hl
            rw [hl2] at hmemt
            exact Or.inr hmemt
          · have hl2 : lines = l0 :: t2 :: rest2 := hl
            rw [hl2]
            exact Or.inr (List.mem_cons_of_mem _ hmemt)
        refine ⟨i1.trans d1, i2.trans d2, i3.trans d3, fun hI => iinv (dinv hI), ?_⟩
        intro i
        rcases ichg i with hc | hc | ⟨t, hmemt, h6, hl⟩
        · rw [hc]
          rcases dchg i with e | e | ⟨hc6, hl⟩
          · exact Or.inl e
          · exact Or.inr (Or.inl e)
          · exact Or.inr (Or.inr ⟨tempStr, Or.inl rfl, hc6, hl⟩)
        · exact Or.inr (Or.inl hc)
        · refine Or.inr (Or.inr ⟨t, ?_, h6, hl⟩)
          refine hmemls t ?_
          rcases hmemt with rfl | hm
          · exact List.mem_cons_self _ _
          · exact List.mem_cons_of_mem _ hm
    · rw [← Except.ok.inj h]
      exact ⟨rfl, rfl, rfl, id, fun i => Or.inl rfl⟩

theorem ParseMolBlockProperties_fact {fuel : Nat} {mol : Mol} {lines : List Line}
    {line : Nat} {out : Bool × Mol × List Line × Nat}
    (h : ParseMolBlockProperties fuel mol lines line = .ok out) :
    out.2.1.atoms.length = mol.atoms.length ∧ out.2.1.bonds = mol.bonds ∧
    out.2.1.conformers = mol.conformers ∧ (MolInv mol → MolInv out.2.1) ∧
    (∀ i, chargeAt out.2.1 i = chargeAt mol i ∨ chargeAt out.2.1 i = 0 ∨
      ∃ t, t ∈ lines ∧ takeC t 6 = strL "M  CHG" ∧
        (i, chargeAt out.2.1 i) ∈ chgLineEntries t) := by
  unfold ParseMolBlockProperties at h
  cases lines with
  | nil =>
    unfold getLineS at h
    try dsimp only at h
    split at h
    · obtain ⟨m1, hx, h⟩ := bind_ok h
      have pf := ParseOldAtomList_fact hx
      obtain ⟨i1, i2, i3, iinv, ichg⟩ := propLoop_fact fuel m1 [] true [] (line + 1) true out h
      refine ⟨i1.trans pf.atoms, i2.trans pf.bonds, i3.trans pf.confs,
        fun hI => iinv (pf.inv hI), ?_⟩
      intro i
      rcases ichg i with hc | hc | ⟨t, hmemt, h6, hl⟩
      · rw [hc, pf.chg i]
        exact Or.inl rfl
      · exact Or.inr (Or.inl hc)
      · have ht : t = [] := by
          rcases hmemt with rfl | hm
          · rfl
          · cases hm
        subst ht
        exact absurd h6 (by decide)
    · obtain ⟨m1, hx, h⟩ := bind_ok h
      have hm1 : mol = m1 := Except.ok.inj hx
      subst hm1
      obtain ⟨i1, i2, i3, iinv, ichg⟩ := propLoop_fact fuel mol [] true [] (line + 1) true out h
      refine ⟨i1, i2, i3, iinv, ?_⟩
      intro i
      rcases ichg i with hc | hc | ⟨t, hmemt, h6, hl⟩
      · exact Or.inl hc
      · exact Or.inr (Or.inl hc)
      · have ht : t = [] := by
          rcases hmemt with rfl | hm
          · rfl
          · cases hm
        subst ht
        exact absurd h6 (by decide)
  | cons t0 rest =>
    unfold getLineS at h
    try dsimp only at h
    split at h
    · obtain ⟨m1, hx, h⟩ := bind_ok h
      have pf := ParseOldAtomList_fact hx
      obtain ⟨i1, i2, i3, iinv, ichg⟩ :=
        propLoop_fact fuel m1 t0 false rest (line + 1) true out h
      refine ⟨i1.trans pf.atoms, i2.trans pf.bonds, i3.trans pf.confs,
        fun hI => iinv (pf.inv hI), ?_⟩
      intro i
      rcases ichg i with hc | hc | ⟨t, hmemt, h6, hl⟩
      · rw [hc, pf.chg i]
        exact Or.inl rfl
      · exact Or.inr (Or.inl hc)
      · refine Or.inr (Or.inr ⟨t, ?_, h6, hl⟩)
        rcases hmemt with rfl | hm
        · exact List.mem_cons_self _ _
        · exact List.mem_cons_of_mem _ hm
    · obtain ⟨m1, hx, h⟩ := bind_ok h
      have hm1 : mol = m1 := Except.ok.inj hx
      subst hm1
      obtain ⟨i1, i2, i3, iinv, ichg⟩ :=
        propLoop_fact fuel mol t0 false rest (line + 1) true out h
      refine ⟨i1, i2, i3, iinv, ?_⟩
      intro i
      rcases ichg i with hc | hc | ⟨t, hmemt, h6, hl⟩
      · exact Or.inl hc
      · exact Or.inr (Or.inl hc)
      · refine Or.inr (Or.inr ⟨t, ?_, h6, hl⟩)
        rcases hmemt with rfl | hm
        · exact List.mem_cons_self _ _
        · exact List.mem_cons_of_mem _ hm

instance (B : Nat) (q : Frac) : Decidable (massOKb B q) := by
  unfold massOKb
  infer_instance

/-- Bounds established for each freshly decoded atom of an atom line:
field bounds, extra mass headroom for the mass-difference column, and no
MAGIC leaf. -/
def AtomBaseOK (a : Atom) : Prop :=
  AtomOK a ∧ massOKb 10000 a.mass ∧ atomHasMagic a = false

instance (a : Atom) : Decidable (AtomBaseOK a) := by
  unfold AtomBaseOK
  infer_instance

theorem AtomBaseOK_setMass {b : Atom} (hb : AtomBaseOK b) {m : Frac}
    (hm : massOKb 10000 m) : AtomBaseOK { b with mass := m } :=
  ⟨⟨hb.1.1, hb.1.2.1, (massOKb_mono (by norm_num : (10000 : Nat) ≤ 100000) hm).1,
    (massOKb_mono (by norm_num : (10000 : Nat) ≤ 100000) hm).2⟩, hm, hb.2.2⟩

theorem rGroupMass_fact (symb : Line) {b : Atom} (hb : AtomBaseOK b) :
    AtomBaseOK (rGroupMass symb b) := by
  unfold rGroupMass
  repeat' split
  all_goals first
    | exact hb
    | exact AtomBaseOK_setMass hb (by decide)

theorem atomLineBase_fact (symb : Line) (massDiff : Int) :
    AtomBaseOK (atomLineBase symb massDiff) := by
  unfold atomLineBase
  split
  · dsimp only
    have hbase : AtomBaseOK (if symb = strL "A" ∨ symb = strL "Q" ∨ symb = strL "*" then
        let q0 := mkQueryAtomZ 0
        let qa :=
          if symb = strL "*" then q0.setQuery makeAtomNullQuery
          else if symb = strL "Q" then q0.setQuery qSymbolQuery
          else q0.setQuery ((makeAtomNumEqualsQuery 1).setNeg true)
        { qa with noImplicit := true }
      else { ({} : Atom) with atomicNum := 0 }) := by
      split
      · dsimp only
        split
        · decide
        · split
          · decide
          · decide
      · decide
    split
    · exact rGroupMass_fact symb hbase
    · exact hbase
  · split
    · decide
    · split
      · decide
      · dsimp only
        have hz := getAtomicNumber_natAbs_le symb
        have hw := getAtomicWeight_massOK (getAtomicNumber symb)
        have hw1 := massOKb_mono (by norm_num : (1000 : Nat) ≤ 10000) hw
        have hw2 := massOKb_mono (by norm_num : (1000 : Nat) ≤ 100000) hw
        exact ⟨⟨(by decide : (0 : Int).natAbs ≤ 100000), hz, hw2.1, hw2.2⟩,
          ⟨hw1.1, hw1.2⟩, rfl⟩

theorem optIntField_lt {text : Line} {minLen p len : Nat} {zero : Line} {v : Int}
    (h : optIntField text minLen p len zero = .ok v) : v.natAbs < 10 ^ len := by
  unfold optIntField at h
  split at h
  · have hlt := toInt_natAbs_lt (wrapBadCast_ok h)
    exact lt_of_lt_of_le hlt
      (Nat.pow_le_pow_right (by norm_num) (subClamp_length_le text p len))
  · have hv : (0 : Int) = v := Except.ok.inj h
    rw [← hv]
    exact Nat.pos_pow_of_pos len (by norm_num)

theorem optPropField_pres {text : Line} {minLen p len : Nat} {b b2 : Atom} {k : String}
    (h : optPropField text minLen p len b k = .ok b2) :
    b2.query = b.query ∧ b2.formalCharge = b.formalCharge ∧
    b2.atomicNum = b.atomicNum ∧ b2.mass = b.mass := by
  unfold optPropField at h
  split at h
  · obtain ⟨v, hx, hp⟩ := bind_ok h
    rw [← Except.ok.inj hp]
    exact ⟨rfl, rfl, rfl, rfl⟩
  · rw [← Except.ok.inj h]
    exact ⟨rfl, rfl, rfl, rfl⟩

theorem AtomOK_fields {a b : Atom} (h1 : b.formalCharge = a.formalCharge)
    (h2 : b.atomicNum = a.atomicNum) (h3 : b.mass = a.mass) (h : AtomOK a) : AtomOK b := by
  unfold AtomOK at h ⊢
  rw [h1, h2, h3]
  exact h

theorem chargeStep_fact {b : Atom} {c : Int} (hb : AtomOK b) (hc : c.natAbs < 1000) :
    AtomOK (if c ≠ 0 then { b with formalCharge := 4 - c } else b) ∧
    (if c ≠ 0 then { b with formalCharge := 4 - c } else b).mass = b.mass ∧
    (if c ≠ 0 then { b with formalCharge := 4 - c } else b).query = b.query := by
  split
  · refine ⟨⟨?_, hb.2⟩, rfl, rfl⟩
    show (4 - c).natAbs ≤ 100000
    omega
  · exact ⟨hb, rfl, rfl⟩

theorem hCountStep_fact (b : Atom) (hc : Int) :
    (if hc = 1 then { b with noImplicit := true } else b).formalCharge = b.formalCharge ∧
    (if hc = 1 then { b with noImplicit := true } else b).atomicNum = b.atomicNum ∧
    (if hc = 1 then { b with noImplicit := true } else b).mass = b.mass ∧
    (if hc = 1 then { b with noImplicit := true } else b).query = b.query := by
  split
  · exact ⟨rfl, rfl, rfl, rfl⟩
  · exact ⟨rfl, rfl, rfl, rfl⟩

theorem massStep_fact {b : Atom} {m : Int} (hb : AtomOK b) (hmass : massOKb 10000 b.mass)
    (hmag : atomHasMagic b = false) (hm : m.natAbs < 100) :
    AtomOK (if m ≠ 0 then ({ b with mass := b.mass.add (Frac.ofInt m) }).setProp
        "_hasMassQuery" (.bv true) else b) ∧
    atomHasMagic (if m ≠ 0 then ({ b with mass := b.mass.add (Frac.ofInt m) }).setProp
        "_hasMassQuery" (.bv true) else b) = false := by
  split
  · have hadd := massOKb_add_ofInt hmass (Nat.le_of_lt hm)
    have hadd2 := massOKb_mono (by norm_num : (10000 + 100 : Nat) ≤ 100000) hadd
    exact ⟨⟨hb.1, hb.2.1, hadd2.1, hadd2.2⟩, hmag⟩
  · exact ⟨hb, hmag⟩

theorem ParseMolFileAtomLine_fact {text : Line} {res : Atom} {pos : Point3}
    (h : ParseMolFileAtomLine text = .ok (res, pos)) :
    AtomOK res ∧ atomHasMagic res = false := by
  unfold ParseMolFileAtomLine at h
  split at h
  · exact Except.noConfusion h
  · obtain ⟨px, hp1, h⟩ := bind_ok h
    obtain ⟨py, hp2, h⟩ := bind_ok h
    obtain ⟨pz, hp3, h⟩ := bind_ok h
    try dsimp only at h
    obtain ⟨massDiff, hMD, h⟩ := bind_ok h
    obtain ⟨chg, hCH, h⟩ := bind_ok h
    obtain ⟨hCnt, hHC, h⟩ := bind_ok h
    try dsimp only at h
    obtain ⟨r4, g4, h⟩ := bind_ok h
    obtain ⟨r5, g5, h⟩ := bind_ok h
    obtain ⟨r6, g6, h⟩ := bind_ok h
    obtain ⟨r7, g7, h⟩ := bind_ok h
    obtain ⟨r8, g8, h⟩ := bind_ok h
    obtain ⟨r9, g9, h⟩ := bind_ok h
    have hpair := Except.ok.inj h
    have hres : res = r9 := (congrArg Prod.fst hpair).symm
    subst hres
    obtain ⟨q9, c9, z9, m9⟩ := optPropField_pres g9
    obtain ⟨q8, c8, z8, m8⟩ := optPropField_pres g8
    obtain ⟨q7, c7, z7, m7⟩ := optPropField_pres g7
    obtain ⟨q6, c6, z6, m6⟩ := optPropField_pres g6
    obtain ⟨q5, c5, z5, m5⟩ := optPropField_pres g5
    obtain ⟨q4, c4, z4, m4⟩ := optPropField_pres g4
    have hbase := atomLineBase_fact ((subClamp text 31 3).takeWhile (fun c => c ≠ ' '))
      massDiff
    have hchg := optIntField_lt hCH
    have hmd := optIntField_lt hMD
    obtain ⟨hA1, hM1, hQ1⟩ := chargeStep_fact hbase.1 hchg
    obtain ⟨hc2eq, hz2eq, hm2eq, hq2eq⟩ := hCountStep_fact _ hCnt
    have hA2 := AtomOK_fields hc2eq hz2eq hm2eq hA1
    obtain ⟨hA3, hmag3⟩ := massStep_fact hA2
      (by rw [hm2eq, hM1]; exact hbase.2.1)
      (by rw [atomHasMagic_query hq2eq, atomHasMagic_query hQ1]; exact hbase.2.2) hmd
    constructor
    · exact AtomOK_fields (c9.trans (c8.trans (c7.trans (c6.trans (c5.trans c4)))))
        (z9.trans (z8.trans (z7.trans (z6.trans (z5.trans z4)))))
        (m9.trans (m8.trans (m7.trans (m6.trans (m5.trans m4))))) hA3
    · rw [atomHasMagic_query q9, atomHasMagic_query q8, atomHasMagic_query q7,
        atomHasMagic_query q6, atomHasMagic_query q5, atomHasMagic_query q4]
      exact hmag3

theorem ParseMolBlockAtoms_fact :
    ∀ n lines line (mol : Mol) (conf : Conformer)
      (out : Mol × Conformer × List Line × Nat),
      ParseMolBlockAtoms n lines line mol conf = .ok out →
      out.1.atoms.length = mol.atoms.length + n ∧
      out.1.bonds = mol.bonds ∧ out.1.conformers = mol.conformers ∧
      out.1.props = mol.props ∧
      out.2.1.positions.length = conf.positions.length ∧
      ((∀ a ∈ mol.atoms, AtomOK a) → ∀ a ∈ out.1.atoms, AtomOK a) ∧
      (molHasMagic mol = false → molHasMagic out.1 = false) := by
  intro n
  induction n with
  | zero =>
    intro lines line mol conf out h
    rw [← Except.ok.inj h]
    exact ⟨rfl, rfl, rfl, rfl, rfl, fun h2 => h2, fun h2 => h2⟩
  | succ k ih =>
    intro lines line mol conf out h
    unfold ParseMolBlockAtoms at h
    cases lines with
    | nil =>
      exact Except.noConfusion h
    | cons t rest =>
      unfold getLineS at h
      try dsimp only at h
      obtain ⟨ap, hx, h⟩ := bind_ok h
      obtain ⟨atom, pos⟩ := ap
      obtain ⟨hOKa, hMaga⟩ := ParseMolFileAtomLine_fact hx
      unfold Mol.addAtom at h
      try dsimp only at h
      obtain ⟨i1, i2, i3, i4, i5, i6, i7⟩ := ih rest (line + 1) _ _ out h
      refine ⟨?_, i2, i3, i4, ?_, ?_, ?_⟩
      · rw [i1]
        simp only [List.length_append, List.length_cons, List.length_nil]
        omega
      · rw [i5]
        unfold Conformer.setAtomPos
        simp [List.length_set]
      · intro hOK
        refine i6 ?_
        intro a ha
        rcases List.mem_append.mp ha with hmem | hmem
        · exact hOK a hmem
        · rw [List.mem_singleton.mp hmem]
          exact hOKa
      · intro hm
        refine i7 ?_
        show ((mol.atoms ++ [atom]).any atomHasMagic) = false
        rw [List.any_append]
        unfold molHasMagic at hm
        rw [hm]
        simp [hMaga]

theorem addBond_ok {mol m2 : Mol} {b : Bond} (h : mol.addBond b = .ok m2) :
    m2 = { mol with bonds := mol.bonds ++ [b] } ∧
    b.beginAtomIdx < mol.atoms.length ∧ b.endAtomIdx < mol.atoms.length ∧
    b.beginAtomIdx ≠ b.endAtomIdx := by
  unfold Mol.addBond at h
  split at h
  next hc => exact ⟨(Except.ok.inj h).symm, hc⟩
  next => exact Except.noConfusion h

/-- Facts preserved by the graph-building steps of the bond block. -/
structure GFact (mol m2 : Mol) : Prop where
  atoms : m2.atoms.length = mol.atoms.length
  bonds : m2.bonds = mol.bonds
  confs : m2.conformers = mol.conformers
  props : m2.props = mol.props
  chg : ∀ i, chargeAt m2 i = chargeAt mol i
  ok : (∀ x ∈ mol.atoms, AtomOK x) → ∀ x ∈ m2.atoms, AtomOK x
  magic : molHasMagic mol = false → molHasMagic m2 = false

theorem GFact.of_eqG {mol m2 : Mol} (h : m2 = mol) : GFact mol m2 := by
  subst h
  exact ⟨rfl, rfl, rfl, rfl, fun _ => rfl, fun h2 => h2, fun h2 => h2⟩

theorem GFact.compG {m1 m2 m3 : Mol} (h1 : GFact m1 m2) (h2 : GFact m2 m3) :
    GFact m1 m3 :=
  ⟨h2.atoms.trans h1.atoms, h2.bonds.trans h1.bonds, h2.confs.trans h1.confs,
   h2.props.trans h1.props, fun i => (h2.chg i).trans (h1.chg i),
   fun h => h2.ok (h1.ok h), fun h => h2.magic (h1.magic h)⟩

theorem GFact.replaceAroma {mol : Mol} {idx : Nat} {a : Atom}
    (hget : mol.atoms.get? idx = some a) :
    GFact mol (mol.replaceAtom idx { a with isAromatic := true }) := by
  refine ⟨by simp [Mol.replaceAtom], rfl, rfl, rfl, ?_, ?_, ?_⟩
  · intro i
    by_cases he : idx = i
    · subst he
      rw [chargeAt_replaceAtom_self hget]
      unfold chargeAt
      rw [hget]
      rfl
    · exact chargeAt_replaceAtom_other he
  · intro hOK
    refine forall_mem_set hOK ?_
    exact hOK a (mem_of_get? hget)
  · intro hm
    refine molHasMagic_replaceAtom hm ?_
    exact molHasMagic_false_iff.mp hm a (mem_of_get? hget)

theorem ParseMolBlockBonds_fact :
    ∀ n lines line (mol : Mol) (chir : Bool)
      (out : Mol × List Line × Nat × Bool),
      ParseMolBlockBonds n lines line mol chir = .ok out →
      out.1.atoms.length = mol.atoms.length ∧
      out.1.bonds.length = mol.bonds.length + n ∧
      out.1.conformers = mol.conformers ∧ out.1.props = mol.props ∧
      (∀ i, chargeAt out.1 i = chargeAt mol i) ∧
      ((∀ a ∈ mol.atoms, AtomOK a) → ∀ a ∈ out.1.atoms, AtomOK a) ∧
      (molHasMagic mol = false → molHasMagic out.1 = false) ∧
      (∀ b ∈ out.1.bonds, b ∈ mol.bonds ∨
        (b.beginAtomIdx < out.1.atoms.length ∧ b.endAtomIdx < out.1.atoms.length ∧
         b.beginAtomIdx ≠ b.endAtomIdx)) := by
  intro n
  induction n with
  | zero =>
    intro lines line mol chir out h
    rw [← Except.ok.inj h]
    exact ⟨rfl, rfl, rfl, rfl, fun _ => rfl, fun h2 => h2, fun h2 => h2,
      fun b hb => Or.inl hb⟩
  | succ k ih =>
    intro lines line mol chir out h
    unfold ParseMolBlockBonds at h
    cases lines with
    | nil =>
      exact Except.noConfusion h
    | cons t rest =>
      unfold getLineS at h
      try dsimp only at h
      obtain ⟨bw, hbl, h⟩ := bind_ok h
      obtain ⟨bond0, warns⟩ := bw
      have main : ∀ (mol1 : Mol) (bond : Bond), GFact mol mol1 →
          (mol1.addBond bond >>= fun m3 =>
            ParseMolBlockBonds k rest (line + 1) m3
              (if bond.dir ≠ BondDir.NONE ∧ bond.dir ≠ BondDir.UNKNOWN then true
               else chir)) = .ok out →
          out.1.atoms.length = mol.atoms.length ∧
          out.1.bonds.length = mol.bonds.length + (k + 1) ∧
          out.1.conformers = mol.conformers ∧ out.1.props = mol.props ∧
          (∀ i, chargeAt out.1 i = chargeAt mol i) ∧
          ((∀ a ∈ mol.atoms, AtomOK a) → ∀ a ∈ out.1.atoms, AtomOK a) ∧
          (molHasMagic mol = false → molHasMagic out.1 = false) ∧
          (∀ b ∈ out.1.bonds, b ∈ mol.bonds ∨
            (b.beginAtomIdx < out.1.atoms.length ∧ b.endAtomIdx < out.1.atoms.length ∧
             b.beginAtomIdx ≠ b.endAtomIdx)) := by
        intro mol1 bond hg hh
        obtain ⟨m3, hadd, hh⟩ := bind_ok hh
        obtain ⟨hm3, hr1, hr2, hne⟩ := addBond_ok hadd
        subst hm3
        obtain ⟨i1, i2, i3, i4, i5, i6, i7, i8⟩ := ih rest (line + 1) _ _ out hh
        refine ⟨i1.trans hg.atoms, ?_, i3.trans hg.confs, i4.trans hg.props,
          fun i => (i5 i).trans (hg.chg i), fun hOK => i6 (hg.ok hOK),
          fun hm => i7 (hg.magic hm), ?_⟩
        · rw [i2]
          show (mol1.bonds ++ [bond]).length + k = mol.bonds.length + (k + 1)
          rw [List.length_append, hg.bonds]
          simp only [List.length_cons, List.length_nil]
          omega
        · intro b hb
          rcases i8 b hb with hmem | hrange
          · rcases List.mem_append.mp hmem with hmem2 | hmem2
            · rw [hg.bonds] at hmem2
              exact Or.inl hmem2
            · rw [List.mem_singleton.mp hmem2]
              refine Or.inr ⟨?_, ?_, hne⟩
              · rw [i1.trans hg.atoms, ← hg.atoms]
                exact hr1
              · rw [i1.trans hg.atoms, ← hg.atoms]
                exact hr2
          · exact Or.inr hrange
      split at h
      · obtain ⟨a1, hga1, h⟩ := bind_ok h
        obtain ⟨a2, hga2, h⟩ := bind_ok h
        refine main _ _ ?_ h
        exact GFact.compG (GFact.replaceAroma (getAtomWithIdx_ok hga1))
          (GFact.replaceAroma (getAtomWithIdx_ok hga2))
      · exact main _ _ (GFact.of_eqG rfl) h

theorem v2000Drive_fact {fuel : Nat} {nAtoms nBonds : Int} {lines : List Line} {line : Nat}
    {res : Mol} {dr : DriveRes}
    (hatoms : res.atoms = []) (hbonds : res.bonds = []) (hconfs : res.conformers = [])
    (h : v2000Drive fuel nAtoms nBonds lines line res = .ok dr) :
    0 < nAtoms ∧
    dr.mol.atoms.length = nAtoms.toNat ∧
    dr.mol.bonds.length = uint32 nBonds ∧
    (∃ c : Conformer, dr.mol.conformers = [c] ∧ c.positions.length = nAtoms.toNat) ∧
    (∀ b ∈ dr.mol.bonds, b.beginAtomIdx < dr.mol.atoms.length ∧
      b.endAtomIdx < dr.mol.atoms.length ∧ b.beginAtomIdx ≠ b.endAtomIdx) ∧
    (uint32 nBonds ≤ 1000 → MolInv dr.mol) := by
  unfold v2000Drive at h
  split at h
  next hle => exact Except.noConfusion h
  next hle =>
    have hpos : 0 < nAtoms := by omega
    try dsimp only at h
    obtain ⟨o1, hA, h⟩ := bind_ok h
    obtain ⟨res1, conf1, lines1, line1⟩ := o1
    obtain ⟨a1, a2, a3, a4, a5, a6, a7⟩ :=
      ParseMolBlockAtoms_fact nAtoms.toNat lines line res (Conformer.create nAtoms.toNat)
        (res1, conf1, lines1, line1) hA
    try dsimp only at a1 a2 a3 a4 a5 a6 a7
    have hOK1 : ∀ a ∈ res1.atoms, AtomOK a := by
      refine a6 ?_
      rw [hatoms]
      intro a ha
      exact absurd ha (List.not_mem_nil a)
    have hMag1 : molHasMagic res1 = false := by
      refine a7 ?_
      unfold molHasMagic
      rw [hatoms]
      rfl
    have main : ∀ (res2 : Mol) (conf2 : Conformer),
        res2.atoms = res1.atoms → res2.bonds = res1.bonds →
        res2.conformers = res1.conformers →
        conf2.positions.length = conf1.positions.length →
        (ParseMolBlockBonds (uint32 nBonds) lines1 line1
            (res2.addConformer conf2) false >>= fun d =>
          ParseMolBlockProperties fuel d.1 d.2.1 d.2.2.1 >>= fun e =>
            (pure ⟨e.1, e.2.1, e.2.2.2, d.2.2.2⟩ : Except ParseErr DriveRes)) = .ok dr →
        0 < nAtoms ∧
        dr.mol.atoms.length = nAtoms.toNat ∧
        dr.mol.bonds.length = uint32 nBonds ∧
        (∃ c : Conformer, dr.mol.conformers = [c] ∧ c.positions.length = nAtoms.toNat) ∧
        (∀ b ∈ dr.mol.bonds, b.beginAtomIdx < dr.mol.atoms.length ∧
          b.endAtomIdx < dr.mol.atoms.length ∧ b.beginAtomIdx ≠ b.endAtomIdx) ∧
        (uint32 nBonds ≤ 1000 → MolInv dr.mol) := by
      intro res2 conf2 he1 he2 he3 he4 hh
      obtain ⟨d, hB, hh⟩ := bind_ok hh
      obtain ⟨res4, lines2, line2, chir⟩ := d
      obtain ⟨b1, b2, b3, b4, b5, b6, b7, b8⟩ :=
        ParseMolBlockBonds_fact (uint32 nBonds) lines1 line1 (res2.addConformer conf2)
          false (res4, lines2, line2, chir) hB
      try dsimp only at b1 b2 b3 b4 b5 b6 b7 b8
      try dsimp only at hh
      obtain ⟨e, hP, hh⟩ := bind_ok hh
      obtain ⟨fcO, res5, restO, lineO⟩ := e
      obtain ⟨p1, p2, p3, pinv, pchg⟩ := ParseMolBlockProperties_fact hP
      try dsimp only at p1 p2 p3 pinv pchg
      have hdr : dr = ⟨fcO, res5, lineO, chir⟩ := (Except.ok.inj hh).symm
      subst hdr
      try dsimp only
      have hlen4 : res4.atoms.length = nAtoms.toNat := by
        have : (res2.addConformer conf2).atoms.length = res2.atoms.length := rfl
        rw [b1, this, he1, a1, hatoms]
        simp
      have hbnd4 : res4.bonds.length = uint32 nBonds := by
        have : (res2.addConformer conf2).bonds.length = res2.bonds.length := rfl
        rw [b2, this, he2, a2, hbonds]
        simp
      refine ⟨hpos, ?_, ?_, ?_, ?_, ?_⟩
      · rw [p1]
        exact hlen4
      · rw [p2]
        exact hbnd4
      · refine ⟨conf2, ?_, ?_⟩
        · rw [p3, b3]
          show res2.conformers ++ [conf2] = [conf2]
          rw [he3, a3, hconfs]
          rfl
        · rw [he4, a5]
          unfold Conformer.create
          simp [List.length_replicate]
      · intro b hb
        rw [p2] at hb
        rcases b8 b hb with hmem | hrange
        · have : (res2.addConformer conf2).bonds = res2.bonds := rfl
          rw [this, he2, a2, hbonds] at hmem
          exact absurd hmem (List.not_mem_nil b)
        · rw [p1]
          exact ⟨hrange.1, hrange.2.1, hrange.2.2⟩
      · intro hu
        refine pinv ⟨?_, ?_, Or.inr ?_⟩
        · refine b6 ?_
          show ∀ a ∈ res2.atoms, AtomOK a
          rw [he1]
          exact hOK1
        · rw [hbnd4]
          exact hu
        · refine b7 ?_
          show molHasMagic res2 = false
          unfold molHasMagic at hMag1 ⊢
          rw [he1]
          exact hMag1
    split at h
    · exact main (res1.clearProp "_2DConf") (conf1.set3D false) rfl rfl rfl rfl h
    · split at h
      · exact main (res1.clearProp "_3DConf") (conf1.set3D true) rfl rfl rfl rfl h
      · exact main res1 conf1 rfl rfl rfl rfl h

theorem evalDataFunc_natAbs_le {m : Mol} (i : Nat) (k : QKind)
    (hOK : ∀ a ∈ m.atoms, AtomOK a) (hb : m.bonds.length ≤ 1000) :
    (evalDataFunc m i k).natAbs ≤ 100000 := by
  have hd := molDegree_le m i
  have hA : AtomOK ((m.atoms.get? i).getD {}) := by
    cases hg : m.atoms.get? i with
    | none => exact (by decide : AtomOK ({} : Atom))
    | some a => exact hOK a (mem_of_get? hg)
  have hdeg : ((molDegree m i : Int)).natAbs ≤ 100000 := by
    rw [Int.natAbs_ofNat]
    omega
  cases k with
  | ringBondCount => exact hdeg
  | ringBondCountLE => exact hdeg
  | explicitDegree => exact hdeg
  | atomNum => exact hA.2.1
  | formalCharge => exact hA.1
  | massQ => exact cppIntCast_natAbs_le (massOKb_of_AtomOK hA)
  | unsaturated => exact (by decide : (0 : Int).natAbs ≤ 100000)
  | hCountQ => exact (by decide : (0 : Int).natAbs ≤ 100000)
  | nullQ => exact (by decide : (0 : Int).natAbs ≤ 100000)
  | andQ => exact (by decide : (0 : Int).natAbs ≤ 100000)
  | orQ => exact (by decide : (0 : Int).natAbs ≤ 100000)

mutual
theorem completeQ_noMagic (m : Mol) (i : Nat) (hOK : ∀ a ∈ m.atoms, AtomOK a)
    (hb : m.bonds.length ≤ 1000) :
    ∀ q : AQuery, qHasMagic (completeQueryAndChildren m i q) = false
  | .node k v n cs => by
    rw [completeQueryAndChildren, qHasMagic]
    rw [completeL_noMagic m i hOK hb cs]
    rw [Bool.or_false]
    split
    · exact beq_magic_false (evalDataFunc_natAbs_le i k hOK hb)
    · next hne => exact beq_eq_false_iff_ne.mpr hne

theorem completeL_noMagic (m : Mol) (i : Nat) (hOK : ∀ a ∈ m.atoms, AtomOK a)
    (hb : m.bonds.length ≤ 1000) :
    ∀ l : AQueryL, qlHasMagic (completeChildren m i l) = false
  | .nil => by
    rw [completeChildren]
    rfl
  | .cons q l => by
    rw [completeChildren, qlHasMagic, completeQ_noMagic m i hOK hb q,
      completeL_noMagic m i hOK hb l]
    rfl
end

theorem CompleteMolQueries_noMagic {m : Mol} (hOK : ∀ a ∈ m.atoms, AtomOK a)
    (hb : m.bonds.length ≤ 1000) : molHasMagic (CompleteMolQueries m) = false := by
  rw [molHasMagic_false_iff]
  intro x hx
  unfold CompleteMolQueries at hx
  obtain ⟨p, hp, hpx⟩ := List.mem_map.mp hx
  subst hpx
  cases hq : p.2.query with
  | none =>
    simp only [hq]
    unfold atomHasMagic
    rw [hq]
  | some q =>
    simp only [hq]
    unfold atomHasMagic
    dsimp only
    exact completeQ_noMagic m p.1 hOK hb q

theorem CompleteMolQueries_skel (m : Mol) :
    (CompleteMolQueries m).atoms.length = m.atoms.length ∧
    (CompleteMolQueries m).bonds = m.bonds ∧
    (CompleteMolQueries m).conformers = m.conformers := by
  unfold CompleteMolQueries
  refine ⟨?_, rfl, rfl⟩
  simp [List.enum_length]

theorem finishMol_fact {driven : Except ParseErr DriveRes} {san rh : Bool} {m : Mol}
    {ln : Nat} (h : finishMol driven san rh = .ok (some m, ln)) :
    ∃ dr : DriveRes, driven = .ok dr ∧
      m.atoms.length = dr.mol.atoms.length ∧ m.bonds = dr.mol.bonds ∧
      m.conformers = dr.mol.conformers ∧
      (MolInv dr.mol → molHasMagic m = false) := by
  unfold finishMol at h
  cases driven with
  | error e => exact Except.noConfusion h
  | ok dr =>
    try dsimp only at h
    refine ⟨dr, rfl, ?_⟩
    cases hfc : dr.fileComplete with
    | false =>
      rw [hfc] at h
      rw [if_pos rfl] at h
      exact Except.noConfusion h
    | true =>
      rw [hfc] at h
      rw [if_neg (by decide : ¬ (true = false))] at h
      try dsimp only at h
      have hpair := Except.ok.inj h
      have hm := Option.some.inj (congrArg Prod.fst hpair)
      by_cases hflag : (sanitizePasses dr.mol dr.chiralityPossible san rh).hasProp
          "_NeedsQueryScan" = true
      · rw [if_pos hflag] at hm
        obtain ⟨s1, s2, s3⟩ := CompleteMolQueries_skel
          ((sanitizePasses dr.mol dr.chiralityPossible san rh).clearProp "_NeedsQueryScan")
        rw [← hm]
        refine ⟨s1, s2, s3, ?_⟩
        rintro ⟨hOK, hb, _⟩
        exact CompleteMolQueries_noMagic hOK hb
      · rw [if_neg hflag] at hm
        rw [← hm]
        refine ⟨rfl, rfl, rfl, ?_⟩
        rintro ⟨hOK, hb, hmagic⟩
        cases hmagic with
        | inl hf => exact absurd hf hflag
        | inr hmf => exact hmf

theorem parseCountsLine_bounds {t : Line} {nA nB : Int} {ver : Nat}
    (h : parseCountsLine t = .ok (nA, nB, ver)) :
    nA.natAbs < 1000 ∧ nB.natAbs < 1000 := by
  unfold parseCountsLine at h
  split at h
  · exact Except.noConfusion h
  · obtain ⟨a, h1, h⟩ := bind_ok h
    obtain ⟨b, h2, h⟩ := bind_ok h
    obtain ⟨v, h3, h⟩ := bind_ok h
    have hpair := Except.ok.inj h
    have ha : a = nA := congrArg Prod.fst hpair
    have hb : b = nB := congrArg (fun p => p.2.1) hpair
    rw [← ha, ← hb]
    exact ⟨toInt_subClamp_natAbs_le h1, toInt_subClamp_natAbs_le h2⟩

theorem uint32_small {v : Int} (h0 : 0 ≤ v) (h1 : v.natAbs < 1000) :
    uint32 v ≤ 1000 := by
  unfold uint32
  omega

theorem MolDataStreamToMol_v2000_fact {junk : Junk} {n1 n2 n3 c : Line} {rest : List Line}
    {line0 : Nat} {san rh : Bool} {nA nB : Int} {m : Mol} {ln : Nat}
    (hc : parseCountsLine c = .ok (nA, nB, 2000))
    (h : MolDataStreamToMol junk (n1 :: n2 :: n3 :: c :: rest) line0 san rh =
      .ok (some m, ln)) :
    ∃ (res0 : Mol) (dr : DriveRes),
      res0.atoms = [] ∧ res0.bonds = [] ∧ res0.conformers = [] ∧
      v2000Drive ((n1 :: n2 :: n3 :: c :: rest).length + 2) nA nB rest
        (line0 + 1 + 1 + 1 + 1) res0 = .ok dr ∧
      m.atoms.length = dr.mol.atoms.length ∧ m.bonds = dr.mol.bonds ∧
      m.conformers = dr.mol.conformers ∧ (MolInv dr.mol → molHasMagic m = false) := by
  unfold MolDataStreamToMol at h
  dsimp only [getLineS] at h
  rw [hc] at h
  try dsimp only at h
  rw [dispatchDrive_v2000] at h
  obtain ⟨dr, hdrv, r1, r2, r3, rmag⟩ := finishMol_fact h
  refine ⟨_, dr, ?_, ?_, ?_, hdrv, r1, r2, r3, rmag⟩
  · show (Mol.setProp _ _ _).atoms = []
    repeat' split
    all_goals rfl
  · show (Mol.setProp _ _ _).bonds = []
    repeat' split
    all_goals rfl
  · show (Mol.setProp _ _ _).conformers = []
    repeat' split
    all_goals rfl

set_option maxRecDepth 100000

set_option maxHeartbeats 1000000

/-- Claim C4: only the first `M  CHG` (or `M  RAD`) record of the
property block resets every atom's formal charge to 0 before applying its
entries; afterwards every atom's formal charge is either 0 or a value
listed by some consumed `M  CHG` entry, later charge and radical records
apply their entries without resetting again, and the dispatcher never
turns the first-record flag back on. -/
theorem c4_first_charge_line_resets :
    (∀ (mol : Mol) (text : Line) (m2 : Mol), ParseChargeLine mol text true = .ok m2 →
      ∀ i, chargeAt m2 i = 0 ∨ (i, chargeAt m2 i) ∈ chgLineEntries text) ∧
    (∀ (mol : Mol) (text : Line) (m2 : Mol), ParseChargeLine mol text false = .ok m2 →
      ∀ i, chargeAt m2 i = chargeAt mol i ∨ (i, chargeAt m2 i) ∈ chgLineEntries text) ∧
    (∀ (mol : Mol) (tempStr : Line) (lines : List Line) (line : Nat) (st : PState),
      propDispatch mol tempStr lines line false = .ok st → st.firstChargeLine = false) ∧
    (∀ (fuel : Nat) (mol : Mol) (tempStr : Line) (eofF : Bool) (lines : List Line)
      (line : Nat) (flag : Bool) (out : Bool × Mol × List Line × Nat),
      propLoop fuel mol tempStr eofF lines line flag = .ok out →
      ∀ i, chargeAt out.2.1 i = chargeAt mol i ∨ chargeAt out.2.1 i = 0 ∨
        ∃ t, (t = tempStr ∨ t ∈ lines) ∧ takeC t 6 = strL "M  CHG" ∧
          (i, chargeAt out.2.1 i) ∈ chgLineEntries t) := by
  refine ⟨?_, ?_, ?_, ?_⟩
  · intro mol text m2 h i
    exact (ParseChargeLine_fact h).2.2.2.2.2 rfl i
  · intro mol text m2 h i
    exact (ParseChargeLine_fact h).2.2.2.2.1 rfl i
  · intro mol tempStr lines line st h
    exact (propDispatch_fact h).2.2.2.2.2.1 rfl
  · intro fuel mol tempStr eofF lines line flag out h
    exact (propLoop_fact fuel mol tempStr eofF lines line flag out h).2.2.2.2

def c4Mol : Mol := { atoms := [{ formalCharge := 5 }, { formalCharge := 7 }] }

def c4Text : Line := strL "M  CHG  1   1   3"

def c4Out : Mol :=
  match ParseChargeLine c4Mol c4Text true with
  | .ok m => m
  | .error _ => {}

/-- Claim C4 witness: a first charge line over a two-atom molecule with
nonzero charges leaves every atom listed or reset to zero. -/
theorem c4_first_charge_witness :
    (chargeAt c4Out 0 = 0 ∨ (0, chargeAt c4Out 0) ∈ chgLineEntries c4Text) ∧
    (chargeAt c4Out 1 = 0 ∨ (1, chargeAt c4Out 1) ∈ chgLineEntries c4Text) := by
  have h : ParseChargeLine c4Mol c4Text true = .ok c4Out := by rfl
  exact ⟨c4_first_charge_line_resets.1 c4Mol c4Text c4Out h 0,
    c4_first_charge_line_resets.1 c4Mol c4Text c4Out h 1⟩

/-- Claim C3 (amended): for V2000 inputs (counts-line version V2000) with
a nonnegative wire bond count, a successful parse leaves no MAGIC
sentinel in any atom query: the `M  RBC` −2 path plants MAGIC together
with the `_NeedsQueryScan` flag, and the completion pass resolves every
MAGIC leaf through its data function, whose value on this molecule is
always below the sentinel. -/
theorem c3_v2000_success_no_magic :
    ∀ (junk : Junk) (n1 n2 n3 c : Line) (rest : List Line) (san rh : Bool)
      (nA nB : Int) (m : Mol) (ln : Nat),
      parseCountsLine c = .ok (nA, nB, 2000) → 0 ≤ nB →
      MolBlockToMol junk (n1 :: n2 :: n3 :: c :: rest) san rh = .ok (some m, ln) →
      molHasMagic m = false := by
  intro junk n1 n2 n3 c rest san rh nA nB m ln hc hnb h
  have h2 : MolDataStreamToMol junk (n1 :: n2 :: n3 :: c :: rest) 0 san rh =
      .ok (some m, ln) := h
  obtain ⟨res0, dr, e1, e2, e3, hdrv, r1, r2, r3, rmag⟩ :=
    MolDataStreamToMol_v2000_fact hc h2
  obtain ⟨hpos, hlen, hblen, hconf, hrange, hinv⟩ := v2000Drive_fact e1 e2 e3 hdrv
  exact rmag (hinv (uint32_small hnb (parseCountsLine_bounds hc).2))

def c3wInput : List Line :=
  [strL "rbc", strL "", strL "",
   strL "  2  1  0  0  0  0  0  0  0  0999 V2000",
   strL "    0.0000    0.0000    0.0000 C   0  0  0  0  0  0  0  0  0  0  0  0",
   strL "    0.0000    0.0000    0.0000 O   0  0  0  0  0  0  0  0  0  0  0  0",
   strL "  1  2  1  0",
   strL "M  RBC  1   1  -2",
   strL "M  END"]

def c3wOut : Mol × Nat :=
  match MolBlockToMol ⟨0, 0, 0⟩ c3wInput false false with
  | .ok (some m, ln) => (m, ln)
  | _ => ({}, 0)

/-- Claim C3 (amended) witness: a V2000 input whose `M  RBC` record uses
count −2 (the MAGIC-planting path) parses to a molecule with no MAGIC
leaf. -/
theorem c3_v2000_no_magic_witness : molHasMagic c3wOut.1 = false := by
  refine c3_v2000_success_no_magic ⟨0, 0, 0⟩ (strL "rbc") (strL "") (strL "")
    (strL "  2  1  0  0  0  0  0  0  0  0999 V2000")
    [strL "    0.0000    0.0000    0.0000 C   0  0  0  0  0  0  0  0  0  0  0  0",
     strL "    0.0000    0.0000    0.0000 O   0  0  0  0  0  0  0  0  0  0  0  0",
     strL "  1  2  1  0",
     strL "M  RBC  1   1  -2",
     strL "M  END"] false false 2 1 c3wOut.1 c3wOut.2 (by rfl) (by decide) (by rfl)

/-- Skeleton facts preserved by the per-atom V3000 property updates. -/
structure SK3 (mol m2 : Mol) : Prop where
  alen : m2.atoms.length = mol.atoms.length
  bonds : m2.bonds = mol.bonds
  confs : m2.conformers = mol.conformers

theorem SK3.of_eqS {mol m2 : Mol} (h : m2 = mol) : SK3 mol m2 := by
  subst h
  exact ⟨rfl, rfl, rfl⟩

theorem SK3.compS {m1 m2 m3 : Mol} (h1 : SK3 m1 m2) (h2 : SK3 m2 m3) : SK3 m1 m3 :=
  ⟨h2.alen.trans h1.alen, h2.bonds.trans h1.bonds, h2.confs.trans h1.confs⟩

theorem SK3.replaceAtom {mol : Mol} {i : Nat} {a : Atom} :
    SK3 mol (mol.replaceAtom i a) := by
  refine ⟨?_, rfl, rfl⟩
  simp [Mol.replaceAtom]

theorem SK3.modifyAtom {mol : Mol} {i : Nat} {f : Atom → Atom} :
    SK3 mol (mol.modifyAtom i f) := by
  unfold Mol.modifyAtom
  split
  · exact SK3.replaceAtom
  · exact SK3.of_eqS rfl

theorem SK3.rawqaS {mol : Mol} {i : Nat} : SK3 mol (replaceAtomWithQueryAtom mol i) := by
  unfold replaceAtomWithQueryAtom
  split
  · exact SK3.of_eqS rfl
  · split
    · exact SK3.of_eqS rfl
    · exact SK3.replaceAtom

theorem v3000AtomPropUpdate_fact {aid : Nat} {mol : Mol} {prop val : Line} {m1 : Mol}
    (hx : v3000AtomPropUpdate aid mol prop val = .ok m1) : SK3 mol m1 := by
  unfold v3000AtomPropUpdate at hx
  by_cases c1 : prop = strL "CHG"
  · rw [if_pos c1] at hx
    repeat' first
      | (obtain ⟨w, hw, hx⟩ := bind_ok hx)
      | split at hx
      | dsimp only at hx
    all_goals first
      | exact Except.noConfusion hx
      | (rw [← Except.ok.inj hx]
         first
         | exact SK3.of_eqS rfl
         | exact SK3.replaceAtom
         | exact SK3.modifyAtom
         | exact SK3.compS SK3.rawqaS SK3.modifyAtom
         | (split
            <;> first
              | exact SK3.modifyAtom
              | exact SK3.compS SK3.rawqaS SK3.modifyAtom
              | exact SK3.replaceAtom
              | exact SK3.of_eqS rfl))
  · rw [if_neg c1] at hx
    by_cases c2 : prop = strL "RAD"
    · rw [if_pos c2] at hx
      repeat' first
        | (obtain ⟨w, hw, hx⟩ := bind_ok hx)
        | split at hx
        | dsimp only at hx
      all_goals first
        | exact Except.noConfusion hx
        | (rw [← Except.ok.inj hx]
           first
           | exact SK3.of_eqS rfl
           | exact SK3.replaceAtom
           | exact SK3.modifyAtom
           | exact SK3.compS SK3.rawqaS SK3.modifyAtom
           | (split
              <;> first
                | exact SK3.modifyAtom
                | exact SK3.compS SK3.rawqaS SK3.modifyAtom
                | exact SK3.replaceAtom
                | exact SK3.of_eqS rfl))
    · rw [if_neg c2] at hx
      by_cases c3 : prop = strL "MASS"
      · rw [if_pos c3] at hx
        repeat' first
          | (obtain ⟨w, hw, hx⟩ := bind_ok hx)
          | split at hx
          | dsimp only at hx
        all_goals first
          | exact Except.noConfusion hx
          | (rw [← Except.ok.inj hx]
             first
             | exact SK3.of_eqS rfl
             | exact SK3.replaceAtom
             | exact SK3.modifyAtom
             | exact SK3.compS SK3.rawqaS SK3.modifyAtom
             | (split
                <;> first
                  | exact SK3.modifyAtom
                  | exact SK3.compS SK3.rawqaS SK3.modifyAtom
                  | exact SK3.replaceAtom
                  | exact SK3.of_eqS rfl))
      · rw [if_neg c3] at hx
        by_cases c4 : prop = strL "CFG"
        · rw [if_pos c4] at hx
          repeat' first
            | (obtain ⟨w, hw, hx⟩ := bind_ok hx)
            | split at hx
            | dsimp only at hx
          all_goals first
            | exact Except.noConfusion hx
            | (rw [← Except.ok.inj hx]
               first
               | exact SK3.of_eqS rfl
               | exact SK3.replaceAtom
               | exact SK3.modifyAtom
               | exact SK3.compS SK3.rawqaS SK3.modifyAtom
               | (split
                  <;> first
                    | exact SK3.modifyAtom
                    | exact SK3.compS SK3.rawqaS SK3.modifyAtom
                    | exact SK3.replaceAtom
                    | exact SK3.of_eqS rfl))
        · rw [if_neg c4] at hx
          by_cases c5 : prop = strL "HCOUNT"
          · rw [if_pos c5] at hx
            repeat' first
              | (obtain ⟨w, hw, hx⟩ := bind_ok hx)
              | split at hx
              | dsimp only at hx
            all_goals first
              | exact Except.noConfusion hx
              | (rw [← Except.ok.inj hx]
                 first
                 | exact SK3.of_eqS rfl
                 | exact SK3.replaceAtom
                 | exact SK3.modifyAtom
                 | exact SK3.compS SK3.rawqaS SK3.modifyAtom
                 | (split
                    <;> first
                      | exact SK3.modifyAtom
                      | exact SK3.compS SK3.rawqaS SK3.modifyAtom
                      | exact SK3.replaceAtom
                      | exact SK3.of_eqS rfl))
          · rw [if_neg c5] at hx
            by_cases c6 : prop = strL "UNSAT"
            · rw [if_pos c6] at hx
              repeat' first
                | (obtain ⟨w, hw, hx⟩ := bind_ok hx)
                | split at hx
                | dsimp only at hx
              all_goals first
                | exact Except.noConfusion hx
                | (rw [← Except.ok.inj hx]
                   first
                   | exact SK3.of_eqS rfl
                   | exact SK3.replaceAtom
                   | exact SK3.modifyAtom
                   | exact SK3.compS SK3.rawqaS SK3.modifyAtom
                   | (split
                      <;> first
                        | exact SK3.modifyAtom
                        | exact SK3.compS SK3.rawqaS SK3.modifyAtom
                        | exact SK3.replaceAtom
                        | exact SK3.of_eqS rfl))
            · rw [if_neg c6] at hx
              by_cases c7 : prop = strL "RBCNT"
              · rw [if_pos c7] at hx
                repeat' first
                  | (obtain ⟨w, hw, hx⟩ := bind_ok hx)
                  | split at hx
                  | dsimp only at hx
                all_goals first
                  | exact Except.noConfusion hx
                  | (rw [← Except.ok.inj hx]
                     first
                     | exact SK3.of_eqS rfl
                     | exact SK3.replaceAtom
                     | exact SK3.modifyAtom
                     | exact SK3.compS SK3.rawqaS SK3.modifyAtom
                     | (split
                        <;> first
                          | exact SK3.modifyAtom
                          | exact SK3.compS SK3.rawqaS SK3.modifyAtom
                          | exact SK3.replaceAtom
                          | exact SK3.of_eqS rfl))
              · rw [if_neg c7] at hx
                by_cases c8 : prop = strL "AAMAP"
                · rw [if_pos c8] at hx
                  repeat' first
                    | (obtain ⟨w, hw, hx⟩ := bind_ok hx)
                    | split at hx
                    | dsimp only at hx
                  all_goals first
                    | exact Except.noConfusion hx
                    | (rw [← Except.ok.inj hx]
                       first
                       | exact SK3.of_eqS rfl
                       | exact SK3.replaceAtom
                       | exact SK3.modifyAtom
                       | exact SK3.compS SK3.rawqaS SK3.modifyAtom
                       | (split
                          <;> first
                            | exact SK3.modifyAtom
                            | exact SK3.compS SK3.rawqaS SK3.modifyAtom
                            | exact SK3.replaceAtom
                            | exact SK3.of_eqS rfl))
                · rw [if_neg c8] at hx
                  exact SK3.of_eqS (Except.ok.inj hx).symm

theorem ParseV3000AtomProps_fact (aid : Nat) (tokens : List Line) :
    ∀ (mol m2 : Mol), ParseV3000AtomProps aid mol tokens = .ok m2 → SK3 mol m2 := by
  induction tokens with
  | nil =>
    intro mol m2 h
    exact SK3.of_eqS (Except.ok.inj h).symm
  | cons token rest ih =>
    intro mol m2 h
    unfold ParseV3000AtomProps at h
    split at h
    · exact Except.noConfusion h
    · try dsimp only at h
      obtain ⟨m1, hm1, h⟩ := bind_ok h
      exact SK3.compS (v3000AtomPropUpdate_fact hm1) (ih m1 m2 h)

theorem v3000AtomLoop_fact (fuel : Nat) :
    ∀ (n : Nat) (lines : List Line) (line : Nat) (mol : Mol) (conf : Conformer)
      (out : Mol × Conformer × List Line × Nat),
      v3000AtomLoop fuel n lines line mol conf = .ok out →
      out.1.atoms.length = mol.atoms.length + n ∧ out.1.bonds = mol.bonds ∧
      out.1.conformers = mol.conformers ∧
      out.2.1.positions.length = conf.positions.length := by
  intro n
  induction n with
  | zero =>
    intro lines line mol conf out h
    rw [← Except.ok.inj h]
    exact ⟨rfl, rfl, rfl, rfl⟩
  | succ k ih =>
    intro lines line mol conf out h
    unfold v3000AtomLoop at h
    obtain ⟨g1, hg1, h⟩ := bind_ok h
    obtain ⟨t, lines1, line1⟩ := g1
    try dsimp only at h
    split at h
    · exact Except.noConfusion h
    · try dsimp only at h
      obtain ⟨stk, hstk, h⟩ := bind_ok h
      obtain ⟨symTok, negate, tks⟩ := stk
      try dsimp only at h
      obtain ⟨atom, hatom, h⟩ := bind_ok h
      try dsimp only at h
      split at h
      · dsimp only [Mol.addAtom] at h
        try dsimp only at h
        obtain ⟨m1, hp, h⟩ := bind_ok h
        obtain ⟨p1, p2, p3⟩ := ParseV3000AtomProps_fact _ _ _ _ hp
        obtain ⟨i1, i2, i3, i4⟩ := ih lines1 line1 _ _ out h
        refine ⟨?_, ?_, ?_, ?_⟩
        · rw [i1]
          have hl : m1.atoms.length = mol.atoms.length + 1 := by
            rw [p1]
            simp [List.length_append]
          show m1.atoms.length + k = mol.atoms.length + (k + 1)
          omega
        · rw [i2]
          exact p2
        · rw [i3]
          exact p3
        · rw [i4]
          show (conf.positions.set _ _).length = conf.positions.length
          exact List.length_set conf.positions _ _
      · exact Except.noConfusion h

theorem ParseV3000AtomBlock_fact {fuel : Nat} {lines : List Line} {line nAtoms : Nat}
    {mol : Mol} {conf : Conformer} {out : Mol × Conformer × List Line × Nat}
    (h : ParseV3000AtomBlock fuel lines line nAtoms mol conf = .ok out) :
    out.1.atoms.length = mol.atoms.length + nAtoms ∧ out.1.bonds = mol.bonds ∧
    out.1.conformers = mol.conformers ∧
    out.2.1.positions.length = conf.positions.length := by
  unfold ParseV3000AtomBlock at h
  split at h
  · exact Except.noConfusion h
  · try dsimp only at h
    obtain ⟨g1, hg1, h⟩ := bind_ok h
    obtain ⟨t, lines1, line1⟩ := g1
    try dsimp only at h
    split at h
    · exact Except.noConfusion h
    · obtain ⟨o1, hloop, h⟩ := bind_ok h
      obtain ⟨molL, confL, linesL, lineL⟩ := o1
      obtain ⟨a1, a2, a3, a4⟩ := v3000AtomLoop_fact fuel nAtoms lines1 line1 mol conf _ hloop
      try dsimp only at a1 a2 a3 a4
      try dsimp only at h
      obtain ⟨g2, hg2, h⟩ := bind_ok h
      obtain ⟨t2, lines2, line2⟩ := g2
      try dsimp only at h
      split at h
      · exact Except.noConfusion h
      · split at h
        · rw [← Except.ok.inj h]
          exact ⟨a1, a2, a3, a4⟩
        · split at h
          · rw [← Except.ok.inj h]
            exact ⟨a1, a2, a3, a4⟩
          · rw [← Except.ok.inj h]
            exact ⟨a1, a2, a3, a4⟩

theorem v3000BondLoop_fact (fuel : Nat) :
    ∀ (n : Nat) (lines : List Line) (line : Nat) (mol : Mol) (chir : Bool)
      (out : Mol × List Line × Nat × Bool),
      v3000BondLoop fuel n lines line mol chir = .ok out →
      out.1.atoms.length = mol.atoms.length ∧ out.1.conformers = mol.conformers ∧
      out.1.bonds.length = mol.bonds.length + n ∧
      (∀ b ∈ out.1.bonds, b ∈ mol.bonds ∨
        (b.beginAtomIdx < out.1.atoms.length ∧ b.endAtomIdx < out.1.atoms.length ∧
         b.beginAtomIdx ≠ b.endAtomIdx)) := by
  intro n
  induction n with
  | zero =>
    intro lines line mol chir out h
    rw [← Except.ok.inj h]
    exact ⟨rfl, rfl, rfl, fun b hb => Or.inl hb⟩
  | succ k ih =>
    intro lines line mol chir out h
    unfold v3000BondLoop at h
    obtain ⟨g1, hg1, h⟩ := bind_ok h
    obtain ⟨t, lines1, line1⟩ := g1
    try dsimp only at h
    split at h
    · exact Except.noConfusion h
    · try dsimp only at h
      obtain ⟨bc, hbc, h⟩ := bind_ok h
      obtain ⟨bond1, chir1⟩ := bc
      try dsimp only at h
      obtain ⟨a1, hga1, h⟩ := bind_ok h
      obtain ⟨a2, hga2, h⟩ := bind_ok h
      try dsimp only at h
      obtain ⟨m3, hadd, h⟩ := bind_ok h
      obtain ⟨hm3, hr1, hr2, hne⟩ := addBond_ok hadd
      subst hm3
      try dsimp only at h
      have main : ∀ (mol4 : Mol),
          GFact { mol with bonds :=
            mol.bonds ++ [{ bond1 with beginAtomIdx := a1, endAtomIdx := a2 }] } mol4 →
          v3000BondLoop fuel k lines1 line1
            (mol4.setBondBookmark (mol4.bonds.length - 1)
              (uint32 (atoiModel ((splitWS (trimC t)).getD 0 [])))) chir1 = .ok out →
          out.1.atoms.length = mol.atoms.length ∧ out.1.conformers = mol.conformers ∧
          out.1.bonds.length = mol.bonds.length + (k + 1) ∧
          (∀ b ∈ out.1.bonds, b ∈ mol.bonds ∨
            (b.beginAtomIdx < out.1.atoms.length ∧ b.endAtomIdx < out.1.atoms.length ∧
             b.beginAtomIdx ≠ b.endAtomIdx)) := by
        intro mol4 hg hh
        obtain ⟨i1, i2, i3, i4⟩ := ih lines1 line1 _ _ out hh
        have e1 : out.1.atoms.length = mol.atoms.length := by
          rw [i1]
          show mol4.atoms.length = mol.atoms.length
          exact hg.atoms
        have e2 : out.1.conformers = mol.conformers := by
          rw [i2]
          show mol4.conformers = mol.conformers
          exact hg.confs
        refine ⟨e1, e2, ?_, ?_⟩
        · rw [i3]
          show mol4.bonds.length + k = mol.bonds.length + (k + 1)
          rw [hg.bonds]
          simp only [List.length_append, List.length_cons, List.length_nil]
          omega
        · intro b hb
          rcases i4 b hb with hmem | hrange
          · have hmem2 : b ∈ mol4.bonds := hmem
            rw [hg.bonds] at hmem2
            rcases List.mem_append.mp hmem2 with hmem3 | hmem3
            · exact Or.inl hmem3
            · rw [List.mem_singleton.mp hmem3]
              refine Or.inr ⟨?_, ?_, hne⟩
              · rw [e1]
                exact hr1
              · rw [e1]
                exact hr2
          · exact Or.inr hrange
      split at h
      · obtain ⟨x1, hgx1, h⟩ := bind_ok h
        obtain ⟨x2, hgx2, h⟩ := bind_ok h
        refine main _ ?_ h
        exact GFact.compG (GFact.replaceAroma (getAtomWithIdx_ok hgx1))
          (GFact.replaceAroma (getAtomWithIdx_ok hgx2))
      · exact main _ (GFact.of_eqG rfl) h

theorem ParseV3000BondBlock_fact {fuel nBonds : Nat} {lines : List Line} {line : Nat}
    {mol : Mol} {chir : Bool} {out : Mol × List Line × Nat × Bool}
    (h : ParseV3000BondBlock fuel nBonds lines line mol chir = .ok out) :
    out.1.atoms.length = mol.atoms.length ∧ out.1.conformers = mol.conformers ∧
    out.1.bonds.length = mol.bonds.length + nBonds ∧
    (∀ b ∈ out.1.bonds, b ∈ mol.bonds ∨
      (b.beginAtomIdx < out.1.atoms.length ∧ b.endAtomIdx < out.1.atoms.length ∧
       b.beginAtomIdx ≠ b.endAtomIdx)) := by
  unfold ParseV3000BondBlock at h
  split at h
  · exact Except.noConfusion h
  · try dsimp only at h
    obtain ⟨g1, hg1, h⟩ := bind_ok h
    obtain ⟨t, lines1, line1⟩ := g1
    try dsimp only at h
    split at h
    · exact Except.noConfusion h
    · obtain ⟨o1, hloop, h⟩ := bind_ok h
      obtain ⟨molL, linesL, lineL, chirL⟩ := o1
      obtain ⟨a1, a2, a3, a4⟩ := v3000BondLoop_fact fuel nBonds lines1 line1 mol chir _ hloop
      try dsimp only at a1 a2 a3 a4
      try dsimp only at h
      obtain ⟨g2, hg2, h⟩ := bind_ok h
      obtain ⟨t2, lines2, line2⟩ := g2
      try dsimp only at h
      split at h
      · exact Except.noConfusion h
      · rw [← Except.ok.inj h]
        exact ⟨a1, a2, a3, a4⟩

theorem ParseV3000MolBlock_fact {fuel : Nat} {junk : Junk} {lines : List Line} {line : Nat}
    {mol : Mol} {chir : Bool} {out : Mol × List Line × Nat × Bool}
    (h : ParseV3000MolBlock fuel junk lines line mol chir = .ok out) :
    ∃ na : Nat, na ≠ 0 ∧ out.1.atoms.length = mol.atoms.length + na ∧
      (∃ c : Conformer, out.1.conformers = mol.conformers ++ [c] ∧ c.positions.length = na) ∧
      (∃ nb : Nat, out.1.bonds.length = mol.bonds.length + nb) ∧
      (∀ b ∈ out.1.bonds, b ∈ mol.bonds ∨
        (b.beginAtomIdx < out.1.atoms.length ∧ b.endAtomIdx < out.1.atoms.length ∧
         b.beginAtomIdx ≠ b.endAtomIdx)) := by
  unfold ParseV3000MolBlock at h
  obtain ⟨g1, hg1, h⟩ := bind_ok h
  obtain ⟨t, lines1, line1⟩ := g1
  try dsimp only at h
  by_cases hc1 : t.length < 10 ∨ takeC t 10 ≠ strL "BEGIN CTAB"
  · rw [if_pos hc1] at h
    exact Except.noConfusion h
  · rw [if_neg hc1] at h
    try dsimp only at h
    obtain ⟨g2, hg2, h⟩ := bind_ok h
    obtain ⟨tempStr, lines2, line2⟩ := g2
    try dsimp only at h
    by_cases hc2 : tempStr.length < 8 ∨ takeC tempStr 7 ≠ strL "COUNTS "
    · rw [if_pos hc2] at h
      exact Except.noConfusion h
    · rw [if_neg hc2] at h
      try dsimp only at h
      by_cases hc3 :
          (splitWS (trimC (subClamp tempStr 7 (tempStr.length - 7)))).length < 2
      · rw [if_pos hc3] at h
        exact Except.noConfusion h
      · rw [if_neg hc3] at h
        try dsimp only at h
        obtain ⟨vA, hvA, h⟩ := bind_ok h
        try dsimp only at h
        obtain ⟨vB, hvB, h⟩ := bind_ok h
        try dsimp only at h
        by_cases hna : uint32 vA = 0
        · rw [if_pos hna] at h
          exact Except.noConfusion h
        · rw [if_neg hna] at h
          try dsimp only at h
          obtain ⟨nsg, hnsg, h⟩ := bind_ok h
          obtain ⟨n3d, hn3d, h⟩ := bind_ok h
          obtain ⟨nchi, hnchi, h⟩ := bind_ok h
          try dsimp only at h
          obtain ⟨oA, hA, h⟩ := bind_ok h
          obtain ⟨molA, confA, lines3, line3⟩ := oA
          obtain ⟨a1, a2, a3, a4⟩ := ParseV3000AtomBlock_fact hA
          try dsimp only at a1 a2 a3 a4
          try dsimp only at h
          obtain ⟨oB, hB, h⟩ := bind_ok h
          obtain ⟨molB, lines4, line4, chirB⟩ := oB
          obtain ⟨b1, b2, b3, b4⟩ := ParseV3000BondBlock_fact hB
          try dsimp only at b1 b2 b3 b4
          try dsimp only at h
          obtain ⟨sg1, hsg, h⟩ := bind_ok h
          obtain ⟨lines5, line5⟩ := sg1
          try dsimp only at h
          obtain ⟨ob1, hob, h⟩ := bind_ok h
          obtain ⟨lines6, line6⟩ := ob1
          try dsimp only at h
          obtain ⟨g3, hg3, h⟩ := bind_ok h
          obtain ⟨t3, lines7, line7⟩ := g3
          try dsimp only at h
          obtain ⟨g4, hg4, h⟩ := bind_ok h
          obtain ⟨t4, lines8, line8⟩ := g4
          try dsimp only at h
          obtain ⟨g5, hg5, h⟩ := bind_ok h
          obtain ⟨t5, lines9, line9⟩ := g5
          try dsimp only at h
          by_cases hend : t5.length < 8 ∨ takeC t5 8 ≠ strL "END CTAB"
          · rw [if_pos hend] at h
            exact Except.noConfusion h
          · rw [if_neg hend] at h
            rw [← Except.ok.inj h]
            refine ⟨uint32 vA, hna, ?_, ⟨confA, ?_, ?_⟩, ⟨uint32 vB, ?_⟩, ?_⟩
            · show molB.atoms.length = mol.atoms.length + uint32 vA
              rw [b1, a1]
            · show molB.conformers ++ [confA] = mol.conformers ++ [confA]
              rw [b2, a3]
            · rw [a4]
              show (Conformer.create (uint32 vA)).positions.length = uint32 vA
              simp [Conformer.create]
            · show molB.bonds.length = mol.bonds.length + uint32 vB
              rw [b3, a2]
            · intro b hb
              have hb2 : b ∈ molB.bonds := hb
              rcases b4 b hb2 with hmem | hrange
              · rw [a2] at hmem
                exact Or.inl hmem
              · refine Or.inr ?_
                show b.beginAtomIdx < molB.atoms.length ∧
                  b.endAtomIdx < molB.atoms.length ∧ b.beginAtomIdx ≠ b.endAtomIdx
                exact hrange

theorem dispatchDrive_fact {junk : Junk} {fuel : Nat} {nA nB : Int} {version : Nat}
    {lines : List Line} {line : Nat} {res : Mol} {dr : DriveRes}
    (ha : res.atoms = []) (hb : res.bonds = []) (hc : res.conformers = [])
    (h : dispatchDrive junk fuel nA nB version lines line res = .ok dr) :
    (∃ c : Conformer, dr.mol.conformers = [c] ∧
      c.positions.length = dr.mol.atoms.length) ∧
    (∀ b ∈ dr.mol.bonds, b.beginAtomIdx < dr.mol.atoms.length ∧
      b.endAtomIdx < dr.mol.atoms.length ∧ b.beginAtomIdx ≠ b.endAtomIdx) := by
  unfold dispatchDrive at h
  split at h
  · obtain ⟨hpos, hlen, hblen, ⟨c, hcs, hcl⟩, hrange, hinv⟩ := v2000Drive_fact ha hb hc h
    exact ⟨⟨c, hcs, by rw [hcl, hlen]⟩, hrange⟩
  · split at h
    · exact Except.noConfusion h
    · obtain ⟨o, ho, h⟩ := bind_ok h
      obtain ⟨molV, restV, lineV, chirV⟩ := o
      try dsimp only at h
      obtain ⟨na, hna, hal, ⟨c, hcs, hcl⟩, ⟨nb2, hbl⟩, hrange⟩ := ParseV3000MolBlock_fact ho
      try dsimp only at hal hcs hcl hbl
      have hdr : dr = ⟨true, molV, lineV, chirV⟩ := (Except.ok.inj h).symm
      subst hdr
      try dsimp only at hal hcs hbl ⊢
      constructor
      · refine ⟨c, ?_, ?_⟩
        · rw [hcs, hc]
          rfl
        · rw [hcl, hal, ha]
          simp
      · intro b hbmem
        exact (hrange b hbmem).elim (fun hmem => by rw [hb] at hmem; cases hmem)
          (fun hr => hr)

theorem MolDataStreamToMol_fact {junk : Junk} {lines0 : List Line} {line0 : Nat}
    {san rh : Bool} {m : Mol} {ln : Nat}
    (h : MolDataStreamToMol junk lines0 line0 san rh = .ok (some m, ln)) :
    ∃ (fuel : Nat) (nA nB : Int) (version : Nat) (r4 : List Line) (line : Nat)
      (res : Mol) (dr : DriveRes),
      res.atoms = [] ∧ res.bonds = [] ∧ res.conformers = [] ∧
      dispatchDrive junk fuel nA nB version r4 line res = .ok dr ∧
      m.atoms.length = dr.mol.atoms.length ∧ m.bonds = dr.mol.bonds ∧
      m.conformers = dr.mol.conformers := by
  unfold MolDataStreamToMol at h
  cases lines0 with
  | nil =>
    dsimp only [getLineS] at h
    rw [if_pos rfl] at h
    exact Option.noConfusion (congrArg Prod.fst (Except.ok.inj h))
  | cons l0 r1 =>
    dsimp only [getLineS] at h
    rw [if_neg (by decide : ¬ (false = true))] at h
    try dsimp only at h
    split at h
    · exact Except.noConfusion h
    next nA nB version heq4 =>
      obtain ⟨dr, hdrv, e1, e2, e3, emag⟩ := finishMol_fact h
      refine ⟨_, nA, nB, version, _, _, _, dr, ?_, ?_, ?_, hdrv, e1, e2, e3⟩
      · show (Mol.setProp _ _ _).atoms = []
        repeat' split
        all_goals rfl
      · show (Mol.setProp _ _ _).bonds = []
        repeat' split
        all_goals rfl
      · show (Mol.setProp _ _ _).conformers = []
        repeat' split
        all_goals rfl

/-- Claim C1: a successful parse yields a molecule whose single conformer
holds exactly one position per atom and whose bonds all have in-range,
mutually distinct endpoint indices (both counts-line versions); for a
V2000 input the atom count equals the counts-line `nAtoms` (which is
positive) and the bond count equals `nBonds` after the unsigned
conversion; the V3000 atom and bond blocks add exactly their `COUNTS`
numbers of atoms and bonds. -/
theorem c1_counts_and_graph_invariants :
    (∀ (junk : Junk) (lines : List Line) (san rh : Bool) (m : Mol) (ln : Nat),
      MolBlockToMol junk lines san rh = .ok (some m, ln) →
      (∃ c : Conformer, m.conformers = [c] ∧ c.positions.length = m.atoms.length) ∧
      (∀ b ∈ m.bonds, b.beginAtomIdx < m.atoms.length ∧ b.endAtomIdx < m.atoms.length ∧
        b.beginAtomIdx ≠ b.endAtomIdx)) ∧
    (∀ (junk : Junk) (n1 n2 n3 c : Line) (rest : List Line) (san rh : Bool)
      (nA nB : Int) (m : Mol) (ln : Nat),
      parseCountsLine c = .ok (nA, nB, 2000) →
      MolBlockToMol junk (n1 :: n2 :: n3 :: c :: rest) san rh = .ok (some m, ln) →
      m.atoms.length = nA.toNat ∧ 0 < nA ∧ m.bonds.length = uint32 nB) ∧
    (∀ (fuel : Nat) (lines : List Line) (line nAtoms : Nat) (mol : Mol) (conf : Conformer)
      (out : Mol × Conformer × List Line × Nat),
      ParseV3000AtomBlock fuel lines line nAtoms mol conf = .ok out →
      out.1.atoms.length = mol.atoms.length + nAtoms) ∧
    (∀ (fuel nBonds : Nat) (lines : List Line) (line : Nat) (mol : Mol) (chir : Bool)
      (out : Mol × List Line × Nat × Bool),
      ParseV3000BondBlock fuel nBonds lines line mol chir = .ok out →
      out.1.bonds.length = mol.bonds.length + nBonds) := by
  refine ⟨?_, ?_, ?_, ?_⟩
  · intro junk lines san rh m ln h
    have h2 : MolDataStreamToMol junk lines 0 san rh = .ok (some m, ln) := h
    obtain ⟨fuel, nA, nB, version, r4, line, res, dr, ea, eb, ec, hdrv, e1, e2, e3⟩ :=
      MolDataStreamToMol_fact h2
    obtain ⟨⟨c, hcs, hcl⟩, hrange⟩ := dispatchDrive_fact ea eb ec hdrv
    constructor
    · refine ⟨c, ?_, ?_⟩
      · rw [e3, hcs]
      · rw [hcl, e1]
    · intro b hb
      rw [e2] at hb
      obtain ⟨r1, r2, r3⟩ := hrange b hb
      rw [← e1] at r1 r2
      exact ⟨r1, r2, r3⟩
  · intro junk n1 n2 n3 c rest san rh nA nB m ln hc h
    have h2 : MolDataStreamToMol junk (n1 :: n2 :: n3 :: c :: rest) 0 san rh =
        .ok (some m, ln) := h
    obtain ⟨res0, dr, e1, e2, e3, hdrv, r1, r2, r3, rmag⟩ :=
      MolDataStreamToMol_v2000_fact hc h2
    obtain ⟨hpos, hlen, hblen, hconf, hrange, hinv⟩ := v2000Drive_fact e1 e2 e3 hdrv
    refine ⟨r1.trans hlen, hpos, ?_⟩
    rw [r2]
    exact hblen
  · intro fuel lines line nAtoms mol conf out h
    exact (ParseV3000AtomBlock_fact h).1
  · intro fuel nBonds lines line mol chir out h
    exact (ParseV3000BondBlock_fact h).2.2.1

def c1V3Input : List Line :=
  [strL "v3k", strL "", strL "",
   strL "  0  0  0  0  0  0  0  0  0  0999 V3000",
   strL "M  V30 BEGIN CTAB",
   strL "M  V30 COUNTS 2 1 0 0 0",
   strL "M  V30 BEGIN ATOM",
   strL "M  V30 1 C 0 0 0 0",
   strL "M  V30 2 O 0 0 0 0",
   strL "M  V30 END ATOM",
   strL "M  V30 BEGIN BOND",
   strL "M  V30 1 1 1 2",
   strL "M  V30 END BOND",
   strL "M  V30 END CTAB",
   strL "M  END"]

def c1V3Out : Mol × Nat :=
  match MolBlockToMol ⟨5, 7, 9⟩ c1V3Input false false with
  | .ok (some m, ln) => (m, ln)
  | _ => ({}, 0)

def c1V2Input : List Line :=
  [strL "c1", strL "", strL "",
   strL "  1  0  0  0  0  0  0  0  0  0999 V2000",
   strL "    0.0000    0.0000    0.0000 C   0  0  0  0  0  0  0  0  0  0  0  0",
   strL "M  END"]

def c1V2Out : Mol × Nat :=
  match MolBlockToMol ⟨5, 7, 9⟩ c1V2Input false false with
  | .ok (some m, ln) => (m, ln)
  | _ => ({}, 0)

/-- Claim C1 witness: a successful V3000 parse (two atoms, one bond)
satisfies the conformer and bond-range invariants, and a successful
V2000 parse has its counts-line atom count. -/
theorem c1_counts_witness :
    ((∃ c : Conformer, c1V3Out.1.conformers = [c] ∧
        c.positions.length = c1V3Out.1.atoms.length) ∧
      (∀ b ∈ c1V3Out.1.bonds, b.beginAtomIdx < c1V3Out.1.atoms.length ∧
        b.endAtomIdx < c1V3Out.1.atoms.length ∧ b.beginAtomIdx ≠ b.endAtomIdx)) ∧
    c1V2Out.1.atoms.length = (1 : Int).toNat := by
  have h3 := c1_counts_and_graph_invariants.1 ⟨5, 7, 9⟩ c1V3Input false false
    c1V3Out.1 c1V3Out.2 (by rfl)
  have h2 := c1_counts_and_graph_invariants.2.1 ⟨5, 7, 9⟩ (strL "c1") (strL "")
    (strL "")
    (strL "  1  0  0  0  0  0  0  0  0  0999 V2000")
    [strL "    0.0000    0.0000    0.0000 C   0  0  0  0  0  0  0  0  0  0  0  0",
     strL "M  END"] false false 1 0 c1V2Out.1 c1V2Out.2 (by rfl) (by rfl)
  exact ⟨h3, h2.1⟩
